import Mathlib

/-!
Verification of the Tinix teaching OS simulator against its specification.

This file contains a shallow embedding of the Tinix sources (process
scheduler, virtual-memory manager with Clock replacement, on-disk file
system, pseudo-instruction executor) and theorems settling the claims
about them.  Components whose sources are not available (DeviceManager,
FileDescriptorTable, InodeManager, BlockManager, the current
PageTableEntry record) are modelled from the specification and marked as
such in their doc comments.
-/

namespace Tinix

/-! ## Configuration constants (include/common/config.h, include/fs/fs_defs.h) -/

namespace config

def PAGE_FRAMES : Nat := 8
def PAGE_SIZE : Nat := 0x1000
def DEFAULT_VIRTUAL_PAGES : Nat := 256
def DISK_BLOCK_SIZE : Nat := 0x1000
def DISK_NUM_BLOCKS : Nat := 1024
def SWAP_RESERVED_BLOCKS : Nat := 128
def SWAP_START_BLOCK : Nat := DISK_NUM_BLOCKS - SWAP_RESERVED_BLOCKS
def DEFAULT_TIME_SLICE : Int := 3

end config

def BLOCK_SIZE : Nat := config.DISK_BLOCK_SIZE
def TOTAL_BLOCKS : Nat := config.SWAP_START_BLOCK
def SUPERBLOCK_BLOCK : Nat := 0
def INODE_BITMAP_BLOCK : Nat := 1
def DATA_BITMAP_BLOCK : Nat := 2
def INODE_TABLE_START : Nat := 3
def INODE_TABLE_BLOCKS : Nat := 4
def DATA_BLOCKS_START : Nat := 7
def MAX_INODES : Nat := 128
def MAX_DATA_BLOCKS : Nat := TOTAL_BLOCKS - DATA_BLOCKS_START
def DIRECT_BLOCKS : Nat := 10
def MAX_FILE_SIZE : Nat := DIRECT_BLOCKS * BLOCK_SIZE
def MAX_FILENAME_LEN : Nat := 28
def DIRENT_SIZE : Nat := 32
def ROOT_INODE : Nat := 0
def INVALID_INODE : Nat := 0xFFFFFFFF
def INVALID_BLOCK : Nat := 0xFFFFFFFF
def UINT32_MAX : Nat := 0xFFFFFFFF

/-! ## Association lists standing in for std::map

std::map iterates its entries in strictly increasing key order; we model
each map as a key-sorted association list.  Insertion keeps the order,
lookup returns the first (unique) binding, erase removes it.
-/

def alookup {κ β : Type} [DecidableEq κ] : List (κ × β) → κ → Option β
  | [], _ => none
  | (k, v) :: rest, key => if k = key then some v else alookup rest key

def ainsert {κ β : Type} [DecidableEq κ] [LT κ] [DecidableRel (α := κ) (· < ·)] :
    List (κ × β) → κ → β → List (κ × β)
  | [], key, val => [(key, val)]
  | (k, v) :: rest, key, val =>
    if key < k then (key, val) :: (k, v) :: rest
    else if key = k then (key, val) :: rest
    else (k, v) :: ainsert rest key val

def aerase {κ β : Type} [DecidableEq κ] : List (κ × β) → κ → List (κ × β)
  | [], _ => []
  | (k, v) :: rest, key => if k = key then rest else (k, v) :: aerase rest key

theorem alookup_ainsert_self {κ β : Type} [DecidableEq κ] [LT κ]
    [DecidableRel (α := κ) (· < ·)] (l : List (κ × β)) (k : κ) (v : β) :
    alookup (ainsert l k v) k = some v := by
  induction l with
  | nil => simp [ainsert, alookup]
  | cons hd tl ih =>
    obtain ⟨k', v'⟩ := hd
    by_cases hlt : k < k'
    · simp [ainsert, hlt, alookup]
    · by_cases heq : k = k'
      · subst heq
        simp [ainsert, hlt, alookup]
      · simp [ainsert, hlt, heq, alookup, ih, Ne.symm heq]

theorem alookup_ainsert_ne {κ β : Type} [DecidableEq κ] [LT κ]
    [DecidableRel (α := κ) (· < ·)] (l : List (κ × β)) (k k' : κ) (v : β)
    (h : k' ≠ k) : alookup (ainsert l k v) k' = alookup l k' := by
  have hkk : k ≠ k' := Ne.symm h
  induction l with
  | nil => simp [ainsert, alookup, hkk]
  | cons hd tl ih =>
    obtain ⟨k0, v0⟩ := hd
    by_cases hlt : k < k0
    · simp [ainsert, hlt, alookup, hkk]
    · by_cases heq : k = k0
      · subst heq
        simp [ainsert, hlt, alookup, hkk]
      · simp only [ainsert, if_neg hlt, if_neg heq, alookup]
        by_cases h0 : k0 = k'
        · simp [h0]
        · simp [h0, ih]

theorem alookup_eq_none_of_not_mem {κ β : Type} [DecidableEq κ]
    (l : List (κ × β)) (k : κ) (h : k ∉ l.map Prod.fst) : alookup l k = none := by
  induction l with
  | nil => simp [alookup]
  | cons hd tl ih =>
    obtain ⟨k0, v0⟩ := hd
    simp only [List.map_cons, List.mem_cons] at h
    push_neg at h
    simp [alookup, Ne.symm h.1, ih h.2]

theorem alookup_aerase_self {κ β : Type} [DecidableEq κ] (l : List (κ × β)) (k : κ)
    (hnd : (l.map Prod.fst).Nodup) : alookup (aerase l k) k = none := by
  induction l with
  | nil => simp [aerase, alookup]
  | cons hd tl ih =>
    obtain ⟨k0, v0⟩ := hd
    simp only [List.map_cons, List.nodup_cons] at hnd
    by_cases h : k0 = k
    · subst h
      simp only [aerase, if_pos rfl]
      exact alookup_eq_none_of_not_mem tl k0 hnd.1
    · simp [aerase, h, alookup, ih hnd.2]

theorem alookup_aerase_ne {κ β : Type} [DecidableEq κ] (l : List (κ × β)) (k k' : κ)
    (h : k' ≠ k) : alookup (aerase l k) k' = alookup l k' := by
  induction l with
  | nil => simp [aerase]
  | cons hd tl ih =>
    obtain ⟨k0, v0⟩ := hd
    by_cases h0 : k0 = k
    · subst h0
      simp [aerase, alookup, Ne.symm h]
    · simp only [aerase, if_neg h0, alookup]
      by_cases h1 : k0 = k'
      · simp [h1]
      · simp [h1, ih]

/-! ## DirectoryManager::normalize_path (src/fs/directory_manager.cpp)

Strings are modelled as lists of characters.  The character scan of the
C++ code (for i in 0..=abs.size, committing the accumulated part at every
separator and at the end) is a left fold over the characters followed by
a final commit of the pending part.
-/

namespace DirectoryManager

/-- Commit one path segment onto the stack: empty and "." segments are
dropped, ".." pops the last segment (no-op on an empty stack), anything
else is pushed. -/
def npCommit (stack : List (List Char)) (part : List Char) : List (List Char) :=
  if part = [] ∨ part = ['.'] then stack
  else if part = ['.', '.'] then stack.dropLast
  else stack ++ [part]

/-- One step of the character scan: a separator commits the pending part,
any other character extends it. -/
def npStep (st : List (List Char) × List Char) (c : Char) :
    List (List Char) × List Char :=
  if c = '/' then (npCommit st.1 st.2, [])
  else (st.1, st.2 ++ [c])

/-- Scan a full absolute path into its segment stack (the loop runs to
index abs.size inclusive, treating the end like a separator). -/
def npScan (abs : List Char) : List (List Char) :=
  let st := List.foldl npStep ([], []) abs
  npCommit st.1 st.2

/-- Join the segment stack with separators; the empty stack yields "/". -/
def npJoin (stack : List (List Char)) : List Char :=
  if stack = [] then ['/']
  else List.foldl (fun acc seg => acc ++ '/' :: seg) [] stack

/-- DirectoryManager::normalize_path: make the path absolute against the
current directory, then normalize "." and ".." segments. -/
def normalize_path (path current_dir : List Char) : List Char :=
  let abs :=
    if path = [] then (if current_dir = [] then ['/'] else current_dir)
    else if path.headI = '/' then path
    else if current_dir = [] ∨ current_dir = ['/'] then '/' :: path
    else current_dir ++ '/' :: path
  npJoin (npScan abs)

end DirectoryManager

def str (s : String) : List Char := s.toList

/-! ### Claim C6: path normalization -/

namespace DirectoryManager

theorem scan_sib_long (st : List (List Char) × List Char) :
    npCommit (List.foldl npStep st ['/', 'a', '/', '.', '.', '/', 'b']).1
             (List.foldl npStep st ['/', 'a', '/', '.', '.', '/', 'b']).2
      = npCommit st.1 st.2 ++ [['b']] := by
  simp +decide [List.foldl, npStep, npCommit, List.dropLast_concat]

theorem scan_sib_short (st : List (List Char) × List Char) :
    npCommit (List.foldl npStep st ['/', 'b']).1
             (List.foldl npStep st ['/', 'b']).2
      = npCommit st.1 st.2 ++ [['b']] := by
  simp +decide [List.foldl, npStep, npCommit]

end DirectoryManager

/-- C6: against any current directory, normalizing "a/../b" equals
normalizing "b"; "/.." normalizes to "/" regardless of the current
directory; segment handling drops empty and "." segments, ".." pops one
segment and is a no-op at the root, and the empty segment stack joins to
"/". -/
theorem C6_normalize_path (cwd part : List Char) (stack : List (List Char))
    (hp1 : part ≠ []) (hp2 : part ≠ ['.']) (hp3 : part ≠ ['.', '.']) :
    DirectoryManager.normalize_path (str "a/../b") cwd
        = DirectoryManager.normalize_path (str "b") cwd ∧
    DirectoryManager.normalize_path (str "/..") cwd = str "/" ∧
    DirectoryManager.npCommit stack [] = stack ∧
    DirectoryManager.npCommit stack ['.'] = stack ∧
    DirectoryManager.npCommit stack ['.', '.'] = stack.dropLast ∧
    DirectoryManager.npCommit [] ['.', '.'] = [] ∧
    DirectoryManager.npCommit stack part = stack ++ [part] ∧
    DirectoryManager.npJoin [] = str "/" := by
  refine ⟨?_, ?_, ?_, ?_, ?_, ?_, ?_, ?_⟩
  · by_cases h1 : cwd = []
    · subst h1; decide
    · by_cases h2 : cwd = ['/']
      · subst h2; decide
      · have hc : ¬(cwd = [] ∨ cwd = ['/']) := by simp [h1, h2]
        unfold DirectoryManager.normalize_path
        simp only [str, String.toList]
        rw [if_neg (by decide : ¬(['a', '/', '.', '.', '/', 'b'] = [])),
            if_neg (by decide : ¬(['b'] = []))]
        rw [if_neg (by decide : ¬(List.headI ['a', '/', '.', '.', '/', 'b'] = '/')),
            if_neg (by decide : ¬(List.headI ['b'] = '/'))]
        rw [if_neg hc, if_neg hc]
        simp only [DirectoryManager.npScan, List.foldl_append]
        rw [DirectoryManager.scan_sib_long, DirectoryManager.scan_sib_short]
  · unfold DirectoryManager.normalize_path
    simp only [str, String.toList]
    rw [if_neg (by decide : ¬(['/', '.', '.'] = []))]
    rw [if_pos (by decide : List.headI ['/', '.', '.'] = '/')]
    decide
  · simp [DirectoryManager.npCommit]
  · simp [DirectoryManager.npCommit]
  · simp [DirectoryManager.npCommit, hp1]
  · decide
  · simp [DirectoryManager.npCommit, hp1, hp2, hp3]
  · decide

/-- Witness for C6 at a concrete current directory, segment and stack. -/
theorem C6_normalize_path_witness :
    (str "xy" ≠ [] ∧ str "xy" ≠ ['.'] ∧ str "xy" ≠ ['.', '.']) ∧
    DirectoryManager.normalize_path (str "a/../b") (str "/u")
        = DirectoryManager.normalize_path (str "b") (str "/u") := by
  refine ⟨by decide, ?_⟩
  exact (C6_normalize_path (str "/u") (str "xy") [str "u"]
    (by decide) (by decide) (by decide)).1

/-! ## Virtual-memory manager (src/mem/memory_manager.cpp)

The page-table record matches the fields used by memory_manager.cpp:
present, frame_number, dirty, referenced, on_disk, swap_block.  Disk
payloads are dummy data in the simulator; we record only the log of
block ids written.
-/

inductive AccessType where
  | Read
  | Write
deriving DecidableEq

structure PageTableEntry where
  present : Bool := false
  frame_number : Nat := 0
  dirty : Bool := false
  referenced : Bool := false
  on_disk : Bool := false
  swap_block : Nat := 0
deriving DecidableEq

/-- Modelled from the spec: PageTableEntry::clear (the current
include/mem/page_table.h is not among the sources).  Per section 4.4 the
eviction path clears the victim entry (present = false, flags cleared)
while the committed swap copy stays valid ("its on-disk copy, if any,
remains valid"), and the dirty-eviction path reuses an existing
swap_block, so on_disk and swap_block survive a clear. -/
def PageTableEntry.clear (e : PageTableEntry) : PageTableEntry :=
  { e with present := false, frame_number := 0, dirty := false, referenced := false }

structure FrameInfo where
  allocated : Bool := false
  owner_pid : Int := -1
  page_number : Nat := 0
deriving DecidableEq

/-- Index of the lowest free frame, if any (PhysicalMemory::allocate_frame
scan). -/
def findFreeFrame : List FrameInfo → Option Nat
  | [] => none
  | f :: rest => if f.allocated then (findFreeFrame rest).map (· + 1) else some 0

/-- PhysicalMemory::assign_frame: overwrite the label of a frame. -/
def assign_frame (frames : List FrameInfo) (i : Nat) (pid : Int) (pg : Nat) :
    List FrameInfo :=
  frames.set i { allocated := true, owner_pid := pid, page_number := pg }

/-- PhysicalMemory::allocate_frame: label the lowest-indexed free frame. -/
def allocate_frame (frames : List FrameInfo) (pid : Int) (pg : Nat) :
    Option (Nat × List FrameInfo) :=
  match findFreeFrame frames with
  | none => none
  | some i => some (i, assign_frame frames i pid pg)

/-- PhysicalMemory::free_frame: reset the slot to the default FrameInfo. -/
def free_frame (frames : List FrameInfo) (i : Nat) : List FrameInfo :=
  frames.set i {}

structure MemoryStats where
  page_faults : Nat := 0
  memory_accesses : Nat := 0
deriving DecidableEq

structure MMState where
  page_tables : List (Int × List PageTableEntry) := []
  process_stats : List (Int × MemoryStats) := []
  stats : MemoryStats := {}
  frames : List FrameInfo := List.replicate config.PAGE_FRAMES {}
  clock_ptr : Nat := 0
  next_swap_block : Nat := config.SWAP_START_BLOCK
  disk_writes : List Nat := []
deriving DecidableEq

/-- The MemoryManager as constructed: empty tables, all frames free,
clock hand 0, swap cursor at the start of the reserved tail region. -/
def MMState.init : MMState := {}

/-- The inline swap-block allocation of the eviction path: fails when the
cursor has reached the end of the device, else hands out the cursor and
advances it. -/
def swap_alloc (next_swap_block : Nat) : Option (Nat × Nat) :=
  if config.DISK_NUM_BLOCKS ≤ next_swap_block then none
  else some (next_swap_block, next_swap_block + 1)

/-- MemoryManager::create_process_memory. -/
def create_process_memory (s : MMState) (pid : Int) (num_pages : Nat) : MMState :=
  { s with
    page_tables := ainsert s.page_tables pid (List.replicate num_pages {})
    process_stats := ainsert s.process_stats pid {} }

/-- MemoryManager::free_process_memory; none models the runtime_error
thrown when the pid has no page table. -/
def free_process_memory (s : MMState) (pid : Int) : Option MMState :=
  match alookup s.page_tables pid with
  | none => none
  | some pt =>
    let frames' := pt.foldl
      (fun fs e => if e.present then free_frame fs e.frame_number else fs) s.frames
    some { s with
            frames := frames'
            page_tables := aerase s.page_tables pid
            process_stats := aerase s.process_stats pid }

/-- Final page-table update of MemoryManager::handle_page_fault. -/
def pf_finish (s : MMState) (pid : Int) (page_number : Nat) (ty : AccessType)
    (frame : Nat) : Option (Bool × MMState) :=
  match alookup s.page_tables pid with
  | none => none
  | some pt =>
    match pt.get? page_number with
    | none => none
    | some e =>
      let e' := { e with
                   present := true, frame_number := frame,
                   referenced := true, dirty := (ty = AccessType.Write) }
      some (true, { s with page_tables := ainsert s.page_tables pid (pt.set page_number e') })

/-- The Clock replacement loop of MemoryManager::handle_page_fault: give
the frame under the hand a second chance while its owning entry is
referenced, else evict it (writing a dirty victim to swap first).
Returns (success, chosen frame, state); none models the runtime_error
paths (hand on a free frame, missing victim page table) and fuel
exhaustion, which cannot occur with fuel > number of frames. -/
def clock_sweep (s : MMState) (pid : Int) (page_number : Nat) :
    Nat → Option (Bool × Nat × MMState)
  | 0 => none
  | fuel + 1 =>
    match s.frames.get? s.clock_ptr with
    | none => none
    | some fi =>
      if fi.allocated = false then none
      else
        match alookup s.page_tables fi.owner_pid with
        | none => none
        | some vpt =>
          match vpt.get? fi.page_number with
          | none => none
          | some ve =>
            if ve.referenced then
              clock_sweep
                { s with
                  page_tables := ainsert s.page_tables fi.owner_pid
                    (vpt.set fi.page_number { ve with referenced := false })
                  clock_ptr := (s.clock_ptr + 1) % s.frames.length }
                pid page_number fuel
            else
              let sw :=
                if ve.dirty then
                  if ve.on_disk = false then
                    match swap_alloc s.next_swap_block with
                    | none => none
                    | some (b, nxt) =>
                      some ({ ve with swap_block := b, on_disk := true },
                            nxt, [{ ve with swap_block := b, on_disk := true }.swap_block])
                  else some (ve, s.next_swap_block, [ve.swap_block])
                else some (ve, s.next_swap_block, [])
              match sw with
              | none => some (false, 0, s)
              | some (ve1, nxt, written) =>
                some (true, s.clock_ptr,
                  { s with
                    page_tables := ainsert s.page_tables fi.owner_pid
                      (vpt.set fi.page_number ve1.clear)
                    frames := assign_frame s.frames s.clock_ptr pid page_number
                    clock_ptr := (s.clock_ptr + 1) % s.frames.length
                    next_swap_block := nxt
                    disk_writes := written ++ s.disk_writes })

/-- MemoryManager::handle_page_fault.  The swap-in read of an on_disk
entry moves only dummy data and is not modelled. -/
def handle_page_fault (s : MMState) (pid : Int) (page_number : Nat)
    (ty : AccessType) : Option (Bool × MMState) :=
  match alookup s.page_tables pid with
  | none => none
  | some _ =>
    match allocate_frame s.frames pid page_number with
    | some (f, frames') => pf_finish { s with frames := frames' } pid page_number ty f
    | none =>
      match clock_sweep s pid page_number (s.frames.length + 1) with
      | none => none
      | some (ok, f, s') =>
        if ok then pf_finish s' pid page_number ty f else some (false, s')

/-- Counter bump of MemoryManager::access_memory (global and per-pid
memory_accesses; the per-pid map entry is default-created on first use,
like std::map operator[]). -/
def bump_access (s : MMState) (pid : Int) : MMState :=
  let pstats := (alookup s.process_stats pid).getD {}
  { s with
    stats := { s.stats with memory_accesses := s.stats.memory_accesses + 1 }
    process_stats := ainsert s.process_stats pid
      { pstats with memory_accesses := pstats.memory_accesses + 1 } }

/-- Fault-counter bump of MemoryManager::access_memory. -/
def bump_fault (s : MMState) (pid : Int) : MMState :=
  let pstats := (alookup s.process_stats pid).getD {}
  { s with
    stats := { s.stats with page_faults := s.stats.page_faults + 1 }
    process_stats := ainsert s.process_stats pid
      { pstats with page_faults := pstats.page_faults + 1 } }

/-- Final flag update of MemoryManager::access_memory: referenced is set,
dirty is set on a write (and kept as is on a read). -/
def am_finish (s : MMState) (pid : Int) (page_number : Nat) (ty : AccessType) :
    Option (Bool × MMState) :=
  match alookup s.page_tables pid with
  | none => none
  | some pt =>
    match pt.get? page_number with
    | none => none
    | some e =>
      let e' := { e with
                   referenced := true
                   dirty := if ty = AccessType.Write then true else e.dirty }
      some (true, { s with page_tables := ainsert s.page_tables pid (pt.set page_number e') })

/-- MemoryManager::access_memory. -/
def access_memory (s : MMState) (pid : Int) (vaddr : Nat) (ty : AccessType) :
    Option (Bool × MMState) :=
  match alookup s.page_tables pid with
  | none => none
  | some pt =>
    let page_number := vaddr / config.PAGE_SIZE
    if pt.length ≤ page_number then some (false, s)
    else
      let s1 := bump_access s pid
      match pt.get? page_number with
      | none => none
      | some e =>
        let step2 :=
          if e.present then some (true, s1)
          else handle_page_fault (bump_fault s1 pid) pid page_number ty
        match step2 with
        | none => none
        | some (false, s3) => some (false, s3)
        | some (true, s3) => am_finish s3 pid page_number ty

/-! ### Helpers for reasoning about page tables and the Clock sweep -/

/-- Entry of process q at virtual page w in a page-table map. -/
def pteAt (tbl : List (Int × List PageTableEntry)) (q : Int) (w : Nat) :
    Option PageTableEntry :=
  match alookup tbl q with
  | none => none
  | some pt => pt.get? w

/-- The victim entry as rewritten by the dirty-eviction path just before
the clear: a dirty victim without a swap copy receives the cursor as its
swap block. -/
def evictedEntry (e : PageTableEntry) (cursor : Nat) : PageTableEntry :=
  if e.dirty then
    if e.on_disk = false then { e with swap_block := cursor, on_disk := true }
    else e
  else e

theorem pteAt_set (tbl : List (Int × List PageTableEntry)) (q0 : Int)
    (vpt : List PageTableEntry) (w0 : Nat)
    (e' : PageTableEntry) (halk : alookup tbl q0 = some vpt)
    (hw0 : w0 < vpt.length) (q : Int) (w : Nat) :
    pteAt (ainsert tbl q0 (vpt.set w0 e')) q w
      = if q = q0 ∧ w = w0 then some e' else pteAt tbl q w := by
  by_cases hq : q = q0
  · subst hq
    by_cases hw : w = w0
    · subst hw
      simp [pteAt, alookup_ainsert_self, List.getElem?_set_eq_of_lt e' hw0]
    · simp [pteAt, alookup_ainsert_self, List.getElem?_set_ne (Ne.symm hw), hw, halk]
  · simp [pteAt, alookup_ainsert_ne _ _ _ _ hq, hq]

theorem evictedEntry_refclear (e : PageTableEntry) (c : Nat) :
    evictedEntry { e with referenced := false } c
      = { evictedEntry e c with referenced := false } := by
  simp only [evictedEntry]
  by_cases h1 : e.dirty
  · by_cases h2 : e.on_disk = false
    · simp [h1, h2]
    · simp [h1, h2]
  · simp [h1]

theorem clear_refclear (e : PageTableEntry) :
    PageTableEntry.clear { e with referenced := false } = PageTableEntry.clear e := rfl

theorem mod_shift_ne (h m F : Nat) (h0 : 0 < m) (hmF : m < F) :
    (h + m) % F ≠ h % F := by
  intro hc
  have hmod : m ≡ 0 [MOD F] := by
    have h1 : h + m ≡ h + 0 [MOD F] := by
      simpa using hc
    exact Nat.ModEq.add_left_cancel' h h1
  have : m % F = 0 := by simpa [Nat.ModEq] using hmod
  rw [Nat.mod_eq_of_lt hmF] at this
  omega

/-- Characterization of the Clock replacement loop: starting at the hand,
every frame whose owning entry is referenced gets a second chance (the
bit is cleared, the hand advances modulo F) and the first frame whose
owning entry is unreferenced is evicted; a dirty victim is written to
swap (allocating a block if it has none, failing if swap is exhausted
and leaving the victim in place), the victim entry is cleared, the frame
is relabelled and the hand advances once more. -/
theorem clock_sweep_spec (jv : Nat) :
    ∀ (s : MMState) (pid : Int) (pg : Nat) (fuel : Nat),
    jv + 1 ≤ fuel →
    0 < s.frames.length →
    s.clock_ptr < s.frames.length →
    (∀ i fi, s.frames.get? i = some fi → fi.allocated = true ∧
        ∃ e, pteAt s.page_tables fi.owner_pid fi.page_number = some e ∧ e.present = true) →
    (∀ i j fi fj, s.frames.get? i = some fi → s.frames.get? j = some fj →
        fi.owner_pid = fj.owner_pid → fi.page_number = fj.page_number → i = j) →
    (∀ k, k < jv → ∀ fi, s.frames.get? ((s.clock_ptr + k) % s.frames.length) = some fi →
        ∀ e, pteAt s.page_tables fi.owner_pid fi.page_number = some e → e.referenced = true) →
    jv ≤ s.frames.length →
    (jv < s.frames.length → ∀ fi,
        s.frames.get? ((s.clock_ptr + jv) % s.frames.length) = some fi →
        ∀ e, pteAt s.page_tables fi.owner_pid fi.page_number = some e → e.referenced = false) →
    ∀ fi_v e_v,
      s.frames.get? ((s.clock_ptr + jv) % s.frames.length) = some fi_v →
      pteAt s.page_tables fi_v.owner_pid fi_v.page_number = some e_v →
      ((e_v.dirty = true ∧ e_v.on_disk = false ∧
          config.DISK_NUM_BLOCKS ≤ s.next_swap_block →
        ∃ s', clock_sweep s pid pg fuel = some (false, 0, s') ∧
          s'.frames = s.frames ∧
          s'.clock_ptr = (s.clock_ptr + jv) % s.frames.length ∧
          s'.next_swap_block = s.next_swap_block ∧
          s'.disk_writes = s.disk_writes ∧
          (pteAt s'.page_tables fi_v.owner_pid fi_v.page_number = some e_v ∨
           pteAt s'.page_tables fi_v.owner_pid fi_v.page_number
             = some { e_v with referenced := false })) ∧
       (¬(e_v.dirty = true ∧ e_v.on_disk = false ∧
          config.DISK_NUM_BLOCKS ≤ s.next_swap_block) →
        ∃ s', clock_sweep s pid pg fuel
            = some (true, (s.clock_ptr + jv) % s.frames.length, s') ∧
          s'.frames = assign_frame s.frames ((s.clock_ptr + jv) % s.frames.length) pid pg ∧
          s'.clock_ptr = ((s.clock_ptr + jv) % s.frames.length + 1) % s.frames.length ∧
          s'.next_swap_block =
            (if e_v.dirty = true ∧ e_v.on_disk = false then s.next_swap_block + 1
             else s.next_swap_block) ∧
          s'.disk_writes =
            (if e_v.dirty = true then [(evictedEntry e_v s.next_swap_block).swap_block]
             else []) ++ s.disk_writes ∧
          pteAt s'.page_tables fi_v.owner_pid fi_v.page_number
            = some (evictedEntry e_v s.next_swap_block).clear ∧
          (∀ q w, ¬(q = fi_v.owner_pid ∧ w = fi_v.page_number) →
            pteAt s'.page_tables q w = pteAt s.page_tables q w ∨
            ∃ e, pteAt s.page_tables q w = some e ∧
              pteAt s'.page_tables q w = some { e with referenced := false }) ∧
          (∀ k, k < jv → ∀ fi,
            s.frames.get? ((s.clock_ptr + k) % s.frames.length) = some fi →
            ∃ e', pteAt s'.page_tables fi.owner_pid fi.page_number = some e' ∧
              e'.referenced = false))) := by
  induction jv with
  | zero =>
    intro s pid pg fuel hfuel hF hh hOwn hInj hjv1 hjv2 hjv3 fi_v e_v hfv hev
    match fuel, hfuel with
    | fuel + 1, _ =>
    have hmod : (s.clock_ptr + 0) % s.frames.length = s.clock_ptr := by
      simp [Nat.mod_eq_of_lt hh]
    have hfv0 := hfv
    rw [hmod] at hfv
    have halloc := (hOwn _ _ hfv).1
    -- destructure pteAt
    have hev' := hev
    unfold pteAt at hev'
    cases halk : alookup s.page_tables fi_v.owner_pid with
    | none => rw [halk] at hev'; simp at hev'
    | some vpt =>
    rw [halk] at hev'
    simp only at hev'
    have href : e_v.referenced = false := hjv3 hF fi_v hfv0 e_v hev
    constructor
    · rintro ⟨hd, hod, hex⟩
      refine ⟨s, ?_, rfl, hmod.symm, rfl, rfl, Or.inl hev⟩
      simp only [clock_sweep, hfv, halloc, halk, hev']
      simp [href, hd, hod, swap_alloc, hex, hmod]
    · intro hnc
      have hwlt : fi_v.page_number < vpt.length := (List.get?_eq_some.mp hev').1
      by_cases hd : e_v.dirty = true
      · by_cases hod : e_v.on_disk = false
        · have hex : ¬ (config.DISK_NUM_BLOCKS ≤ s.next_swap_block) := by
            intro hx; exact hnc ⟨hd, hod, hx⟩
          refine ⟨{ s with
              page_tables := ainsert s.page_tables fi_v.owner_pid
                (vpt.set fi_v.page_number
                  ({ e_v with swap_block := s.next_swap_block, on_disk := true }).clear)
              frames := assign_frame s.frames s.clock_ptr pid pg
              clock_ptr := (s.clock_ptr + 1) % s.frames.length
              next_swap_block := s.next_swap_block + 1
              disk_writes := s.next_swap_block :: s.disk_writes }, ?_, ?_, ?_, ?_, ?_, ?_, ?_, ?_⟩
          · simp only [clock_sweep, hfv, halloc, halk, hev']
            simp [href, hd, hod, swap_alloc, hex, hmod, Nat.mod_eq_of_lt hh]
          · simp [hmod, Nat.mod_eq_of_lt hh]
          · simp [hmod, Nat.mod_eq_of_lt hh]
          · simp [hd, hod]
          · simp [hd, evictedEntry, hod]
          · simp only [pteAt_set s.page_tables fi_v.owner_pid vpt fi_v.page_number _ halk hwlt]
            simp [evictedEntry, hd, hod]
          · intro q w hqw
            left
            simp only [pteAt_set s.page_tables fi_v.owner_pid vpt fi_v.page_number _ halk hwlt]
            simp [hqw]
          · intro k hk
            omega
        · push_neg at hod
          refine ⟨{ s with
              page_tables := ainsert s.page_tables fi_v.owner_pid
                (vpt.set fi_v.page_number e_v.clear)
              frames := assign_frame s.frames s.clock_ptr pid pg
              clock_ptr := (s.clock_ptr + 1) % s.frames.length
              disk_writes := e_v.swap_block :: s.disk_writes }, ?_, ?_, ?_, ?_, ?_, ?_, ?_, ?_⟩
          · simp only [clock_sweep, hfv, halloc, halk, hev']
            simp [href, hd, hod, hmod, Nat.mod_eq_of_lt hh]
          · simp [hmod, Nat.mod_eq_of_lt hh]
          · simp [hmod, Nat.mod_eq_of_lt hh]
          · simp [hd, hod]
          · simp [hd, evictedEntry, hod]
          · simp only [pteAt_set s.page_tables fi_v.owner_pid vpt fi_v.page_number _ halk hwlt]
            simp [evictedEntry, hd, hod]
          · intro q w hqw
            left
            simp only [pteAt_set s.page_tables fi_v.owner_pid vpt fi_v.page_number _ halk hwlt]
            simp [hqw]
          · intro k hk
            omega
      · simp only [Bool.not_eq_true] at hd
        refine ⟨{ s with
            page_tables := ainsert s.page_tables fi_v.owner_pid
              (vpt.set fi_v.page_number e_v.clear)
            frames := assign_frame s.frames s.clock_ptr pid pg
            clock_ptr := (s.clock_ptr + 1) % s.frames.length }, ?_, ?_, ?_, ?_, ?_, ?_, ?_, ?_⟩
        · simp only [clock_sweep, hfv, halloc, halk, hev']
          simp [href, hd, hmod, Nat.mod_eq_of_lt hh]
        · simp [hmod, Nat.mod_eq_of_lt hh]
        · simp [hmod, Nat.mod_eq_of_lt hh]
        · simp [hd]
        · simp [hd, evictedEntry]
        · simp only [pteAt_set s.page_tables fi_v.owner_pid vpt fi_v.page_number _ halk hwlt]
          simp [evictedEntry, hd]
        · intro q w hqw
          left
          simp only [pteAt_set s.page_tables fi_v.owner_pid vpt fi_v.page_number _ halk hwlt]
          simp [hqw]
        · intro k hk
          omega
  | succ n ih =>
    intro s pid pg fuel hfuel hF hh hOwn hInj hjv1 hjv2 hjv3 fi_v e_v hfv hev
    match fuel, hfuel with
    | fuel + 1, hfuel =>
    obtain ⟨fi0, hf0⟩ : ∃ fi0, s.frames.get? s.clock_ptr = some fi0 := by
      cases hget : s.frames.get? s.clock_ptr with
      | none =>
        exfalso
        have := List.get?_eq_none.mp hget
        omega
      | some fi0 => exact ⟨fi0, rfl⟩
    have halloc0 := (hOwn _ _ hf0).1
    obtain ⟨e0, he0, hp0⟩ := (hOwn _ _ hf0).2
    have href0 : e0.referenced = true :=
      hjv1 0 (by omega) fi0 (by simpa [Nat.mod_eq_of_lt hh] using hf0) e0 he0
    have he0' := he0
    unfold pteAt at he0'
    cases halk0 : alookup s.page_tables fi0.owner_pid with
    | none => rw [halk0] at he0'; simp at he0'
    | some vpt0 =>
    rw [halk0] at he0'
    simp only at he0'
    have hw0 : fi0.page_number < vpt0.length := (List.get?_eq_some.mp he0').1
    set tbl1 := ainsert s.page_tables fi0.owner_pid
      (vpt0.set fi0.page_number { e0 with referenced := false }) with htbl1
    have hps1 : ∀ q w, pteAt tbl1 q w =
        if q = fi0.owner_pid ∧ w = fi0.page_number
        then some { e0 with referenced := false } else pteAt s.page_tables q w :=
      pteAt_set s.page_tables fi0.owner_pid vpt0 fi0.page_number _ halk0 hw0
    have hstep : clock_sweep s pid pg (fuel + 1)
        = clock_sweep
            { s with
              page_tables := tbl1
              clock_ptr := (s.clock_ptr + 1) % s.frames.length } pid pg fuel := by
      simp only [clock_sweep, hf0, halloc0, halk0, he0', href0]
      simp
    have hidx : ∀ k, ((s.clock_ptr + 1) % s.frames.length + k) % s.frames.length
        = (s.clock_ptr + (k + 1)) % s.frames.length := by
      intro k
      rw [Nat.mod_add_mod, Nat.add_assoc, Nat.add_comm 1 k]
    set s1 : MMState := { s with
      page_tables := tbl1
      clock_ptr := (s.clock_ptr + 1) % s.frames.length } with hs1def
    have hfr1 : s1.frames = s.frames := rfl
    have hcp1 : s1.clock_ptr = (s.clock_ptr + 1) % s.frames.length := rfl
    have htb1 : s1.page_tables = tbl1 := rfl
    -- well-formedness of the one-step state
    have hOwn1 : ∀ i fi, s1.frames.get? i = some fi → fi.allocated = true ∧
        ∃ e, pteAt s1.page_tables fi.owner_pid fi.page_number = some e ∧
          e.present = true := by
      intro i fi hi
      rw [hfr1] at hi
      refine ⟨(hOwn _ _ hi).1, ?_⟩
      obtain ⟨e, he, hp⟩ := (hOwn _ _ hi).2
      rw [htb1, hps1]
      by_cases hpair : fi.owner_pid = fi0.owner_pid ∧ fi.page_number = fi0.page_number
      · refine ⟨{ e0 with referenced := false }, by simp [hpair], ?_⟩
        simpa using hp0
      · exact ⟨e, by simp [hpair, he], hp⟩
    have hInj1 : ∀ i j fi fj, s1.frames.get? i = some fi → s1.frames.get? j = some fj →
        fi.owner_pid = fj.owner_pid → fi.page_number = fj.page_number → i = j := by
      rw [hfr1]; exact hInj
    have hjv11 : ∀ k, k < n → ∀ fi,
        s1.frames.get? ((s1.clock_ptr + k) % s1.frames.length) = some fi →
        ∀ e, pteAt s1.page_tables fi.owner_pid fi.page_number = some e →
          e.referenced = true := by
      intro k hk fi hfi e he
      rw [hfr1, hcp1, hidx k] at hfi
      rw [htb1, hps1] at he
      by_cases hpair : fi.owner_pid = fi0.owner_pid ∧ fi.page_number = fi0.page_number
      · exfalso
        have hidxeq : (s.clock_ptr + (k + 1)) % s.frames.length = s.clock_ptr :=
          hInj _ _ _ _ hfi hf0 hpair.1 hpair.2
        have : (s.clock_ptr + (k + 1)) % s.frames.length ≠ s.clock_ptr % s.frames.length :=
          mod_shift_ne s.clock_ptr (k + 1) s.frames.length (by omega) (by omega)
        rw [Nat.mod_eq_of_lt hh] at this
        exact this hidxeq
      · rw [if_neg hpair] at he
        exact hjv1 (k + 1) (by omega) fi hfi e he
    have hjv31 : n < s1.frames.length → ∀ fi,
        s1.frames.get? ((s1.clock_ptr + n) % s1.frames.length) = some fi →
        ∀ e, pteAt s1.page_tables fi.owner_pid fi.page_number = some e →
          e.referenced = false := by
      intro hn fi hfi e he
      rw [hfr1, hcp1, hidx n] at hfi
      rw [htb1, hps1] at he
      rcases Nat.lt_or_ge (n + 1) s.frames.length with hcase | hcase
      · by_cases hpair : fi.owner_pid = fi0.owner_pid ∧ fi.page_number = fi0.page_number
        · exfalso
          have hidxeq : (s.clock_ptr + (n + 1)) % s.frames.length = s.clock_ptr :=
            hInj _ _ _ _ hfi hf0 hpair.1 hpair.2
          have : (s.clock_ptr + (n + 1)) % s.frames.length ≠ s.clock_ptr % s.frames.length :=
            mod_shift_ne s.clock_ptr (n + 1) s.frames.length (by omega) hcase
          rw [Nat.mod_eq_of_lt hh] at this
          exact this hidxeq
        · rw [if_neg hpair] at he
          exact hjv3 hcase fi hfi e he
      · have hFeq : n + 1 = s.frames.length := by omega
        have hidx0 : (s.clock_ptr + (n + 1)) % s.frames.length = s.clock_ptr := by
          rw [hFeq, Nat.add_mod_right, Nat.mod_eq_of_lt hh]
        rw [hidx0] at hfi
        have hfi0 : fi = fi0 := by
          have := hf0.symm.trans hfi
          exact (Option.some_injective _ this).symm
        subst hfi0
        rw [if_pos ⟨rfl, rfl⟩] at he
        have : e = { e0 with referenced := false } := Option.some_injective _ he.symm
        rw [this]
    -- victim data in the one-step state
    have hfv1 : s1.frames.get? ((s1.clock_ptr + n) % s1.frames.length) = some fi_v := by
      rw [hfr1, hcp1, hidx n]
      exact hfv
    obtain ⟨ev1, hev1, hev1eq⟩ :
        ∃ ev1, pteAt s1.page_tables fi_v.owner_pid fi_v.page_number = some ev1 ∧
          (ev1 = e_v ∨ ev1 = { e_v with referenced := false }) := by
      rw [htb1, hps1]
      by_cases hpair : fi_v.owner_pid = fi0.owner_pid ∧ fi_v.page_number = fi0.page_number
      · have hee : e_v = e0 := by
          have h1 := hev
          rw [hpair.1, hpair.2] at h1
          exact Option.some_injective _ (h1.symm.trans he0)
        exact ⟨{ e0 with referenced := false }, by simp [hpair], Or.inr (by rw [hee])⟩
      · exact ⟨e_v, by simp [hpair, hev], Or.inl rfl⟩
    have hns1 : s1.next_swap_block = s.next_swap_block := rfl
    have hdw1 : s1.disk_writes = s.disk_writes := rfl
    have hde : ev1.dirty = e_v.dirty := by rcases hev1eq with rfl | rfl <;> rfl
    have hoe : ev1.on_disk = e_v.on_disk := by rcases hev1eq with rfl | rfl <;> rfl
    have heswap : ∀ c, (evictedEntry ev1 c).swap_block = (evictedEntry e_v c).swap_block := by
      rcases hev1eq with rfl | rfl
      · intro c; rfl
      · intro c; rw [evictedEntry_refclear]
    have heclear : ∀ c, (evictedEntry ev1 c).clear = (evictedEntry e_v c).clear := by
      rcases hev1eq with rfl | rfl
      · intro c; rfl
      · intro c
        rw [evictedEntry_refclear]
        exact clear_refclear _
    have hidxv : (s1.clock_ptr + n) % s1.frames.length
        = (s.clock_ptr + (n + 1)) % s.frames.length := by
      rw [hcp1, hfr1, hidx n]
    have IH := ih s1 pid pg fuel (by omega) (by rw [hfr1]; exact hF)
      (by rw [hcp1]; exact Nat.mod_lt _ hF) hOwn1 hInj1 hjv11
      (by rw [hfr1]; omega) hjv31 fi_v ev1 hfv1 hev1
    obtain ⟨IHfail, IHsucc⟩ := IH
    constructor
    · rintro ⟨hd, hod, hex⟩
      obtain ⟨s', heq, hfr, hcp, hns, hdw, hve⟩ := IHfail
        ⟨by rw [hde, hd], by rw [hoe, hod], by rw [hns1]; exact hex⟩
      refine ⟨s', ?_, ?_, ?_, ?_, ?_, ?_⟩
      · rw [hstep]; exact heq
      · rw [hfr, hfr1]
      · rw [hcp, hidxv]
      · rw [hns, hns1]
      · rw [hdw, hdw1]
      · rcases hev1eq with rfl | rfl
        · exact hve
        · rcases hve with h | h
          · exact Or.inr h
          · exact Or.inr (by simpa using h)
    · intro hnc
      obtain ⟨s', heq, hfr, hcp, hns, hdw, hve, hpres, hclr⟩ := IHsucc
        (by rw [hde, hoe, hns1]; exact hnc)
      refine ⟨s', ?_, ?_, ?_, ?_, ?_, ?_, ?_, ?_⟩
      · rw [hstep, heq, hidxv]
      · rw [hfr, hfr1, hidxv]
      · rw [hcp, hidxv, hfr1]
      · rw [hns, hde, hoe, hns1]
      · rw [hdw, hde, hns1, hdw1, heswap]
      · rw [hns1] at hve
        rw [hve, heclear]
      · intro q w hqw
        rcases hpres q w hqw with hsame | ⟨e1, he1, he1'⟩
        · rw [htb1, hps1] at hsame
          by_cases hpair : q = fi0.owner_pid ∧ w = fi0.page_number
          · right
            refine ⟨e0, ?_, ?_⟩
            · rw [hpair.1, hpair.2]; exact he0
            · rw [hsame]; simp [hpair]
          · left
            rw [hsame]
            simp [hpair]
        · rw [htb1, hps1] at he1
          by_cases hpair : q = fi0.owner_pid ∧ w = fi0.page_number
          · rw [if_pos hpair] at he1
            have he1eq : e1 = { e0 with referenced := false } :=
              Option.some_injective _ he1.symm
            subst he1eq
            right
            refine ⟨e0, by rw [hpair.1, hpair.2]; exact he0, ?_⟩
            rw [he1']
          · rw [if_neg hpair] at he1
            exact Or.inr ⟨e1, he1, he1'⟩
      · intro k hk fi hfi
        cases k with
        | zero =>
          rw [show (s.clock_ptr + 0) % s.frames.length = s.clock_ptr from by
            simp [Nat.mod_eq_of_lt hh]] at hfi
          have hfi0 : fi = fi0 := Option.some_injective _ (hfi.symm.trans hf0)
          subst hfi0
          by_cases hpair : fi.owner_pid = fi_v.owner_pid ∧ fi.page_number = fi_v.page_number
          · refine ⟨(evictedEntry e_v s.next_swap_block).clear, ?_, rfl⟩
            rw [hns1] at hve
            rw [hpair.1, hpair.2, hve, heclear]
          · rcases hpres fi.owner_pid fi.page_number hpair with hsame | ⟨e1, he1, he1'⟩
            · rw [htb1, hps1] at hsame
              rw [if_pos ⟨rfl, rfl⟩] at hsame
              exact ⟨{ e0 with referenced := false }, hsame, rfl⟩
            · exact ⟨{ e1 with referenced := false }, he1', rfl⟩
        | succ m =>
          have hfi' : s1.frames.get? ((s1.clock_ptr + m) % s1.frames.length) = some fi := by
            rw [hfr1, hcp1, hidx m]
            exact hfi
          exact hclr m (by omega) fi hfi'

/-! ### Claim C7: swap cursor -/

/-- Every committed swap block in the page tables lies below the cursor. -/
def swapBounded (tbl : List (Int × List PageTableEntry)) (c : Nat) : Prop :=
  ∀ pr ∈ tbl, ∀ e ∈ pr.2, e.on_disk = true → e.swap_block < c

theorem alookup_mem {κ β : Type} [DecidableEq κ] (l : List (κ × β)) (k : κ) (v : β)
    (h : alookup l k = some v) : (k, v) ∈ l := by
  induction l with
  | nil => simp [alookup] at h
  | cons hd tl ih =>
    obtain ⟨k0, v0⟩ := hd
    by_cases h0 : k0 = k
    · subst h0
      simp [alookup] at h
      simp [h]
    · simp only [alookup, if_neg h0] at h
      exact List.mem_cons_of_mem _ (ih h)

theorem mem_ainsert {κ β : Type} [DecidableEq κ] [LT κ]
    [DecidableRel (α := κ) (· < ·)] (l : List (κ × β)) (k : κ) (v : β)
    (pr : κ × β) (h : pr ∈ ainsert l k v) : pr = (k, v) ∨ pr ∈ l := by
  induction l with
  | nil => simpa [ainsert] using h
  | cons hd tl ih =>
    obtain ⟨k0, v0⟩ := hd
    by_cases hlt : k < k0
    · simp only [ainsert, if_pos hlt, List.mem_cons] at h
      rcases h with h | h | h
      · exact Or.inl (by simp [h])
      · exact Or.inr (by simp [h])
      · exact Or.inr (List.mem_cons_of_mem _ h)
    · by_cases heq : k = k0
      · simp only [ainsert, if_neg hlt, if_pos heq, List.mem_cons] at h
        rcases h with h | h
        · exact Or.inl (by simp [h])
        · exact Or.inr (List.mem_cons_of_mem _ h)
      · simp only [ainsert, if_neg hlt, if_neg heq, List.mem_cons] at h
        rcases h with h | h
        · exact Or.inr (by simp [h])
        · rcases ih h with h1 | h1
          · exact Or.inl h1
          · exact Or.inr (List.mem_cons_of_mem _ h1)

theorem mem_aerase {κ β : Type} [DecidableEq κ] (l : List (κ × β)) (k : κ)
    (pr : κ × β) (h : pr ∈ aerase l k) : pr ∈ l := by
  induction l with
  | nil => simp [aerase] at h
  | cons hd tl ih =>
    obtain ⟨k0, v0⟩ := hd
    by_cases h0 : k0 = k
    · subst h0
      simp only [aerase, if_pos rfl] at h
      exact List.mem_cons_of_mem _ h
    · simp only [aerase, if_neg h0, List.mem_cons] at h
      rcases h with h | h
      · simp [h]
      · exact List.mem_cons_of_mem _ (ih h)

theorem swapBounded_mono (tbl : List (Int × List PageTableEntry)) (c c' : Nat)
    (hcc : c ≤ c') (h : swapBounded tbl c) : swapBounded tbl c' := by
  intro pr hm e he hod
  exact lt_of_lt_of_le (h pr hm e he hod) hcc

theorem swapBounded_ainsert_set (tbl : List (Int × List PageTableEntry)) (c : Nat)
    (q : Int) (vpt : List PageTableEntry) (w : Nat) (e' : PageTableEntry)
    (h : swapBounded tbl c) (hq : alookup tbl q = some vpt)
    (he' : e'.on_disk = true → e'.swap_block < c) :
    swapBounded (ainsert tbl q (vpt.set w e')) c := by
  intro pr hm e he hod
  rcases mem_ainsert _ _ _ _ hm with rfl | hm2
  · rcases List.mem_or_eq_of_mem_set he with h2 | h2
    · exact h (q, vpt) (alookup_mem _ _ _ hq) e h2 hod
    · subst h2
      exact he' hod
  · exact h pr hm2 e he hod

theorem clock_sweep_swap (fuel : Nat) : ∀ (s : MMState) (pid : Int) (pg : Nat)
    (r : Bool × Nat × MMState), clock_sweep s pid pg fuel = some r →
    (r.2.2.next_swap_block = s.next_swap_block ∨
     r.2.2.next_swap_block = s.next_swap_block + 1) ∧
    (swapBounded s.page_tables s.next_swap_block →
      swapBounded r.2.2.page_tables r.2.2.next_swap_block) := by
  induction fuel with
  | zero => intro s pid pg r h; simp [clock_sweep] at h
  | succ fuel ih =>
    intro s pid pg r h
    simp only [clock_sweep] at h
    cases hf : s.frames.get? s.clock_ptr with
    | none => rw [hf] at h; simp at h
    | some fi =>
    rw [hf] at h
    simp only at h
    by_cases hal : fi.allocated = false
    · rw [if_pos hal] at h; simp at h
    rw [if_neg hal] at h
    cases halk : alookup s.page_tables fi.owner_pid with
    | none => rw [halk] at h; simp at h
    | some vpt =>
    rw [halk] at h
    simp only at h
    cases hge : vpt.get? fi.page_number with
    | none => rw [hge] at h; simp at h
    | some ve =>
    rw [hge] at h
    simp only at h
    have hvem : ve ∈ vpt := List.get?_mem hge
    by_cases href : ve.referenced
    · rw [if_pos href] at h
      have := ih _ _ _ _ h
      refine ⟨this.1, ?_⟩
      intro hb
      refine this.2 ?_
      exact swapBounded_ainsert_set _ _ _ _ _ _ hb halk
        (fun hod => hb _ (alookup_mem _ _ _ halk) ve hvem hod)
    · rw [if_neg href] at h
      have hmem_tbl := alookup_mem _ _ _ halk
      by_cases hd : ve.dirty = true
      · by_cases hod : ve.on_disk = false
        · simp only [hd, hod, if_true] at h
          cases hsw : swap_alloc s.next_swap_block with
          | none =>
            rw [hsw] at h
            simp only [Option.some.injEq] at h
            subst h
            dsimp only
            exact ⟨Or.inl rfl, fun hb => hb⟩
          | some bn =>
            obtain ⟨b, nxt⟩ := bn
            rw [hsw] at h
            simp only [Option.some.injEq] at h
            subst h
            simp only [swap_alloc] at hsw
            by_cases hex : config.DISK_NUM_BLOCKS ≤ s.next_swap_block
            · simp [hex] at hsw
            · rw [if_neg hex] at hsw
              simp only [Option.some.injEq, Prod.mk.injEq] at hsw
              obtain ⟨hb1, hn1⟩ := hsw
              subst hb1
              subst hn1
              dsimp only
              refine ⟨Or.inr rfl, ?_⟩
              intro hb
              refine swapBounded_ainsert_set _ _ _ _ _ _
                (swapBounded_mono _ _ _ (by omega) hb) halk ?_
              intro _
              simp [PageTableEntry.clear]
        · rw [if_pos hd, if_neg hod] at h
          simp only [Option.some.injEq] at h
          subst h
          dsimp only
          refine ⟨Or.inl rfl, ?_⟩
          intro hb
          refine swapBounded_ainsert_set _ _ _ _ _ _ hb halk ?_
          intro hod2
          exact hb _ hmem_tbl ve hvem hod2
      · rw [if_neg hd] at h
        simp only [Option.some.injEq] at h
        subst h
        dsimp only
        refine ⟨Or.inl rfl, ?_⟩
        intro hb
        refine swapBounded_ainsert_set _ _ _ _ _ _ hb halk ?_
        intro hod2
        exact hb _ hmem_tbl ve hvem hod2

theorem pf_finish_swap (s : MMState) (pid : Int) (pg : Nat) (ty : AccessType)
    (f : Nat) (r : Bool × MMState) (h : pf_finish s pid pg ty f = some r) :
    r.2.next_swap_block = s.next_swap_block ∧
    (swapBounded s.page_tables s.next_swap_block →
      swapBounded r.2.page_tables r.2.next_swap_block) := by
  unfold pf_finish at h
  cases halk : alookup s.page_tables pid with
  | none => rw [halk] at h; simp at h
  | some pt =>
  rw [halk] at h
  simp only at h
  cases hge : pt.get? pg with
  | none => rw [hge] at h; simp at h
  | some e =>
  rw [hge] at h
  simp only [Option.some.injEq] at h
  subst h
  dsimp only
  refine ⟨rfl, ?_⟩
  intro hb
  refine swapBounded_ainsert_set _ _ _ _ _ _ hb halk ?_
  intro hod
  exact hb _ (alookup_mem _ _ _ halk) e (List.get?_mem hge) hod

theorem handle_page_fault_swap (s : MMState) (pid : Int) (pg : Nat)
    (ty : AccessType) (r : Bool × MMState) (h : handle_page_fault s pid pg ty = some r) :
    s.next_swap_block ≤ r.2.next_swap_block ∧
    r.2.next_swap_block ≤ s.next_swap_block + 1 ∧
    (swapBounded s.page_tables s.next_swap_block →
      swapBounded r.2.page_tables r.2.next_swap_block) := by
  unfold handle_page_fault at h
  cases halk : alookup s.page_tables pid with
  | none => rw [halk] at h; simp at h
  | some pt =>
  rw [halk] at h
  simp only at h
  cases hall : allocate_frame s.frames pid pg with
  | some fr =>
    rw [hall] at h
    obtain ⟨f, frames'⟩ := fr
    simp only at h
    have hp := pf_finish_swap _ _ _ _ _ _ h
    dsimp only at hp
    exact ⟨le_of_eq hp.1.symm, by omega, hp.2⟩
  | none =>
    rw [hall] at h
    simp only at h
    cases hcs : clock_sweep s pid pg (s.frames.length + 1) with
    | none => rw [hcs] at h; simp at h
    | some r1 =>
    rw [hcs] at h
    obtain ⟨ok, f, s1⟩ := r1
    have hsw := clock_sweep_swap _ _ _ _ _ hcs
    simp only at h hsw
    by_cases hok : ok = true
    · rw [if_pos hok] at h
      have hp := pf_finish_swap _ _ _ _ _ _ h
      rcases hsw.1 with h1 | h1 <;>
        exact ⟨by omega, by omega, fun hb => hp.2 (by rw [h1] at hsw ⊢; exact hsw.2 hb)⟩
    · rw [if_neg hok] at h
      simp only [Option.some.injEq] at h
      subst h
      dsimp only
      rcases hsw.1 with h1 | h1 <;> exact ⟨by omega, by omega, hsw.2⟩

theorem am_finish_swap (s : MMState) (pid : Int) (pg : Nat) (ty : AccessType)
    (r : Bool × MMState) (h : am_finish s pid pg ty = some r) :
    r.2.next_swap_block = s.next_swap_block ∧
    (swapBounded s.page_tables s.next_swap_block →
      swapBounded r.2.page_tables r.2.next_swap_block) := by
  unfold am_finish at h
  cases halk : alookup s.page_tables pid with
  | none => rw [halk] at h; simp at h
  | some pt =>
  rw [halk] at h
  simp only at h
  cases hge : pt.get? pg with
  | none => rw [hge] at h; simp at h
  | some e =>
  rw [hge] at h
  simp only [Option.some.injEq] at h
  subst h
  dsimp only
  refine ⟨rfl, ?_⟩
  intro hb
  refine swapBounded_ainsert_set _ _ _ _ _ _ hb halk ?_
  intro hod
  exact hb _ (alookup_mem _ _ _ halk) e (List.get?_mem hge) hod

theorem access_memory_swap (s : MMState) (pid : Int) (va : Nat)
    (ty : AccessType) (r : Bool × MMState) (h : access_memory s pid va ty = some r) :
    s.next_swap_block ≤ r.2.next_swap_block ∧
    r.2.next_swap_block ≤ s.next_swap_block + 1 ∧
    (swapBounded s.page_tables s.next_swap_block →
      swapBounded r.2.page_tables r.2.next_swap_block) := by
  unfold access_memory at h
  cases halk : alookup s.page_tables pid with
  | none => rw [halk] at h; simp at h
  | some pt =>
  rw [halk] at h
  by_cases hlen : pt.length ≤ va / config.PAGE_SIZE
  · simp only [if_pos hlen, Option.some.injEq] at h
    subst h
    dsimp only
    exact ⟨le_refl _, by omega, fun hb => hb⟩
  simp only [if_neg hlen] at h
  cases hge : pt.get? (va / config.PAGE_SIZE) with
  | none => rw [hge] at h; simp at h
  | some e =>
  rw [hge] at h
  simp only at h
  have hb1 : (bump_access s pid).page_tables = s.page_tables := rfl
  have hb2 : (bump_access s pid).next_swap_block = s.next_swap_block := rfl
  have hb3 : (bump_fault (bump_access s pid) pid).page_tables = s.page_tables := rfl
  have hb4 : (bump_fault (bump_access s pid) pid).next_swap_block = s.next_swap_block := rfl
  by_cases hp : e.present = true
  · rw [if_pos hp] at h
    simp only at h
    have ha := am_finish_swap _ _ _ _ _ h
    rw [hb1, hb2] at ha
    exact ⟨le_of_eq ha.1.symm, by omega, ha.2⟩
  · rw [if_neg hp] at h
    cases hpf : handle_page_fault (bump_fault (bump_access s pid) pid) pid
        (va / config.PAGE_SIZE) ty with
    | none => rw [hpf] at h; simp at h
    | some r1 =>
    rw [hpf] at h
    obtain ⟨ok, s3⟩ := r1
    have hsw := handle_page_fault_swap _ _ _ _ _ hpf
    rw [hb3, hb4] at hsw
    simp only at h hsw
    by_cases hok : ok = true
    · subst hok
      simp only at h
      have ha := am_finish_swap _ _ _ _ _ h
      exact ⟨by omega, by omega, fun hb =>
        ha.2 ((by rw [ha.1] at *; exact hsw.2.2 hb : swapBounded s3.page_tables s3.next_swap_block))⟩
    · have hok2 : ok = false := by
        cases ok
        · rfl
        · exact absurd rfl hok
      subst hok2
      simp only [Option.some.injEq] at h
      subst h
      dsimp only
      exact ⟨hsw.1, hsw.2.1, hsw.2.2⟩

theorem free_process_memory_swap (s : MMState) (pid : Int) (s' : MMState)
    (h : free_process_memory s pid = some s') :
    s'.next_swap_block = s.next_swap_block ∧
    (swapBounded s.page_tables s.next_swap_block →
      swapBounded s'.page_tables s'.next_swap_block) := by
  unfold free_process_memory at h
  cases halk : alookup s.page_tables pid with
  | none => rw [halk] at h; simp at h
  | some pt =>
  rw [halk] at h
  simp only [Option.some.injEq] at h
  subst h
  dsimp only
  refine ⟨rfl, ?_⟩
  intro hb pr hm e he hod
  exact hb pr (mem_aerase _ _ _ hm) e he hod

theorem create_process_memory_swap (s : MMState) (pid : Int) (n : Nat) :
    (create_process_memory s pid n).next_swap_block = s.next_swap_block ∧
    (swapBounded s.page_tables s.next_swap_block →
      swapBounded (create_process_memory s pid n).page_tables
        (create_process_memory s pid n).next_swap_block) := by
  refine ⟨rfl, ?_⟩
  intro hb pr hm e he hod
  rcases mem_ainsert _ _ _ _ hm with rfl | hm2
  · exfalso
    have : e = {} := List.eq_of_mem_replicate he
    rw [this] at hod
    simp at hod
  · exact hb pr hm2 e he hod

/-- C7: the swap cursor starts at SWAP_START, allocation hands out the
cursor and advances it by one, failing exactly when the cursor has
reached the device end; every memory-manager operation keeps the cursor
monotone (by at most one per fault) and preserves the invariant that all
committed swap blocks lie below the cursor, so an allocated block is
never a previously allocated one. -/
theorem C7_swap_cursor_monotone :
    MMState.init.next_swap_block = config.SWAP_START_BLOCK ∧
    (∀ c, swap_alloc c = none ↔ config.DISK_NUM_BLOCKS ≤ c) ∧
    (∀ c b nxt, swap_alloc c = some (b, nxt) → b = c ∧ nxt = c + 1) ∧
    (∀ s pid pg ty r, handle_page_fault s pid pg ty = some r →
      s.next_swap_block ≤ r.2.next_swap_block ∧
      r.2.next_swap_block ≤ s.next_swap_block + 1 ∧
      (swapBounded s.page_tables s.next_swap_block →
        swapBounded r.2.page_tables r.2.next_swap_block)) ∧
    (∀ s pid va ty r, access_memory s pid va ty = some r →
      s.next_swap_block ≤ r.2.next_swap_block ∧
      (swapBounded s.page_tables s.next_swap_block →
        swapBounded r.2.page_tables r.2.next_swap_block)) ∧
    (∀ s pid n, (create_process_memory s pid n).next_swap_block = s.next_swap_block) ∧
    (∀ s pid s', free_process_memory s pid = some s' →
      s'.next_swap_block = s.next_swap_block ∧
      (swapBounded s.page_tables s.next_swap_block →
        swapBounded s'.page_tables s'.next_swap_block)) ∧
    (∀ c b nxt (s : MMState), swap_alloc c = some (b, nxt) →
      s.next_swap_block = c → swapBounded s.page_tables c →
      ∀ p pt, alookup s.page_tables p = some pt → ∀ e ∈ pt, e.on_disk = true →
        e.swap_block ≠ b) := by
  refine ⟨rfl, ?_, ?_, ?_, ?_, ?_, ?_, ?_⟩
  · intro c
    constructor
    · intro h
      by_cases hc : config.DISK_NUM_BLOCKS ≤ c
      · exact hc
      · simp [swap_alloc, hc] at h
    · intro h
      simp [swap_alloc, h]
  · intro c b nxt h
    by_cases hc : config.DISK_NUM_BLOCKS ≤ c
    · simp [swap_alloc, hc] at h
    · simp only [swap_alloc, if_neg hc, Option.some.injEq, Prod.mk.injEq] at h
      exact ⟨h.1.symm, h.2.symm⟩
  · intro s pid pg ty r h
    exact handle_page_fault_swap s pid pg ty r h
  · intro s pid va ty r h
    have := access_memory_swap s pid va ty r h
    exact ⟨this.1, this.2.2⟩
  · intro s pid n
    exact (create_process_memory_swap s pid n).1
  · intro s pid s' h
    exact free_process_memory_swap s pid s' h
  · intro c b nxt s hsw hc hb p pt hp e he hod
    have hlt : e.swap_block < c := hb (p, pt) (alookup_mem _ _ _ hp) e he hod
    by_cases hex : config.DISK_NUM_BLOCKS ≤ c
    · simp [swap_alloc, hex] at hsw
    · simp only [swap_alloc, if_neg hex, Option.some.injEq, Prod.mk.injEq] at hsw
      omega


def C7state : MMState := { page_tables := [(1, [{}])], frames := [{}] }

def C7result : Bool × MMState :=
  (handle_page_fault C7state 1 0 AccessType.Read).getD (false, C7state)

/-- Witness for C7 at a concrete one-frame state with a fresh page table:
the fault succeeds and the cursor stays within its monotone step. -/
theorem C7_swap_cursor_monotone_witness :
    handle_page_fault C7state 1 0 AccessType.Read = some C7result ∧
    C7state.next_swap_block ≤ C7result.2.next_swap_block ∧
    C7result.2.next_swap_block ≤ C7state.next_swap_block + 1 := by
  have h : handle_page_fault C7state 1 0 AccessType.Read = some C7result := by decide
  have hm := C7_swap_cursor_monotone.2.2.2.1 C7state 1 0 AccessType.Read C7result h
  exact ⟨h, hm.1, hm.2.1⟩

/-! ### Claim C2: page-fault Clock replacement -/


set_option maxHeartbeats 1000000 in
/-- C2: when handle_page_fault finds no free frame it runs Clock
replacement from the current hand: the first jv frames (all with
referenced owning entries) get their bit cleared and the hand advances
modulo F; the first frame with an unreferenced owning entry is the
victim.  A dirty victim without a swap block gets the cursor as its
block and on_disk set (the fault fails with the victim left present when
swap is exhausted) and its payload write is logged; the victim entry is
cleared, the frame is relabelled to the faulting pair, the hand advances
once more, and the faulting entry ends present with the victim frame,
referenced, and dirty exactly on a write access. -/
theorem C2_handle_page_fault_clock
    (s : MMState) (pid : Int) (pg : Nat) (ty : AccessType) (jv : Nat)
    (pt : List PageTableEntry) (e_pg : PageTableEntry)
    (fi_v : FrameInfo) (e_v : PageTableEntry)
    (hpt : alookup s.page_tables pid = some pt)
    (hepg : pt.get? pg = some e_pg)
    (hnp : e_pg.present = false)
    (hfree : findFreeFrame s.frames = none)
    (hF : 0 < s.frames.length)
    (hh : s.clock_ptr < s.frames.length)
    (hOwn : ∀ i fi, s.frames.get? i = some fi → fi.allocated = true ∧
      ∃ e, pteAt s.page_tables fi.owner_pid fi.page_number = some e ∧ e.present = true)
    (hInj : ∀ i j fi fj, s.frames.get? i = some fi → s.frames.get? j = some fj →
      fi.owner_pid = fj.owner_pid → fi.page_number = fj.page_number → i = j)
    (hjv1 : ∀ k, k < jv → ∀ fi,
      s.frames.get? ((s.clock_ptr + k) % s.frames.length) = some fi →
      ∀ e, pteAt s.page_tables fi.owner_pid fi.page_number = some e →
        e.referenced = true)
    (hjv2 : jv ≤ s.frames.length)
    (hjv3 : jv < s.frames.length → ∀ fi,
      s.frames.get? ((s.clock_ptr + jv) % s.frames.length) = some fi →
      ∀ e, pteAt s.page_tables fi.owner_pid fi.page_number = some e →
        e.referenced = false)
    (hfv : s.frames.get? ((s.clock_ptr + jv) % s.frames.length) = some fi_v)
    (hev : pteAt s.page_tables fi_v.owner_pid fi_v.page_number = some e_v) :
    (e_v.dirty = true ∧ e_v.on_disk = false ∧
        config.DISK_NUM_BLOCKS ≤ s.next_swap_block →
      ∃ s', handle_page_fault s pid pg ty = some (false, s') ∧
        s'.frames = s.frames ∧
        s'.next_swap_block = s.next_swap_block ∧
        s'.disk_writes = s.disk_writes ∧
        ∃ e', pteAt s'.page_tables fi_v.owner_pid fi_v.page_number = some e' ∧
          e'.present = true) ∧
    (¬(e_v.dirty = true ∧ e_v.on_disk = false ∧
        config.DISK_NUM_BLOCKS ≤ s.next_swap_block) →
      ∃ s2, handle_page_fault s pid pg ty = some (true, s2) ∧
        s2.frames = assign_frame s.frames
          ((s.clock_ptr + jv) % s.frames.length) pid pg ∧
        s2.clock_ptr
          = ((s.clock_ptr + jv) % s.frames.length + 1) % s.frames.length ∧
        s2.next_swap_block =
          (if e_v.dirty = true ∧ e_v.on_disk = false then s.next_swap_block + 1
           else s.next_swap_block) ∧
        s2.disk_writes =
          (if e_v.dirty = true
           then [(evictedEntry e_v s.next_swap_block).swap_block]
           else []) ++ s.disk_writes ∧
        (e_v.dirty = true ∧ e_v.on_disk = false →
          (evictedEntry e_v s.next_swap_block).swap_block = s.next_swap_block ∧
          (evictedEntry e_v s.next_swap_block).on_disk = true) ∧
        pteAt s2.page_tables fi_v.owner_pid fi_v.page_number
          = some (evictedEntry e_v s.next_swap_block).clear ∧
        (evictedEntry e_v s.next_swap_block).clear.present = false ∧
        (evictedEntry e_v s.next_swap_block).clear.dirty = false ∧
        (evictedEntry e_v s.next_swap_block).clear.referenced = false ∧
        (∃ e', pteAt s2.page_tables pid pg = some e' ∧
          e'.present = true ∧
          e'.frame_number = (s.clock_ptr + jv) % s.frames.length ∧
          e'.referenced = true ∧
          (e'.dirty = true ↔ ty = AccessType.Write)) ∧
        (∀ k, k < jv → ∀ fi,
          s.frames.get? ((s.clock_ptr + k) % s.frames.length) = some fi →
          ∃ e', pteAt s2.page_tables fi.owner_pid fi.page_number = some e' ∧
            e'.referenced = false)) := by
  have halloc_none : allocate_frame s.frames pid pg = none := by
    unfold allocate_frame
    rw [hfree]
  have hsweep := clock_sweep_spec jv s pid pg (s.frames.length + 1) (by omega)
    hF hh hOwn hInj hjv1 hjv2 hjv3 fi_v e_v hfv hev
  obtain ⟨hsfail, hssucc⟩ := hsweep
  have hpres_v : e_v.present = true := by
    obtain ⟨_, e, he, hp⟩ := hOwn _ _ hfv
    have : e = e_v := Option.some_injective _ (he.symm.trans hev)
    rw [this] at hp
    exact hp
  constructor
  · rintro ⟨hd, hod, hex⟩
    obtain ⟨s', heq, hfr, hcp, hns, hdw, hve⟩ := hsfail ⟨hd, hod, hex⟩
    refine ⟨s', ?_, hfr, hns, hdw, ?_⟩
    · unfold handle_page_fault
      rw [hpt]
      simp only
      rw [halloc_none]
      simp only
      rw [heq]
      simp
    · rcases hve with h | h
      · exact ⟨e_v, h, hpres_v⟩
      · exact ⟨{ e_v with referenced := false }, h, hpres_v⟩
  · intro hnc
    obtain ⟨s1, heq, hfr, hcp, hns, hdw, hve, hpres, hclr⟩ := hssucc hnc
    have hne_pair : ¬(pid = fi_v.owner_pid ∧ pg = fi_v.page_number) := by
      rintro ⟨h1, h2⟩
      have : pteAt s.page_tables pid pg = some e_v := by rw [h1, h2]; exact hev
      unfold pteAt at this
      rw [hpt] at this
      simp only at this
      have he : e_pg = e_v := Option.some_injective _ (hepg.symm.trans this)
      rw [he, hpres_v] at hnp
      exact Bool.true_eq_false.mp hnp
    -- the faulting entry survives the sweep
    obtain ⟨e1, he1, he1p⟩ : ∃ e1, pteAt s1.page_tables pid pg = some e1 ∧
        e1.present = false := by
      rcases hpres pid pg hne_pair with hsame | ⟨e0, he0, he0'⟩
      · refine ⟨e_pg, ?_, hnp⟩
        rw [hsame]
        unfold pteAt
        rw [hpt]
        simp only
        exact hepg
      · have : e0 = e_pg := by
          unfold pteAt at he0
          rw [hpt] at he0
          simp only at he0
          exact Option.some_injective _ (he0.symm.trans hepg)
        subst this
        exact ⟨{ e0 with referenced := false }, he0', hnp⟩
    have he1' := he1
    unfold pteAt at he1'
    cases halk1 : alookup s1.page_tables pid with
    | none => rw [halk1] at he1'; simp at he1'
    | some pt1 =>
    rw [halk1] at he1'
    simp only at he1'
    have hw1 : pg < pt1.length := (List.get?_eq_some.mp he1').1
    have hps2 := pteAt_set s1.page_tables pid pt1 pg
      { e1 with
        present := true
        frame_number := (s.clock_ptr + jv) % s.frames.length
        referenced := true
        dirty := (ty = AccessType.Write) } halk1 hw1
    refine ⟨{ s1 with page_tables := ainsert s1.page_tables pid (pt1.set pg
      { e1 with
        present := true
        frame_number := (s.clock_ptr + jv) % s.frames.length
        referenced := true
        dirty := decide (ty = AccessType.Write) }) },
      ?_, ?_, ?_, ?_, ?_, ?_, ?_, ?_, ?_, ?_, ?_, ?_⟩
    · unfold handle_page_fault
      rw [hpt]
      simp only
      rw [halloc_none]
      simp only
      rw [heq]
      dsimp only
      unfold pf_finish
      rw [halk1]
      simp only
      rw [he1']
      simp
    · exact hfr
    · exact hcp
    · exact hns
    · exact hdw
    · rintro ⟨hd, hod⟩
      constructor
      · simp [evictedEntry, hd, hod]
      · simp [evictedEntry, hd, hod]
    · dsimp only
      rw [hps2]
      rw [if_neg (by tauto)]
      exact hve
    · simp [PageTableEntry.clear]
    · simp [PageTableEntry.clear]
    · simp [PageTableEntry.clear]
    · refine ⟨{ e1 with
          present := true
          frame_number := (s.clock_ptr + jv) % s.frames.length
          referenced := true
          dirty := decide (ty = AccessType.Write) }, ?_, rfl, rfl, rfl, ?_⟩
      · dsimp only
        rw [hps2]
        simp
      · simp
    · intro k hk fi hfi
      obtain ⟨e', he', hr'⟩ := hclr k hk fi hfi
      have hfine : ¬(fi.owner_pid = pid ∧ fi.page_number = pg) := by
        rintro ⟨h1, h2⟩
        obtain ⟨_, e, he, hp⟩ := hOwn _ _ hfi
        rw [h1, h2] at he
        unfold pteAt at he
        rw [hpt] at he
        simp only at he
        have : e = e_pg := Option.some_injective _ (he.symm.trans hepg)
        rw [this, hnp] at hp
        simp at hp
      refine ⟨e', ?_, hr'⟩
      dsimp only
      rw [hps2]
      rw [if_neg hfine]
      exact he'

def C2pe0 : PageTableEntry :=
  { present := true, frame_number := 0, dirty := true, referenced := false }

def C2pe1 : PageTableEntry :=
  { present := true, frame_number := 1, referenced := true }

def C2state : MMState :=
  { page_tables := [(1, [C2pe0, C2pe1, {}])]
    frames := [{ allocated := true, owner_pid := 1, page_number := 0 },
               { allocated := true, owner_pid := 1, page_number := 1 }]
    clock_ptr := 0
    next_swap_block := config.SWAP_START_BLOCK }

theorem C2_handle_page_fault_clock_witness :
    findFreeFrame C2state.frames = none ∧
    ∃ s2, handle_page_fault C2state 1 2 AccessType.Read = some (true, s2) ∧
      s2.next_swap_block = C2state.next_swap_block + 1 ∧
      s2.clock_ptr = 1 := by
  have hOwnC : ∀ i fi, C2state.frames.get? i = some fi → fi.allocated = true ∧
      ∃ e, pteAt C2state.page_tables fi.owner_pid fi.page_number = some e ∧
        e.present = true := by
    intro i fi hi
    match i, hi with
    | 0, hi =>
      have : fi = { allocated := true, owner_pid := 1, page_number := 0 } := by
        simpa [C2state] using hi.symm
      subst this
      exact ⟨rfl, ⟨C2pe0, by decide, by decide⟩⟩
    | 1, hi =>
      have : fi = { allocated := true, owner_pid := 1, page_number := 1 } := by
        simpa [C2state] using hi.symm
      subst this
      exact ⟨rfl, ⟨C2pe1, by decide, by decide⟩⟩
    | (n + 2), hi => simp [C2state] at hi
  have hInjC : ∀ i j fi fj, C2state.frames.get? i = some fi →
      C2state.frames.get? j = some fj → fi.owner_pid = fj.owner_pid →
      fi.page_number = fj.page_number → i = j := by
    intro i j fi fj hi hj h1 h2
    match i, j, hi, hj with
    | 0, 0, _, _ => rfl
    | 1, 1, _, _ => rfl
    | 0, 1, hi, hj =>
      exfalso
      have e1 : fi = { allocated := true, owner_pid := 1, page_number := 0 } := by
        simpa [C2state] using hi.symm
      have e2 : fj = { allocated := true, owner_pid := 1, page_number := 1 } := by
        simpa [C2state] using hj.symm
      rw [e1, e2] at h2
      simp at h2
    | 1, 0, hi, hj =>
      exfalso
      have e1 : fi = { allocated := true, owner_pid := 1, page_number := 1 } := by
        simpa [C2state] using hi.symm
      have e2 : fj = { allocated := true, owner_pid := 1, page_number := 0 } := by
        simpa [C2state] using hj.symm
      rw [e1, e2] at h2
      simp at h2
    | 0, (n + 2), _, hj => simp [C2state] at hj
    | 1, (n + 2), _, hj => simp [C2state] at hj
    | (n + 2), _, hi, _ => simp [C2state] at hi
  have h := C2_handle_page_fault_clock C2state 1 2 AccessType.Read 0
    [C2pe0, C2pe1, {}] {} { allocated := true, owner_pid := 1, page_number := 0 } C2pe0
    (by decide) (by decide) (by decide) (by decide) (by decide) (by decide)
    hOwnC hInjC (by intro k hk; omega) (by decide)
    (by intro _ fi hfi e he
        have : fi = { allocated := true, owner_pid := 1, page_number := 0 } := by
          simpa [C2state] using hfi.symm
        subst this
        have : e = C2pe0 := by
          have h2 : pteAt C2state.page_tables 1 0 = some C2pe0 := by decide
          exact Option.some_injective _ (he.symm.trans h2)
        subst this
        rfl)
    (by decide) (by decide)
  obtain ⟨s2, heq, hfr, hcp, hns, _⟩ := h.2 (by decide)
  refine ⟨by decide, s2, heq, ?_, ?_⟩
  · rw [hns]
    decide
  · rw [hcp]
    decide

/-! ## FileSystem read/write (src/unnamed/part_003: FileSystem::read_file,
FileSystem::write_file)

Disk blocks are lists of byte values keyed by absolute block id; a block
never written reads as zeros (the image is zero-filled on creation).
InodeManager, BlockManager and the FileDescriptorTable are not among the
sources and are modelled from the specification where noted.
-/

inductive FileType where
  | REGULAR
  | DIRECTORY
deriving DecidableEq

structure Inode where
  type : FileType := FileType.REGULAR
  size : Nat := 0
  blocks_used : Nat := 0
  direct_blocks : List Nat := List.replicate DIRECT_BLOCKS INVALID_BLOCK
deriving DecidableEq

structure OpenFile where
  inode_num : Nat
  offset : Nat := 0
deriving DecidableEq

structure FSState where
  inodes : List (Nat × Inode) := []
  data_bitmap : List Bool := List.replicate MAX_DATA_BLOCKS false
  blocks : List (Nat × List Nat) := []
  open_files : List (Int × OpenFile) := []
  next_fd : Int := 0
  free_blocks : Nat := MAX_DATA_BLOCKS
  dirents : List (List Char × Nat) := []
  current_dir : List Char := ['/']
deriving DecidableEq

/-- Index of the first clear bit of a bitmap. -/
def firstClear : List Bool → Option Nat
  | [] => none
  | b :: rest => if b then (firstClear rest).map (fun i => i + 1) else some 0

/-- Modelled from the spec: BlockManager::alloc_block (block_manager is
not among the sources).  Data blocks are bitmap-allocated: the first
clear bit is set and the corresponding absolute block id (offset by
DATA_BLOCKS_START) is returned; none when no block is free. -/
def alloc_block (bm : List Bool) : Option (Nat × List Bool) :=
  match firstClear bm with
  | none => none
  | some i => some (DATA_BLOCKS_START + i, bm.set i true)

/-- DiskDevice::read_block content (an absent binding is a zero block). -/
def read_block (blocks : List (Nat × List Nat)) (b : Nat) : List Nat :=
  (alookup blocks b).getD (List.replicate BLOCK_SIZE 0)

/-- memcpy into a block buffer at an offset. -/
def listWrite (dst : List Nat) (off : Nat) (src : List Nat) : List Nat :=
  dst.take off ++ src ++ dst.drop (off + src.length)

structure WriteSt where
  inode : Inode
  offset : Nat
  bytes_written : Nat := 0
  blocks : List (Nat × List Nat)
  bitmap : List Bool
  free_blocks : Nat
deriving DecidableEq

/-- The block-at-a-time loop of FileSystem::write_file.  One fuel unit per
iteration (fuel = requested size always suffices as every iteration
writes at least one byte); none models the DiskDevice out-of-range
exception and fuel exhaustion. -/
def write_loop (buf : List Nat) (size : Nat) : Nat → WriteSt → Option WriteSt
  | 0, st => if st.bytes_written < size then none else some st
  | fuel + 1, st =>
    if st.bytes_written < size then
      let block_idx := st.offset / BLOCK_SIZE
      let block_off := st.offset % BLOCK_SIZE
      let alloc? : Option WriteSt :=
        if st.inode.blocks_used ≤ block_idx then
          if DIRECT_BLOCKS ≤ block_idx then none
          else
            match alloc_block st.bitmap with
            | none => none
            | some (b, bm') =>
              some { st with
                     inode := { st.inode with
                                direct_blocks := st.inode.direct_blocks.set block_idx b
                                blocks_used := st.inode.blocks_used + 1 }
                     bitmap := bm'
                     free_blocks := st.free_blocks - 1 }
        else some st
      match alloc? with
      | none => some st
      | some st1 =>
        match st1.inode.direct_blocks.get? block_idx with
        | none => none
        | some bid =>
          if config.DISK_NUM_BLOCKS ≤ bid then none
          else
            let base :=
              if block_off ≠ 0 ∨ size - st1.bytes_written < BLOCK_SIZE
              then read_block st1.blocks bid
              else List.replicate BLOCK_SIZE 0
            let chunk := min (size - st1.bytes_written) (BLOCK_SIZE - block_off)
            let data := listWrite base block_off ((buf.drop st1.bytes_written).take chunk)
            write_loop buf size fuel
              { st1 with
                blocks := ainsert st1.blocks bid data
                bytes_written := st1.bytes_written + chunk
                offset := st1.offset + chunk
                inode := if st1.inode.size < st1.offset + chunk
                         then { st1.inode with size := st1.offset + chunk }
                         else st1.inode }
    else some st

/-- FileSystem::write_file: write size bytes from buf at the current
offset of fd, allocating direct blocks as needed.  Returns the byte
count and the new state; a bad descriptor or unknown inode returns -1
unchanged (the FileDescriptorTable and InodeManager lookups are modelled
from the spec); none models a DiskDevice exception. -/
def write_file (fs : FSState) (fd : Int) (buf : List Nat) (size : Nat) :
    Option (Int × FSState) :=
  match alookup fs.open_files fd with
  | none => some (-1, fs)
  | some file =>
    match alookup fs.inodes file.inode_num with
    | none => some (-1, fs)
    | some inode =>
      match write_loop buf size size
          { inode := inode, offset := file.offset,
            blocks := fs.blocks, bitmap := fs.data_bitmap,
            free_blocks := fs.free_blocks } with
      | none => none
      | some st =>
        some ((st.bytes_written : Int),
          { fs with
            inodes := ainsert fs.inodes file.inode_num st.inode
            blocks := st.blocks
            data_bitmap := st.bitmap
            free_blocks := st.free_blocks
            open_files :=
              ainsert fs.open_files fd { file with offset := st.offset } })

structure ReadSt where
  offset : Nat
  out : List Nat := []
deriving DecidableEq

/-- The block-at-a-time loop of FileSystem::read_file. -/
def read_loop (blocks : List (Nat × List Nat)) (inode : Inode) (to_read : Nat) :
    Nat → ReadSt → Option ReadSt
  | 0, st => if st.out.length < to_read then none else some st
  | fuel + 1, st =>
    if st.out.length < to_read then
      let block_idx := st.offset / BLOCK_SIZE
      if inode.blocks_used ≤ block_idx then some st
      else
        match inode.direct_blocks.get? block_idx with
        | none => none
        | some bid =>
          if config.DISK_NUM_BLOCKS ≤ bid then none
          else
            let block_off := st.offset % BLOCK_SIZE
            let data := read_block blocks bid
            let chunk := min (to_read - st.out.length) (BLOCK_SIZE - block_off)
            read_loop blocks inode to_read fuel
              { offset := st.offset + chunk
                out := st.out ++ (data.drop block_off).take chunk }
    else some st

/-- FileSystem::read_file: read up to min(size, inode.size - offset)
bytes from sequential direct blocks, advancing the descriptor offset.
Returns the count, the bytes read and the new state. -/
def read_file (fs : FSState) (fd : Int) (size : Nat) :
    Option (Int × List Nat × FSState) :=
  match alookup fs.open_files fd with
  | none => some (-1, [], fs)
  | some file =>
    match alookup fs.inodes file.inode_num with
    | none => some (-1, [], fs)
    | some inode =>
      let available := if file.offset < inode.size then inode.size - file.offset else 0
      let to_read := min size available
      if to_read = 0 then some (0, [], fs)
      else
        match read_loop fs.blocks inode to_read to_read { offset := file.offset } with
        | none => none
        | some st =>
          some ((st.out.length : Int), st.out,
            { fs with
              open_files :=
                ainsert fs.open_files fd { file with offset := st.offset } })

/-- Modelled from the spec: FileDescriptorTable::alloc_fd (fd_table is
not among the sources).  open_file allocates a new descriptor bound to
(inode, offset = 0). -/
def alloc_fd (fs : FSState) (ino : Nat) : Int × FSState :=
  (fs.next_fd,
   { fs with
     open_files := ainsert fs.open_files fs.next_fd { inode_num := ino }
     next_fd := fs.next_fd + 1 })


def countFree (bm : List Bool) : Nat := (bm.filter (fun b => !b)).length

theorem countFree_cons (b : Bool) (rest : List Bool) :
    countFree (b :: rest) = (if b then 0 else 1) + countFree rest := by
  cases b <;> simp [countFree, List.filter] <;> omega

theorem firstClear_spec (bm : List Bool) (i : Nat) (h : firstClear bm = some i) :
    i < bm.length ∧ bm.get? i = some false := by
  induction bm generalizing i with
  | nil => simp [firstClear] at h
  | cons b rest ih =>
    cases b with
    | true =>
      simp only [firstClear, if_pos rfl] at h
      cases hfc : firstClear rest with
      | none => rw [hfc] at h; simp at h
      | some j =>
        rw [hfc] at h
        simp only [Option.map_some', if_true, Option.some.injEq] at h
        subst h
        have := ih j hfc
        refine ⟨by simp; omega, ?_⟩
        simpa using this.2
    | false =>
      simp only [firstClear] at h
      rw [if_neg (by simp)] at h
      simp only [Option.some.injEq] at h
      subst h
      simp
  -- end

theorem firstClear_isSome (bm : List Bool) (h : 0 < countFree bm) :
    ∃ i, firstClear bm = some i := by
  induction bm with
  | nil => simp [countFree] at h
  | cons b rest ih =>
    cases b with
    | true =>
      rw [countFree_cons] at h
      simp only [if_true, Nat.zero_add] at h
      obtain ⟨i, hi⟩ := ih (by simpa using h)
      exact ⟨i + 1, by simp [firstClear, hi]⟩
    | false =>
      exact ⟨0, by simp [firstClear]⟩

theorem countFree_set_true (bm : List Bool) (i : Nat) (h : bm.get? i = some false) :
    countFree (bm.set i true) + 1 = countFree bm := by
  induction bm generalizing i with
  | nil => simp at h
  | cons b rest ih =>
    cases i with
    | zero =>
      simp only [List.get?] at h
      have hb : b = false := by simpa using h
      subst hb
      simp [List.set, countFree_cons]
      omega
    | succ j =>
      simp only [List.get?] at h
      have := ih j h
      simp only [List.set, countFree_cons]
      omega

theorem countFree_length_set (bm : List Bool) (i : Nat) (v : Bool) :
    (bm.set i v).length = bm.length := by
  simp

theorem write_loop_done (buf : List Nat) (size fuel : Nat) (st : WriteSt)
    (h : ¬ st.bytes_written < size) : write_loop buf size fuel st = some st := by
  cases fuel <;> simp [write_loop, h]

theorem write_loop_spec (buf : List Nat) (n : Nat) (hbuf : buf.length = n)
    (hn : n ≤ MAX_FILE_SIZE) :
    ∀ fuel j st,
    st.bytes_written = BLOCK_SIZE * j →
    st.offset = BLOCK_SIZE * j →
    st.bytes_written < n →
    n - st.bytes_written ≤ fuel →
    st.inode.blocks_used = j →
    st.inode.size = st.bytes_written →
    st.inode.direct_blocks.length = DIRECT_BLOCKS →
    st.bitmap.length = MAX_DATA_BLOCKS →
    DIRECT_BLOCKS - j ≤ countFree st.bitmap →
    (∀ i, i < j → ∃ b, st.inode.direct_blocks.get? i = some b ∧
       DATA_BLOCKS_START ≤ b ∧ b < TOTAL_BLOCKS ∧
       st.bitmap.get? (b - DATA_BLOCKS_START) = some true ∧
       ∃ data, alookup st.blocks b = some data ∧
         data.take (min BLOCK_SIZE (n - BLOCK_SIZE * i))
           = (buf.drop (BLOCK_SIZE * i)).take BLOCK_SIZE) →
    ∃ st', write_loop buf n fuel st = some st' ∧
      st'.bytes_written = n ∧
      st'.offset = n ∧
      st'.inode.size = n ∧
      st'.inode.blocks_used = (n + (BLOCK_SIZE - 1)) / BLOCK_SIZE ∧
      (∀ i, i < (n + (BLOCK_SIZE - 1)) / BLOCK_SIZE →
        ∃ b, st'.inode.direct_blocks.get? i = some b ∧
          b < TOTAL_BLOCKS ∧
          ∃ data, alookup st'.blocks b = some data ∧
            data.take (min BLOCK_SIZE (n - BLOCK_SIZE * i))
              = (buf.drop (BLOCK_SIZE * i)).take BLOCK_SIZE) := by
  intro fuel
  induction fuel with
  | zero =>
    intro j st hw ho hlt hfuel
    intro _ _ _ _ _ _
    exact absurd hlt (by omega)
  | succ fuel ih =>
    intro j st hw ho hlt hfuel hbu hsz hdl hbml hcf hinv
    have hjlt : j < DIRECT_BLOCKS := by
      have : BLOCK_SIZE * j < n := hw ▸ hlt
      simp only [MAX_FILE_SIZE, DIRECT_BLOCKS, BLOCK_SIZE, config.DISK_BLOCK_SIZE] at *
      omega
    have hbidx : st.offset / BLOCK_SIZE = j := by
      rw [ho]
      simp only [BLOCK_SIZE, config.DISK_BLOCK_SIZE]
      omega
    have hboff : st.offset % BLOCK_SIZE = 0 := by
      rw [ho]
      exact Nat.mul_mod_right _ _
    -- the allocation succeeds
    obtain ⟨i0, hfc⟩ := firstClear_isSome st.bitmap (by omega)
    have hfcs := firstClear_spec st.bitmap i0 hfc
    have halloc : alloc_block st.bitmap
        = some (DATA_BLOCKS_START + i0, st.bitmap.set i0 true) := by
      simp [alloc_block, hfc]
    set bid := DATA_BLOCKS_START + i0 with hbid
    have hbidlt : bid < TOTAL_BLOCKS := by
      have : i0 < MAX_DATA_BLOCKS := hbml ▸ hfcs.1
      simp only [hbid, TOTAL_BLOCKS, MAX_DATA_BLOCKS, DATA_BLOCKS_START,
        config.SWAP_START_BLOCK, config.DISK_NUM_BLOCKS,
        config.SWAP_RESERVED_BLOCKS] at *
      omega
    have hbid_disk : ¬ config.DISK_NUM_BLOCKS ≤ bid := by
      simp only [TOTAL_BLOCKS, config.SWAP_START_BLOCK, config.DISK_NUM_BLOCKS,
        config.SWAP_RESERVED_BLOCKS] at hbidlt
      simp only [config.DISK_NUM_BLOCKS]
      omega
    -- the new block differs from every block written so far
    have hfresh : ∀ i, i < j → ∀ b, st.inode.direct_blocks.get? i = some b →
        st.bitmap.get? (b - DATA_BLOCKS_START) = some true → b ≠ bid := by
      intro i hi b hgb hbt hbeq
      rw [hbeq] at hbt
      simp only [hbid, Nat.add_sub_cancel_left] at hbt
      rw [hfcs.2] at hbt
      simp at hbt
    set st1 : WriteSt := { st with
      inode := { st.inode with
                 direct_blocks := st.inode.direct_blocks.set j bid
                 blocks_used := st.inode.blocks_used + 1 }
      bitmap := st.bitmap.set i0 true
      free_blocks := st.free_blocks - 1 } with hst1
    have hchunkpos : 0 < min (n - st.bytes_written) (BLOCK_SIZE - st.offset % BLOCK_SIZE) := by
      rw [hboff]
      simp only [BLOCK_SIZE, config.DISK_BLOCK_SIZE]
      omega
    have hget_bid : st1.inode.direct_blocks.get? j = some bid := by
      simp only [hst1, List.get?_eq_getElem?]
      exact List.getElem?_set_eq_of_lt bid (hdl ▸ hjlt)
    -- unfold one iteration
    have hget_bid2 : (st.inode.direct_blocks.set j bid).get? j = some bid := by
      rw [List.get?_eq_getElem?]
      exact List.getElem?_set_eq_of_lt bid (hdl ▸ hjlt)
    have hszlt : st.inode.size
        < st.offset + min (n - st.bytes_written) BLOCK_SIZE := by
      have h1 : 0 < min (n - st.bytes_written) BLOCK_SIZE := by
        simp only [BLOCK_SIZE, config.DISK_BLOCK_SIZE]
        omega
      omega
    have hstep : write_loop buf n (fuel + 1) st = write_loop buf n fuel
        { inode := { st.inode with
            size := st.offset + min (n - st.bytes_written) BLOCK_SIZE
            blocks_used := st.inode.blocks_used + 1
            direct_blocks := st.inode.direct_blocks.set j bid }
          offset := st.offset + min (n - st.bytes_written) BLOCK_SIZE
          bytes_written := st.bytes_written + min (n - st.bytes_written) BLOCK_SIZE
          blocks := ainsert st.blocks bid
            (listWrite
              (if n - st.bytes_written < BLOCK_SIZE
               then read_block st.blocks bid
               else List.replicate BLOCK_SIZE 0)
              0
              ((buf.drop st.bytes_written).take (min (n - st.bytes_written) BLOCK_SIZE)))
          bitmap := st.bitmap.set i0 true
          free_blocks := st.free_blocks - 1 } := by
      conv_lhs => rw [write_loop]
      rw [if_pos hlt]
      dsimp only
      rw [hbidx]
      rw [if_pos (le_of_eq hbu), if_neg (show ¬ DIRECT_BLOCKS ≤ j by omega), halloc]
      dsimp only
      rw [hget_bid2]
      dsimp only
      rw [if_neg hbid_disk]
      rw [hboff]
      simp only [ne_eq, not_true_eq_false, Nat.sub_zero, false_or]
      rw [if_pos hszlt]
    set chunk := min (n - st.bytes_written) BLOCK_SIZE with hchunk
    set base := (if n - st.bytes_written < BLOCK_SIZE
                 then read_block st.blocks bid
                 else List.replicate BLOCK_SIZE 0) with hbase
    set data := listWrite base 0 ((buf.drop st.bytes_written).take chunk) with hdata
    set st2 : WriteSt :=
      { inode := { st.inode with
          size := st.offset + chunk
          blocks_used := st.inode.blocks_used + 1
          direct_blocks := st.inode.direct_blocks.set j bid }
        offset := st.offset + chunk
        bytes_written := st.bytes_written + chunk
        blocks := ainsert st.blocks bid data
        bitmap := st.bitmap.set i0 true
        free_blocks := st.free_blocks - 1 } with hst2
    have hchunk1 : 1 ≤ chunk := by
      simp only [hchunk, BLOCK_SIZE, config.DISK_BLOCK_SIZE]
      omega
    have hchunkn : chunk ≤ n - st.bytes_written := by
      simp only [hchunk]
      omega
    have hsrclen : ((buf.drop st.bytes_written).take chunk).length = chunk := by
      simp only [List.length_take, List.length_drop, hbuf]
      omega
    have hcontent_j : data.take (min BLOCK_SIZE (n - BLOCK_SIZE * j))
        = (buf.drop (BLOCK_SIZE * j)).take BLOCK_SIZE := by
      have hminj : min BLOCK_SIZE (n - BLOCK_SIZE * j) = chunk := by
        rw [hchunk, ← hw]
        omega
      rw [hminj, hdata]
      simp only [listWrite, List.take_nil, List.nil_append, List.take_zero]
      rw [List.take_append_of_le_length (by rw [hsrclen])]
      rw [List.take_all_of_le (by rw [hsrclen])]
      rw [hw.symm]
      by_cases hfull : BLOCK_SIZE ≤ n - st.bytes_written
      · have : chunk = BLOCK_SIZE := by simp only [hchunk]; omega
        rw [this]
      · have hlen : (buf.drop st.bytes_written).length = n - st.bytes_written := by
          simp [hbuf]
        have hc : chunk = n - st.bytes_written := by simp only [hchunk]; omega
        rw [hc, List.take_all_of_le (by rw [hlen]),
            List.take_all_of_le (by rw [hlen]; omega)]
    have hpres : ∀ i, i < j → ∃ b, st2.inode.direct_blocks.get? i = some b ∧
        DATA_BLOCKS_START ≤ b ∧ b < TOTAL_BLOCKS ∧
        st2.bitmap.get? (b - DATA_BLOCKS_START) = some true ∧
        ∃ d, alookup st2.blocks b = some d ∧
          d.take (min BLOCK_SIZE (n - BLOCK_SIZE * i))
            = (buf.drop (BLOCK_SIZE * i)).take BLOCK_SIZE := by
      intro i hi
      obtain ⟨b, hgb, hble, hblt, hbt, d, hd, hdc⟩ := hinv i hi
      have hbne : b ≠ bid := hfresh i hi b hgb hbt
      have hidxne : b - DATA_BLOCKS_START ≠ i0 := by
        intro hc
        have h1 := hbt
        rw [hc, hfcs.2] at h1
        simp at h1
      refine ⟨b, ?_, hble, hblt, ?_, d, ?_, hdc⟩
      · simp only [hst2, List.get?_eq_getElem?]
        rw [List.getElem?_set_ne (by omega : j ≠ i)]
        rw [List.get?_eq_getElem?] at hgb
        exact hgb
      · simp only [hst2, List.get?_eq_getElem?]
        rw [List.getElem?_set_ne (Ne.symm hidxne)]
        rw [List.get?_eq_getElem?] at hbt
        exact hbt
      · simp only [hst2]
        rw [alookup_ainsert_ne _ _ _ _ hbne]
        exact hd
    have hget_bid3 : st2.inode.direct_blocks.get? j = some bid := by
      simp only [hst2]
      exact hget_bid2
    have halookup_bid : alookup st2.blocks bid = some data := by
      simp only [hst2]
      exact alookup_ainsert_self _ _ _
    by_cases hdone : st.bytes_written + chunk < n
    · -- a full chunk was written and more remains
      have hchunkfull : chunk = BLOCK_SIZE := by
        simp only [hchunk] at *
        omega
      have hih := ih (j + 1) st2
        (by simp only [hst2]; rw [hw, hchunkfull]; ring)
        (by simp only [hst2]; rw [ho, hchunkfull]; ring)
        (by simpa only [hst2] using hdone)
        (by simp only [hst2]; omega)
        (by simp only [hst2, hbu])
        (by simp only [hst2]; omega)
        (by simp only [hst2]; simpa using hdl)
        (by simp only [hst2]; simpa using hbml)
        (by simp only [hst2]
            have := countFree_set_true st.bitmap i0 hfcs.2
            omega)
        (by intro i hi
            rcases Nat.lt_or_ge i j with hij | hij
            · exact hpres i hij
            · have : i = j := by omega
              subst this
              exact ⟨bid, hget_bid3, by simp [hbid], hbidlt, by
                simp only [hst2, List.get?_eq_getElem?, hbid, Nat.add_sub_cancel_left]
                rw [List.getElem?_set_eq_of_lt true (hbml ▸ hfcs.1)],
                data, halookup_bid, hcontent_j⟩)
      obtain ⟨st', hst', hcon⟩ := hih
      exact ⟨st', by rw [hstep]; exact hst', hcon⟩
    · -- final chunk: the loop terminates with everything written
      have hwn : st.bytes_written + chunk = n := by omega
      refine ⟨st2, ?_, ?_, ?_, ?_, ?_, ?_⟩
      · rw [hstep]
        apply write_loop_done
        simp only [hst2]
        omega
      · simp only [hst2]; omega
      · simp only [hst2]; omega
      · simp only [hst2]; omega
      · simp only [hst2, hbu]
        rw [hw] at hwn
        simp only [BLOCK_SIZE, config.DISK_BLOCK_SIZE] at *
        omega
      · intro i hi
        have hceil : (n + (BLOCK_SIZE - 1)) / BLOCK_SIZE = j + 1 := by
          rw [hw] at hwn
          simp only [BLOCK_SIZE, config.DISK_BLOCK_SIZE] at *
          omega
        rw [hceil] at hi
        rcases Nat.lt_or_ge i j with hij | hij
        · obtain ⟨b, hgb, _, hblt, _, d, hd, hdc⟩ := hpres i hij
          exact ⟨b, hgb, hblt, d, hd, hdc⟩
        · have : i = j := by omega
          subst this
          exact ⟨bid, hget_bid3, hbidlt, data, halookup_bid, hcontent_j⟩

theorem read_loop_done (blocks : List (Nat × List Nat)) (inode : Inode)
    (to_read fuel : Nat) (st : ReadSt) (h : ¬ st.out.length < to_read) :
    read_loop blocks inode to_read fuel st = some st := by
  cases fuel <;> simp [read_loop, h]

theorem read_loop_spec (buf : List Nat) (n : Nat) (hbuf : buf.length = n)
    (hn : n ≤ MAX_FILE_SIZE) (inode : Inode) (blocks : List (Nat × List Nat))
    (hbu : inode.blocks_used = (n + (BLOCK_SIZE - 1)) / BLOCK_SIZE)
    (hcont : ∀ i, i < inode.blocks_used → ∃ b,
      inode.direct_blocks.get? i = some b ∧ b < TOTAL_BLOCKS ∧
      ∃ d, alookup blocks b = some d ∧
        d.take (min BLOCK_SIZE (n - BLOCK_SIZE * i))
          = (buf.drop (BLOCK_SIZE * i)).take BLOCK_SIZE) :
    ∀ fuel j st, st.offset = BLOCK_SIZE * j → st.out = buf.take (BLOCK_SIZE * j) →
    st.out.length < n → n - st.out.length ≤ fuel →
    ∃ st', read_loop blocks inode n fuel st = some st' ∧
      st'.out = buf ∧ st'.offset = n := by
  intro fuel
  induction fuel with
  | zero =>
    intro j st ho hout hlt hfuel
    exact absurd hlt (by omega)
  | succ fuel ih =>
    intro j st ho hout hlt hfuel
    have houtlen : st.out.length = BLOCK_SIZE * j := by
      rw [hout]
      simp only [List.length_take, hbuf]
      have : st.out.length < n := hlt
      rw [hout] at this
      simp only [List.length_take, hbuf] at this
      omega
    have hjlt : j < inode.blocks_used := by
      rw [hbu]
      rw [houtlen] at hlt
      simp only [BLOCK_SIZE, config.DISK_BLOCK_SIZE] at *
      omega
    obtain ⟨b, hgb, hblt, d, hd, hdc⟩ := hcont j hjlt
    have hbidx : st.offset / BLOCK_SIZE = j := by
      rw [ho]
      simp only [BLOCK_SIZE, config.DISK_BLOCK_SIZE]
      omega
    have hboff : st.offset % BLOCK_SIZE = 0 := by
      rw [ho]
      exact Nat.mul_mod_right _ _
    have hbdisk : ¬ config.DISK_NUM_BLOCKS ≤ b := by
      simp only [TOTAL_BLOCKS, config.SWAP_START_BLOCK, config.DISK_NUM_BLOCKS,
        config.SWAP_RESERVED_BLOCKS] at hblt
      simp only [config.DISK_NUM_BLOCKS]
      omega
    have hread : read_block blocks b = d := by
      simp [read_block, hd]
    set chunk := min (n - st.out.length) BLOCK_SIZE with hchunk
    have hchunk1 : 1 ≤ chunk := by
      simp only [hchunk, BLOCK_SIZE, config.DISK_BLOCK_SIZE]
      omega
    have hstep : read_loop blocks inode n (fuel + 1) st = read_loop blocks inode n fuel
        { offset := st.offset + chunk
          out := st.out ++ d.take chunk } := by
      conv_lhs => rw [read_loop]
      rw [if_pos hlt]
      dsimp only
      rw [hbidx]
      rw [if_neg (by omega), hgb]
      dsimp only
      rw [if_neg hbdisk, hread, hboff]
      simp only [Nat.sub_zero, List.drop_zero]
    have hdtake : d.take chunk = (buf.drop (BLOCK_SIZE * j)).take chunk := by
      have hminc : min BLOCK_SIZE (n - BLOCK_SIZE * j) = chunk := by
        rw [hchunk, houtlen]
        omega
      rw [hminc] at hdc
      by_cases hfull : chunk = BLOCK_SIZE
      · rw [hdc, hfull]
      · have hlen : (buf.drop (BLOCK_SIZE * j)).length = n - BLOCK_SIZE * j := by
          simp [hbuf]
        have hsmall : n - BLOCK_SIZE * j ≤ BLOCK_SIZE ∧ n - BLOCK_SIZE * j ≤ chunk := by
          simp only [hchunk, houtlen] at *
          omega
        rw [hdc, List.take_all_of_le (by rw [hlen]; exact hsmall.1),
            List.take_all_of_le (by rw [hlen]; exact hsmall.2)]
    have htclen : (d.take chunk).length = chunk := by
      rw [hdtake]
      simp only [List.length_take, List.length_drop, hbuf]
      simp only [hchunk, houtlen] at *
      omega
    have hout2 : st.out ++ d.take chunk = buf.take (BLOCK_SIZE * j + chunk) := by
      rw [hout, hdtake, List.take_add]
    by_cases hdone : (st.out ++ d.take chunk).length < n
    · have hchunkfull : chunk = BLOCK_SIZE := by
        simp only [List.length_append, houtlen, htclen] at hdone
        simp only [hchunk, houtlen] at *
        omega
      have hih := ih (j + 1)
        { offset := st.offset + chunk, out := st.out ++ d.take chunk }
        (by rw [ho, hchunkfull]; ring)
        (by rw [hout2, hchunkfull]; ring_nf)
        hdone
        (by simp only [List.length_append, houtlen, htclen]; omega)
      obtain ⟨st', hst', hcon⟩ := hih
      exact ⟨st', by rw [hstep]; exact hst', hcon⟩
    · have hfin : BLOCK_SIZE * j + chunk = n := by
        simp only [List.length_append, houtlen, htclen] at hdone
        simp only [hchunk, houtlen] at *
        omega
      refine ⟨{ offset := st.offset + chunk, out := st.out ++ d.take chunk },
        by rw [hstep]; exact read_loop_done _ _ _ _ _ hdone, ?_, ?_⟩
      · dsimp only
        rw [hout2, hfin]
        exact List.take_all_of_le (by omega)
      · dsimp only
        rw [ho]
        exact hfin

/-- C4: Writing a buffer of n bytes (0 < n, n within the 10-direct-block
capacity) through a fresh regular file's descriptor reports n bytes written and
sets the inode size to n; re-opening the inode and reading n bytes returns the
same n bytes. This is the write-then-read round trip of FileSystem::write_file
and FileSystem::read_file. -/
theorem C4_fs_round_trip (n : Nat) (buf : List Nat) (fs : FSState) (fd : Int)
    (ino : Nat)
    (hn : 0 < n) (hcap : n ≤ DIRECT_BLOCKS * BLOCK_SIZE)
    (hbuf : buf.length = n)
    (hfd : alookup fs.open_files fd = some { inode_num := ino, offset := 0 })
    (hino : alookup fs.inodes ino = some { type := FileType.REGULAR })
    (hbml : fs.data_bitmap.length = MAX_DATA_BLOCKS)
    (hcf : DIRECT_BLOCKS ≤ countFree fs.data_bitmap) :
    ∃ fs1, write_file fs fd buf n = some ((n : Int), fs1) ∧
      (∃ inode1, alookup fs1.inodes ino = some inode1 ∧ inode1.size = n) ∧
      (∀ fd2 fs2, alloc_fd fs1 ino = (fd2, fs2) →
        ∃ fs3, read_file fs2 fd2 n = some ((n : Int), buf, fs3)) := by
  have hcap' : n ≤ MAX_FILE_SIZE := by
    simpa [MAX_FILE_SIZE] using hcap
  obtain ⟨st', hloop, hwn, hon, hsn, hbun, hcont⟩ :=
    write_loop_spec buf n hbuf hcap' n 0
      { inode := { type := FileType.REGULAR }, offset := 0,
        blocks := fs.blocks, bitmap := fs.data_bitmap,
        free_blocks := fs.free_blocks }
      (by simp) (by simp) (by simpa using hn) (by simp)
      (by simp [Inode.blocks_used]) (by simp) (by simp)
      (by simpa using hbml) (by simpa using hcf)
      (by intro i hi; omega)
  have hwf : write_file fs fd buf n = some ((n : Int),
      { fs with
        inodes := ainsert fs.inodes ino st'.inode
        blocks := st'.blocks
        data_bitmap := st'.bitmap
        free_blocks := st'.free_blocks
        open_files := ainsert fs.open_files fd { inode_num := ino, offset := st'.offset } }) := by
    unfold write_file
    rw [hfd]
    simp only
    rw [hino]
    simp only
    rw [hloop]
    simp only [hwn]
  refine ⟨_, hwf, ⟨st'.inode, by simp [alookup_ainsert_self], hsn⟩, ?_⟩
  intro fd2 fs2 halloc
  simp only [alloc_fd, Prod.mk.injEq] at halloc
  obtain ⟨hfd2, hfs2⟩ := halloc
  obtain ⟨st'', hrloop, hrout, hroff⟩ :=
    read_loop_spec buf n hbuf hcap' st'.inode st'.blocks hbun
      (by rw [hbun]; exact hcont)
      n 0 { offset := 0 } (by simp) (by simp) (by simpa using hn) (by simp)
  refine ⟨{ fs2 with
      open_files :=
        ainsert fs2.open_files fd2 { inode_num := ino, offset := st''.offset } }, ?_⟩
  unfold read_file
  rw [← hfs2, ← hfd2]
  rw [hfd2]
  simp only [hfs2]
  rw [alookup_ainsert_self]
  dsimp only
  rw [alookup_ainsert_self]
  dsimp only
  rw [hsn, if_pos hn]
  simp only [Nat.sub_zero, Nat.min_self]
  rw [if_neg (by omega)]
  rw [hrloop]
  dsimp only
  rw [hrout]
  simp [hbuf, hfd2, hfs2]


def C4fs : FSState :=
  { inodes := [(1, { type := FileType.REGULAR })]
    open_files := [((3 : Int), { inode_num := 1, offset := 0 })]
    next_fd := 4 }

theorem countFree_replicate_false (k : Nat) :
    countFree (List.replicate k false) = k := by
  induction k with
  | zero => rfl
  | succ m ih => simpa [List.replicate_succ, countFree] using ih

theorem C4_fs_round_trip_witness :
    ∃ fs1, write_file C4fs 3 [1,2,3,4,5] 5 = some ((5 : Int), fs1) ∧
      (∃ inode1, alookup fs1.inodes 1 = some inode1 ∧ inode1.size = 5) ∧
      (∀ fd2 fs2, alloc_fd fs1 1 = (fd2, fs2) →
        ∃ fs3, read_file fs2 fd2 5 = some ((5 : Int), [1,2,3,4,5], fs3)) :=
  C4_fs_round_trip 5 [1,2,3,4,5] C4fs 3 1 (by decide) (by decide) rfl
    (by decide) (by decide) (by simp [C4fs])
    (by dsimp only [C4fs]; rw [countFree_replicate_false]; decide)


theorem C5_step (buf : List Nat) (n : Nat) (st : WriteSt) (fuel : Nat)
    (hov : MAX_FILE_SIZE < st.offset + (n - st.bytes_written))
    (hbw : st.bytes_written < n)
    (hofflt : st.offset < MAX_FILE_SIZE)
    (hosz : st.offset ≤ st.inode.size)
    (hszb : st.inode.size ≤ BLOCK_SIZE * st.inode.blocks_used)
    (hbu : st.inode.blocks_used ≤ DIRECT_BLOCKS)
    (hdl : st.inode.direct_blocks.length = DIRECT_BLOCKS)
    (hbml : st.bitmap.length = MAX_DATA_BLOCKS)
    (hcf : DIRECT_BLOCKS - st.inode.blocks_used ≤ countFree st.bitmap)
    (hvalid : ∀ i, i < st.inode.blocks_used →
      ∃ b, st.inode.direct_blocks.get? i = some b ∧ b < config.DISK_NUM_BLOCKS) :
    ∃ st2, write_loop buf n (fuel + 1) st = write_loop buf n fuel st2 ∧
      st2.bytes_written = st.bytes_written + (BLOCK_SIZE - st.offset % BLOCK_SIZE) ∧
      st2.offset = st.offset + (BLOCK_SIZE - st.offset % BLOCK_SIZE) ∧
      st2.offset ≤ st2.inode.size ∧
      st2.inode.size ≤ BLOCK_SIZE * st2.inode.blocks_used ∧
      st2.inode.blocks_used ≤ DIRECT_BLOCKS ∧
      st2.inode.direct_blocks.length = DIRECT_BLOCKS ∧
      st2.bitmap.length = MAX_DATA_BLOCKS ∧
      DIRECT_BLOCKS - st2.inode.blocks_used ≤ countFree st2.bitmap ∧
      (∀ i, i < st2.inode.blocks_used →
        ∃ b, st2.inode.direct_blocks.get? i = some b ∧ b < config.DISK_NUM_BLOCKS) := by
  have hq9 : st.offset / BLOCK_SIZE < DIRECT_BLOCKS := by
    simp only [MAX_FILE_SIZE, DIRECT_BLOCKS, BLOCK_SIZE, config.DISK_BLOCK_SIZE] at *
    omega
  have hqbu : st.offset / BLOCK_SIZE ≤ st.inode.blocks_used := by
    have h1 : st.offset / BLOCK_SIZE ≤ BLOCK_SIZE * st.inode.blocks_used / BLOCK_SIZE :=
      Nat.div_le_div_right (le_trans hosz hszb)
    rwa [Nat.mul_div_cancel_left _ (by simp only [BLOCK_SIZE, config.DISK_BLOCK_SIZE]; omega)] at h1
  have hchunk_eq : min (n - st.bytes_written) (BLOCK_SIZE - st.offset % BLOCK_SIZE)
      = BLOCK_SIZE - st.offset % BLOCK_SIZE := by
    simp only [MAX_FILE_SIZE, DIRECT_BLOCKS, BLOCK_SIZE, config.DISK_BLOCK_SIZE] at *
    omega
  set q := st.offset / BLOCK_SIZE with hq
  set r := st.offset % BLOCK_SIZE with hr
  set chunk := BLOCK_SIZE - r with hchunk
  have hoffq : st.offset + chunk = BLOCK_SIZE * (q + 1) := by
    simp only [hchunk, hr, hq, BLOCK_SIZE, config.DISK_BLOCK_SIZE]
    omega
  by_cases hcase : st.inode.blocks_used ≤ q
  · -- allocation case: the write lands on a fresh block
    have hbuq : st.inode.blocks_used = q := le_antisymm hcase hqbu
    obtain ⟨i0, hfc⟩ := firstClear_isSome st.bitmap (by omega)
    have hfcs := firstClear_spec st.bitmap i0 hfc
    have halloc : alloc_block st.bitmap
        = some (DATA_BLOCKS_START + i0, st.bitmap.set i0 true) := by
      simp [alloc_block, hfc]
    set bid := DATA_BLOCKS_START + i0 with hbid
    have hbidlt : bid < TOTAL_BLOCKS := by
      have : i0 < MAX_DATA_BLOCKS := hbml ▸ hfcs.1
      simp only [hbid, TOTAL_BLOCKS, MAX_DATA_BLOCKS, DATA_BLOCKS_START,
        config.SWAP_START_BLOCK, config.DISK_NUM_BLOCKS,
        config.SWAP_RESERVED_BLOCKS] at *
      omega
    have hbid_disk : ¬ config.DISK_NUM_BLOCKS ≤ bid := by
      simp only [TOTAL_BLOCKS, config.SWAP_START_BLOCK, config.DISK_NUM_BLOCKS,
        config.SWAP_RESERVED_BLOCKS] at hbidlt
      simp only [config.DISK_NUM_BLOCKS]
      omega
    have hget_bid : (st.inode.direct_blocks.set q bid).get? q = some bid := by
      rw [List.get?_eq_getElem?]
      exact List.getElem?_set_eq_of_lt bid (hdl ▸ hq9)
    have hszlt : st.inode.size < st.offset + chunk := by
      have h1 : st.inode.size ≤ BLOCK_SIZE * q := hbuq ▸ hszb
      have h2 : BLOCK_SIZE * q ≤ st.offset := by
        simp only [hq, BLOCK_SIZE, config.DISK_BLOCK_SIZE]
        omega
      have h3 : 0 < chunk := by
        simp only [hchunk, hr, BLOCK_SIZE, config.DISK_BLOCK_SIZE]
        omega
      omega
    refine ⟨{ st with
      inode := { st.inode with
                 size := st.offset + chunk
                 blocks_used := st.inode.blocks_used + 1
                 direct_blocks := st.inode.direct_blocks.set q bid }
      offset := st.offset + chunk
      bytes_written := st.bytes_written + chunk
      blocks := ainsert st.blocks bid
        (listWrite
          (if r ≠ 0 ∨ n - st.bytes_written < BLOCK_SIZE
           then read_block st.blocks bid
           else List.replicate BLOCK_SIZE 0)
          r
          ((buf.drop st.bytes_written).take chunk))
      bitmap := st.bitmap.set i0 true
      free_blocks := st.free_blocks - 1 }, ?_, rfl, rfl, ?_, ?_, ?_, ?_, ?_, ?_, ?_⟩
    · conv_lhs => rw [write_loop]
      rw [if_pos hbw]
      dsimp only
      rw [if_pos (hq ▸ hcase), if_neg (show ¬ DIRECT_BLOCKS ≤ st.offset / BLOCK_SIZE from hq ▸ (by omega)), halloc]
      dsimp only
      rw [show st.inode.direct_blocks.set (st.offset / BLOCK_SIZE) bid = st.inode.direct_blocks.set q bid from by rw [hq]]
      rw [hget_bid]
      dsimp only
      rw [if_neg hbid_disk]
      rw [show min (n - st.bytes_written) (BLOCK_SIZE - st.offset % BLOCK_SIZE) = chunk from hchunk_eq]
      rw [if_pos hszlt]
    · exact le_refl _
    · dsimp only
      rw [hoffq, hbuq]
    · dsimp only
      omega
    · dsimp only
      rw [List.length_set]
      exact hdl
    · dsimp only
      rw [List.length_set]
      exact hbml
    · dsimp only
      have h1 := countFree_set_true st.bitmap i0 hfcs.2
      omega
    · dsimp only
      intro i hi
      rcases Nat.lt_or_ge i st.inode.blocks_used with hlt | hge
      · obtain ⟨b, hgb, hblt⟩ := hvalid i hlt
        refine ⟨b, ?_, hblt⟩
        rw [List.get?_eq_getElem?] at hgb ⊢
        rw [List.getElem?_set_ne (show q ≠ i from by omega)]
        exact hgb
      · have hieq : i = q := by omega
        refine ⟨bid, ?_, by
          simp only [TOTAL_BLOCKS, config.SWAP_START_BLOCK, config.DISK_NUM_BLOCKS,
            config.SWAP_RESERVED_BLOCKS] at hbidlt ⊢
          omega⟩
        rw [hieq]
        exact hget_bid
  · -- the block is already allocated
    push_neg at hcase
    obtain ⟨bid, hgb, hblt⟩ := hvalid q hcase
    have hbid_disk : ¬ config.DISK_NUM_BLOCKS ≤ bid := by omega
    refine ⟨{ st with
      inode := if st.inode.size < st.offset + chunk
               then { st.inode with size := st.offset + chunk }
               else st.inode
      offset := st.offset + chunk
      bytes_written := st.bytes_written + chunk
      blocks := ainsert st.blocks bid
        (listWrite
          (if r ≠ 0 ∨ n - st.bytes_written < BLOCK_SIZE
           then read_block st.blocks bid
           else List.replicate BLOCK_SIZE 0)
          r
          ((buf.drop st.bytes_written).take chunk)) }, ?_, rfl, rfl, ?_, ?_, ?_, ?_, ?_, ?_, ?_⟩
    · conv_lhs => rw [write_loop]
      rw [if_pos hbw]
      dsimp only
      rw [if_neg (show ¬ st.inode.blocks_used ≤ st.offset / BLOCK_SIZE from hq ▸ (by omega))]
      dsimp only
      rw [show st.inode.direct_blocks.get? (st.offset / BLOCK_SIZE) = some bid from hq ▸ hgb]
      dsimp only
      rw [if_neg hbid_disk]
      rw [show min (n - st.bytes_written) (BLOCK_SIZE - st.offset % BLOCK_SIZE) = chunk from hchunk_eq]
    · dsimp only
      split
      · exact le_refl _
      · omega
    · dsimp only
      split
      · have h4 : BLOCK_SIZE * (q + 1) ≤ BLOCK_SIZE * st.inode.blocks_used :=
          Nat.mul_le_mul_left _ (by omega)
        simp only [BLOCK_SIZE, config.DISK_BLOCK_SIZE] at h4 hoffq ⊢
        omega
      · exact hszb
    · dsimp only
      split <;> exact hbu
    · dsimp only
      split <;> exact hdl
    · exact hbml
    · dsimp only
      split <;> exact hcf
    · dsimp only
      intro i
      split <;> intro hi <;> exact hvalid i hi

theorem C5_loop (buf : List Nat) (n : Nat) :
    ∀ fuel st,
    MAX_FILE_SIZE - st.offset < fuel →
    MAX_FILE_SIZE < st.offset + (n - st.bytes_written) →
    st.bytes_written < n →
    st.offset ≤ st.inode.size →
    st.inode.size ≤ BLOCK_SIZE * st.inode.blocks_used →
    st.inode.blocks_used ≤ DIRECT_BLOCKS →
    st.inode.direct_blocks.length = DIRECT_BLOCKS →
    st.bitmap.length = MAX_DATA_BLOCKS →
    DIRECT_BLOCKS - st.inode.blocks_used ≤ countFree st.bitmap →
    (∀ i, i < st.inode.blocks_used →
      ∃ b, st.inode.direct_blocks.get? i = some b ∧ b < config.DISK_NUM_BLOCKS) →
    ∃ st', write_loop buf n fuel st = some st' ∧
      st'.bytes_written = st.bytes_written + (MAX_FILE_SIZE - st.offset) ∧
      st'.offset = MAX_FILE_SIZE ∧
      st'.inode.size = MAX_FILE_SIZE := by
  intro fuel
  induction fuel with
  | zero =>
    intro st hfuel _ _ _ _ _ _ _ _ _
    exact absurd hfuel (by omega)
  | succ fuel ih =>
    intro st hfuel hov hbw hosz hszb hbu hdl hbml hcf hvalid
    have hoffle : st.offset ≤ MAX_FILE_SIZE := by
      have h1 := le_trans hosz hszb
      have h2 : BLOCK_SIZE * st.inode.blocks_used ≤ BLOCK_SIZE * DIRECT_BLOCKS :=
        Nat.mul_le_mul_left _ hbu
      simp only [MAX_FILE_SIZE, BLOCK_SIZE, DIRECT_BLOCKS, config.DISK_BLOCK_SIZE] at *
      omega
    by_cases hoe : st.offset = MAX_FILE_SIZE
    · -- the offset already sits at the direct-block capacity: the loop breaks
      have hsize : st.inode.size = MAX_FILE_SIZE := by
        have h2 : BLOCK_SIZE * st.inode.blocks_used ≤ BLOCK_SIZE * DIRECT_BLOCKS :=
          Nat.mul_le_mul_left _ hbu
        simp only [MAX_FILE_SIZE, BLOCK_SIZE, DIRECT_BLOCKS, config.DISK_BLOCK_SIZE] at *
        omega
      have hbu10 : st.inode.blocks_used = DIRECT_BLOCKS := by
        by_contra hlt
        have h2 : BLOCK_SIZE * st.inode.blocks_used ≤ BLOCK_SIZE * 9 :=
          Nat.mul_le_mul_left _ (by simp only [DIRECT_BLOCKS] at hbu hlt; omega)
        have h1 := le_trans hosz hszb
        simp only [MAX_FILE_SIZE, BLOCK_SIZE, DIRECT_BLOCKS, config.DISK_BLOCK_SIZE] at *
        omega
      have hbidx : MAX_FILE_SIZE / BLOCK_SIZE = DIRECT_BLOCKS := by
        simp only [MAX_FILE_SIZE, BLOCK_SIZE, DIRECT_BLOCKS, config.DISK_BLOCK_SIZE]
      refine ⟨st, ?_, by omega, hoe, hsize⟩
      conv_lhs => rw [write_loop]
      rw [if_pos hbw]
      dsimp only
      rw [hoe, hbidx]
      rw [if_pos (hbu10 ▸ le_refl DIRECT_BLOCKS), if_pos (le_refl DIRECT_BLOCKS)]
    · -- one more block gets written
      have hofflt : st.offset < MAX_FILE_SIZE := lt_of_le_of_ne hoffle hoe
      obtain ⟨st2, hstep, hbw2, hoff2, hosz2, hszb2, hbu2, hdl2, hbml2, hcf2, hvalid2⟩ :=
        C5_step buf n st fuel hov hbw hofflt hosz hszb hbu hdl hbml hcf hvalid
      have hchunk : 0 < BLOCK_SIZE - st.offset % BLOCK_SIZE ∧
          BLOCK_SIZE - st.offset % BLOCK_SIZE ≤ MAX_FILE_SIZE - st.offset := by
        simp only [MAX_FILE_SIZE, BLOCK_SIZE, DIRECT_BLOCKS, config.DISK_BLOCK_SIZE] at *
        omega
      obtain ⟨st', hloop, hbw', hoff', hsz'⟩ :=
        ih st2 (by omega) (by omega) (by omega) hosz2 hszb2 hbu2 hdl2 hbml2 hcf2 hvalid2
      refine ⟨st', by rw [hstep]; exact hloop, ?_, hoff', hsz'⟩
      omega

/-- C5: A write_file call whose byte range extends past the direct-block
capacity (offset + n > DIRECT_BLOCKS * BLOCK_SIZE bytes) stops at the
capacity: it returns the short count MAX_FILE_SIZE - offset of bytes
actually written, and the inode's size afterwards is exactly
MAX_FILE_SIZE = DIRECT_BLOCKS * BLOCK_SIZE. -/
theorem C5_write_beyond_capacity (n : Nat) (buf : List Nat) (fs : FSState)
    (fd : Int) (ino : Nat) (inode : Inode) (off : Nat)
    (hfd : alookup fs.open_files fd = some { inode_num := ino, offset := off })
    (hino : alookup fs.inodes ino = some inode)
    (hov : MAX_FILE_SIZE < off + n)
    (hosz : off ≤ inode.size)
    (hszb : inode.size ≤ BLOCK_SIZE * inode.blocks_used)
    (hbu : inode.blocks_used ≤ DIRECT_BLOCKS)
    (hdl : inode.direct_blocks.length = DIRECT_BLOCKS)
    (hbml : fs.data_bitmap.length = MAX_DATA_BLOCKS)
    (hcf : DIRECT_BLOCKS - inode.blocks_used ≤ countFree fs.data_bitmap)
    (hvalid : ∀ i, i < inode.blocks_used →
      ∃ b, inode.direct_blocks.get? i = some b ∧ b < config.DISK_NUM_BLOCKS) :
    ∃ fs1, write_file fs fd buf n = some (((MAX_FILE_SIZE - off : Nat) : Int), fs1) ∧
      ∃ inode1, alookup fs1.inodes ino = some inode1 ∧ inode1.size = MAX_FILE_SIZE := by
  have hoffle : off ≤ MAX_FILE_SIZE := by
    have h1 := le_trans hosz hszb
    have h2 : BLOCK_SIZE * inode.blocks_used ≤ BLOCK_SIZE * DIRECT_BLOCKS :=
      Nat.mul_le_mul_left _ hbu
    simp only [MAX_FILE_SIZE, BLOCK_SIZE, DIRECT_BLOCKS, config.DISK_BLOCK_SIZE] at *
    omega
  obtain ⟨st', hloop, hbw', hoff', hsz'⟩ :=
    C5_loop buf n n
      { inode := inode, offset := off, blocks := fs.blocks,
        bitmap := fs.data_bitmap, free_blocks := fs.free_blocks }
      (by dsimp only; omega) (by dsimp only; omega) (by dsimp only; omega)
      (by dsimp only; exact hosz) (by dsimp only; exact hszb)
      (by dsimp only; exact hbu) (by dsimp only; exact hdl)
      (by dsimp only; exact hbml) (by dsimp only; exact hcf)
      (by dsimp only; exact hvalid)
  dsimp only at hbw'
  refine ⟨{ fs with
      inodes := ainsert fs.inodes ino st'.inode
      blocks := st'.blocks
      data_bitmap := st'.bitmap
      free_blocks := st'.free_blocks
      open_files := ainsert fs.open_files fd { inode_num := ino, offset := st'.offset } },
    ?_, st'.inode, alookup_ainsert_self _ _ _, hsz'⟩
  unfold write_file
  rw [hfd]
  dsimp only
  rw [hino]
  dsimp only
  rw [hloop]
  dsimp only
  rw [hbw']
  simp

def C5fs : FSState :=
  { inodes := [(1, { type := FileType.REGULAR })]
    open_files := [((3 : Int), { inode_num := 1, offset := 0 })]
    next_fd := 4 }

theorem C5_write_beyond_capacity_witness :
    ∃ fs1, write_file C5fs 3 [] 40961 = some ((40960 : Int), fs1) ∧
      ∃ inode1, alookup fs1.inodes 1 = some inode1 ∧ inode1.size = MAX_FILE_SIZE :=
  C5_write_beyond_capacity 40961 [] C5fs 3 1 { type := FileType.REGULAR } 0
    (by decide) (by decide) (by decide) (by decide) (by decide) (by decide)
    (by decide) (by simp [C5fs])
    (by dsimp only [C5fs]; rw [countFree_replicate_false]; decide)
    (by intro i hi; simp at hi)


/-! ## DeviceManager (spec section 4.6) and ProcessManager
(src/proc/process_manager.cpp)

PCB, ProcessState, BlockReason and Instruction come from the process and
instruction headers.  The DeviceManager implementation file is not among
the sources; its state and operations are modelled from the spec.  The
whole kernel state visible to the ProcessManager — process table, ready
queue, memory manager, device manager, file system — is bundled in
SysState and every operation threads it explicitly. -/

inductive ProcessState where
  | New
  | Ready
  | Running
  | Blocked
  | Terminated
deriving DecidableEq

inductive BlockReason where
  | None
  | Sleep
  | Device
deriving DecidableEq

inductive OpType where
  | Compute
  | MemRead
  | MemWrite
  | FileOpen
  | FileClose
  | FileRead
  | FileWrite
  | DevRequest
  | DevRelease
  | Sleep
deriving DecidableEq

/-- struct Instruction; arg1/arg2 are uint64_t, str_arg a std::string. -/
structure Instruction where
  type : OpType
  arg1 : Nat := 0
  arg2 : Nat := 0
  str_arg : List Char := []
deriving DecidableEq

/-- struct PCB with its in-class initializers. -/
structure PCB where
  pid : Int := -1
  state : ProcessState := ProcessState.New
  time_slice : Int := config.DEFAULT_TIME_SLICE
  time_slice_left : Int := config.DEFAULT_TIME_SLICE
  cpu_time : Int := 0
  total_time : Int := 10
  blocked_time : Int := 0
  blocked_reason : BlockReason := BlockReason.None
  waiting_device : Nat := UINT32_MAX
  program : List Instruction := []
  pc : Nat := 0
  virtual_pages : Nat := 64
  fd_map : List (Int × Int) := []
  next_script_fd : Int := 3
deriving DecidableEq

/-- Modelled from the spec: per-device single holder plus FIFO waiter
queue (section 4.6). -/
structure Device where
  holder : Option Int := none
  waiters : List Int := []
deriving DecidableEq

abbrev DevState := List (Nat × Device)

/-- Modelled from the spec: DeviceManager::request — if unheld or already
held by pid the device becomes held by pid (true); else pid is appended
to the waiter queue, never duplicated (false). -/
def dev_request (dm : DevState) (pid : Int) (dev : Nat) : Bool × DevState :=
  let d := (alookup dm dev).getD {}
  match d.holder with
  | none => (true, ainsert dm dev { d with holder := some pid })
  | some h =>
    if h = pid then (true, dm)
    else if d.waiters.contains pid then (false, dm)
    else (false, ainsert dm dev { d with waiters := d.waiters ++ [pid] })

/-- Modelled from the spec: DeviceManager::release — a holder's release
hands the device to the popped head waiter (returning it); releasing a
device one does not hold only removes pid from the waiter queue. -/
def dev_release (dm : DevState) (pid : Int) (dev : Nat) : Option Int × DevState :=
  let d := (alookup dm dev).getD {}
  if d.holder = some pid then
    match d.waiters with
    | [] => (none, ainsert dm dev { holder := none, waiters := [] })
    | w :: rest => (some w, ainsert dm dev { holder := some w, waiters := rest })
  else
    (none, ainsert dm dev { d with waiters := d.waiters.filter (fun q => ! (q == pid)) })

/-- Modelled from the spec: DeviceManager::release_all — release, in
device-id order, every device pid holds or waits on, collecting the
(device, next owner) pairs. -/
def dev_release_all (dm : DevState) (pid : Int) :
    List (Nat × Option Int) × DevState :=
  let devs := (dm.filter (fun kv =>
    kv.2.holder == some pid || kv.2.waiters.contains pid)).map Prod.fst
  devs.foldl
    (fun acc dv =>
      let (nxt, dm') := dev_release acc.2 pid dv
      (acc.1 ++ [(dv, nxt)], dm'))
    ([], dm)

/-- Modelled from the spec: DeviceManager::cancel_wait — drop pid from
every waiter queue. -/
def dev_cancel_wait (dm : DevState) (pid : Int) : DevState :=
  dm.map (fun kv => (kv.1, { kv.2 with
    waiters := kv.2.waiters.filter (fun q => ! (q == pid)) }))

/-- FileSystem::close_file (fd_table_->free_fd). -/
def close_file (fs : FSState) (fd : Int) : FSState :=
  { fs with open_files := aerase fs.open_files fd }

/-- FileSystem::open_file.  The on-disk dirent walk of
DirectoryManager::lookup_path is abstracted into the dirents map from
normalized absolute path to inode number; the regular-file check and the
descriptor allocation follow the source. -/
def open_file (fs : FSState) (path : List Char) : Int × FSState :=
  let norm := DirectoryManager.normalize_path path fs.current_dir
  match alookup fs.dirents norm with
  | none => (-1, fs)
  | some ino =>
    match alookup fs.inodes ino with
    | none => (-1, fs)
    | some inode =>
      if inode.type = FileType.REGULAR then alloc_fd fs ino else (-1, fs)

/-- The process-table / ready-queue / pid-counter state of
ProcessManager, with its in-class initializers. -/
structure PMState where
  processes : List (Int × PCB) := []
  ready_queue : List Int := []
  next_pid : Int := 1
  next_tick : Nat := 0
  cur_pid : Int := -1
deriving DecidableEq

/-- The kernel state a ProcessManager operation can touch. -/
structure SysState where
  pm : PMState := {}
  mm : MMState := {}
  dev : DevState := []
  fs : FSState := {}
deriving DecidableEq

def kAutoScriptFd : Nat := 2 ^ 64 - 1
def kMaxScriptIoBytes : Nat := 2 ^ 20
def kWriteFillByte : Nat := 120
def INT32_MAX : Nat := 2 ^ 31 - 1
def INT32_MAXi : Int := 2 ^ 31 - 1

/-- The anonymous-namespace wakeup_device_waiter helper: follow the chain
of released-to pids until one is a process blocked on this device (wake
and enqueue it) or the chain ends; stale pids release the device again.
Fuel bounds the loop; each hop pops a waiter, so the initial queue length
plus one always suffices. -/
def wakeup_device_waiter (dev : Nat) :
    Nat → Option Int → DevState → List (Int × PCB) → List Int →
    DevState × List (Int × PCB) × List Int
  | _, none, dm, procs, rq => (dm, procs, rq)
  | 0, some _, dm, procs, rq => (dm, procs, rq)
  | fuel + 1, some pid, dm, procs, rq =>
    match alookup procs pid with
    | none =>
      let (nxt, dm') := dev_release dm pid dev
      wakeup_device_waiter dev fuel nxt dm' procs rq
    | some pcb =>
      if pcb.state = ProcessState.Blocked ∧
         pcb.blocked_reason = BlockReason.Device ∧
         pcb.waiting_device = dev then
        (dm,
         ainsert procs pid
           { pcb with
             state := ProcessState.Ready
             blocked_time := 0
             blocked_reason := BlockReason.None
             waiting_device := UINT32_MAX },
         rq ++ [pid])
      else
        let (nxt, dm') := dev_release dm pid dev
        wakeup_device_waiter dev fuel nxt dm' procs rq

/-- wakeup_device_waiter with enough fuel for its waiter chain. -/
def run_wakeup (dev : Nat) (next : Option Int) (dm : DevState)
    (procs : List (Int × PCB)) (rq : List Int) :
    DevState × List (Int × PCB) × List Int :=
  wakeup_device_waiter dev (((alookup dm dev).getD {}).waiters.length + 1)
    next dm procs rq

/-- ProcessManager::close_all_process_files: FS-close every mapped fd and
clear the map. -/
def close_all_process_files (fs : FSState) (pcb : PCB) : FSState × PCB :=
  (pcb.fd_map.foldl (fun f kv => close_file f kv.2) fs,
   { pcb with fd_map := [] })

/-- ProcessManager::allocate_script_fd: advance next_script_fd past used
logical fds; fuel covers the longest possible run of consecutive used
fds. -/
def alloc_script_fd : Nat → PCB → Int × PCB
  | 0, pcb =>
    if INT32_MAXi ≤ pcb.next_script_fd then (-1, pcb)
    else (pcb.next_script_fd, { pcb with next_script_fd := pcb.next_script_fd + 1 })
  | fuel + 1, pcb =>
    if pcb.next_script_fd < INT32_MAXi ∧ (alookup pcb.fd_map pcb.next_script_fd).isSome then
      alloc_script_fd fuel { pcb with next_script_fd := pcb.next_script_fd + 1 }
    else if INT32_MAXi ≤ pcb.next_script_fd then (-1, pcb)
    else (pcb.next_script_fd, { pcb with next_script_fd := pcb.next_script_fd + 1 })

/-- ProcessManager::execute_instruction.  none models an exception thrown
below it (MemoryManager / FileSystem internal errors); every handled
failure is a logged no-op as in the source. -/
def execute_instruction (s : SysState) (pcb : PCB) (inst : Instruction) :
    Option (PCB × SysState) :=
  match inst.type with
  | OpType.Compute => some (pcb, s)
  | OpType.MemRead =>
    match access_memory s.mm pcb.pid inst.arg1 AccessType.Read with
    | none => none
    | some (_, mm') => some (pcb, { s with mm := mm' })
  | OpType.MemWrite =>
    match access_memory s.mm pcb.pid inst.arg1 AccessType.Write with
    | none => none
    | some (_, mm') => some (pcb, { s with mm := mm' })
  | OpType.FileOpen =>
    if inst.arg1 ≠ kAutoScriptFd then
      if INT32_MAX < inst.arg1 then some (pcb, s)
      else
        let script_fd : Int := (inst.arg1 : Int)
        if script_fd < 3 then some (pcb, s)
        else if (alookup pcb.fd_map script_fd).isSome then some (pcb, s)
        else
          let pcb1 := if pcb.next_script_fd ≤ script_fd
                      then { pcb with next_script_fd := script_fd + 1 } else pcb
          let (fs_fd, fs') := open_file s.fs inst.str_arg
          if fs_fd < 0 then some (pcb1, { s with fs := fs' })
          else some ({ pcb1 with fd_map := ainsert pcb1.fd_map script_fd fs_fd },
                     { s with fs := fs' })
    else
      let (fs_fd, fs') := open_file s.fs inst.str_arg
      if fs_fd < 0 then some (pcb, { s with fs := fs' })
      else
        let (script_fd, pcb1) := alloc_script_fd (pcb.fd_map.length + 1) pcb
        if script_fd < 0 then some (pcb1, { s with fs := close_file fs' fs_fd })
        else some ({ pcb1 with fd_map := ainsert pcb1.fd_map script_fd fs_fd },
                   { s with fs := fs' })
  | OpType.FileClose =>
    if INT32_MAX < inst.arg1 then some (pcb, s)
    else
      match alookup pcb.fd_map (inst.arg1 : Int) with
      | none => some (pcb, s)
      | some fs_fd =>
        some ({ pcb with fd_map := aerase pcb.fd_map (inst.arg1 : Int) },
              { s with fs := close_file s.fs fs_fd })
  | OpType.FileRead =>
    if INT32_MAX < inst.arg1 then some (pcb, s)
    else
      match alookup pcb.fd_map (inst.arg1 : Int) with
      | none => some (pcb, s)
      | some fs_fd =>
        let req := min inst.arg2 kMaxScriptIoBytes
        match read_file s.fs fs_fd req with
        | none => none
        | some (_, _, fs') => some (pcb, { s with fs := fs' })
  | OpType.FileWrite =>
    if INT32_MAX < inst.arg1 then some (pcb, s)
    else
      match alookup pcb.fd_map (inst.arg1 : Int) with
      | none => some (pcb, s)
      | some fs_fd =>
        let req := min inst.arg2 kMaxScriptIoBytes
        match write_file s.fs fs_fd (List.replicate req kWriteFillByte) req with
        | none => none
        | some (_, fs') => some (pcb, { s with fs := fs' })
  | OpType.DevRequest =>
    let dev := inst.arg1 % 2 ^ 32
    let (ok, dm') := dev_request s.dev pcb.pid dev
    if ok then some (pcb, { s with dev := dm' })
    else some ({ pcb with
                 state := ProcessState.Blocked
                 blocked_time := 0
                 blocked_reason := BlockReason.Device
                 waiting_device := dev },
               { s with dev := dm' })
  | OpType.DevRelease =>
    let dev := inst.arg1 % 2 ^ 32
    let (nxt, dm') := dev_release s.dev pcb.pid dev
    let (dm2, procs2, rq2) := run_wakeup dev nxt dm' s.pm.processes s.pm.ready_queue
    some (pcb, { s with
                 dev := dm2
                 pm := { s.pm with processes := procs2, ready_queue := rq2 } })
  | OpType.Sleep =>
    some ({ pcb with
            state := ProcessState.Blocked
            blocked_time := (inst.arg1 : Int)
            blocked_reason := BlockReason.Sleep
            waiting_device := UINT32_MAX }, s)

/-- The queue-draining loop of ProcessManager::schedule: pop until a pid
that exists and is Ready; mark it Running.  Returns the chosen pid, the
updated table and the rest of the queue. -/
def schedule_go : List Int → List (Int × PCB) →
    Option Int × List (Int × PCB) × List Int
  | [], procs => (none, procs, [])
  | pid :: rest, procs =>
    match alookup procs pid with
    | none => schedule_go rest procs
    | some pcb =>
      if pcb.state = ProcessState.Ready then
        (some pid, ainsert procs pid { pcb with state := ProcessState.Running }, rest)
      else schedule_go rest procs

/-- ProcessManager::schedule. -/
def schedule (pm : PMState) : PMState :=
  match schedule_go pm.ready_queue pm.processes with
  | (none, procs, rest) => { pm with processes := procs, ready_queue := rest }
  | (some pid, procs, rest) =>
    { pm with processes := procs, ready_queue := rest, cur_pid := pid }

/-- ProcessManager::check_blocked_processes: decrement every
Sleep-blocked positive timer; a timer reaching 0 wakes the process
(Ready, reason None, enqueued). -/
def check_blocked_processes :
    List (Int × PCB) → List Int → List (Int × PCB) × List Int
  | [], rq => ([], rq)
  | (pid, pcb) :: rest, rq =>
    if pcb.state = ProcessState.Blocked ∧
       pcb.blocked_reason = BlockReason.Sleep ∧ 0 < pcb.blocked_time then
      let bt := pcb.blocked_time - 1
      if bt ≤ 0 then
        let (rest', rq') := check_blocked_processes rest (rq ++ [pid])
        ((pid, { pcb with
                 blocked_time := bt
                 state := ProcessState.Ready
                 blocked_reason := BlockReason.None }) :: rest', rq')
      else
        let (rest', rq') := check_blocked_processes rest rq
        ((pid, { pcb with blocked_time := bt }) :: rest', rq')
    else
      let (rest', rq') := check_blocked_processes rest rq
      ((pid, pcb) :: rest', rq')

/-- Steps 2 (execute, account, transition) of ProcessManager::tick, after
scheduling produced pm1.  none models the runtime_error when cur_pid is
missing from the table and exceptions from lower layers. -/
def tick_post (s2 : SysState) (cur : Int) (pcb2 : PCB) : Option SysState :=
  let pcb3 := { pcb2 with
                time_slice_left := pcb2.time_slice_left - 1
                cpu_time := pcb2.cpu_time + 1 }
  let procs3 := ainsert s2.pm.processes cur pcb3
  if pcb3.program.length ≤ pcb3.pc then
    let procs4 := ainsert procs3 cur { pcb3 with state := ProcessState.Terminated }
    let (pairs, dm1) := dev_release_all s2.dev cur
    let (dm2, procs5, rq5) := pairs.foldl
      (fun acc p => run_wakeup p.1 p.2 acc.1 acc.2.1 acc.2.2)
      (dm1, procs4, s2.pm.ready_queue)
    let fs6 := pcb3.fd_map.foldl (fun f kv => close_file f kv.2) s2.fs
    match free_process_memory s2.mm cur with
    | none => none
    | some mm7 =>
      some { s2 with
             pm := { s2.pm with
                     processes := aerase procs5 cur
                     ready_queue := rq5
                     cur_pid := -1 }
             mm := mm7
             dev := dm2
             fs := fs6 }
  else if pcb3.time_slice_left ≤ 0 then
    some { s2 with
           pm := { s2.pm with
                   processes := ainsert procs3 cur
                     { pcb3 with
                       state := ProcessState.Ready
                       time_slice_left := pcb3.time_slice }
                   ready_queue := s2.pm.ready_queue ++ [cur]
                   cur_pid := -1 } }
  else if pcb3.state = ProcessState.Blocked then
    some { s2 with pm := { s2.pm with processes := procs3, cur_pid := -1 } }
  else
    some { s2 with pm := { s2.pm with processes := procs3 } }

def tick_core (s : SysState) (pm1 : PMState) : Option SysState :=
    if pm1.cur_pid = -1 then some { s with pm := pm1 }
    else
      let cur := pm1.cur_pid
      match alookup pm1.processes cur with
      | none => none
      | some pcb =>
        let exec : Option (PCB × SysState) :=
          if pcb.pc < pcb.program.length then
            match pcb.program.get? pcb.pc with
            | none => none
            | some inst =>
              match execute_instruction { s with pm := pm1 } pcb inst with
              | none => none
              | some (pcb', s') => some ({ pcb' with pc := pcb'.pc + 1 }, s')
          else some (pcb, { s with pm := pm1 })
        match exec with
        | none => none
        | some (pcb2, s2) => tick_post s2 cur pcb2

/-- ProcessManager::tick, also returning the pid whose instruction slot
this tick was (-1 when the CPU stayed idle). -/
def tick_run (s : SysState) : Option (Int × SysState) :=
  let pm0 := { s.pm with next_tick := s.pm.next_tick + 1 }
  let pm1 := if pm0.cur_pid = -1 then schedule pm0 else pm0
  match tick_core s pm1 with
  | none => none
  | some s3 =>
    let (procs', rq') := check_blocked_processes s3.pm.processes s3.pm.ready_queue
    some (pm1.cur_pid,
          { s3 with pm := { s3.pm with processes := procs', ready_queue := rq' } })

/-- ProcessManager::tick. -/
def tick (s : SysState) : Option SysState :=
  (tick_run s).map Prod.snd

/-- tick iterated n times. -/
def tickN : Nat → SysState → Option SysState
  | 0, s => some s
  | n + 1, s =>
    match tick s with
    | none => none
    | some s' => tickN n s'

/-- tick iterated n times, collecting each tick's executing pid. -/
def runTrace : Nat → SysState → Option (List Int × SysState)
  | 0, s => some ([], s)
  | n + 1, s =>
    match tick_run s with
    | none => none
    | some (p, s') =>
      match runTrace n s' with
      | none => none
      | some (tr, s'') => some (p :: tr, s'')

/-- ProcessManager::create_process_with_program. -/
def create_process_with_program (s : SysState) (program : List Instruction) :
    Int × SysState :=
  let pid := s.pm.next_pid
  let pcb : PCB := { pid := pid
                     state := ProcessState.Ready
                     program := program
                     total_time := (program.length : Int)
                     virtual_pages := config.DEFAULT_VIRTUAL_PAGES }
  (pid,
   { s with
     pm := { s.pm with
             processes := ainsert s.pm.processes pid pcb
             ready_queue := s.pm.ready_queue ++ [pid]
             next_pid := pid + 1 }
     mm := create_process_memory s.mm pid config.DEFAULT_VIRTUAL_PAGES })

/-- ProcessManager::terminate_process.  A missing pid is a logged no-op;
none models the runtime_error thrown by free_process_memory when the pid
has no page table (and the unreachable loss of the table entry between
the initial find and the close loop). -/
def terminate_process (s : SysState) (pid : Int) : Option SysState :=
  match alookup s.pm.processes pid with
  | none => some s
  | some _ =>
    let (pairs, dm1) := dev_release_all s.dev pid
    let (dm2, procs2, rq2) := pairs.foldl
      (fun acc p => run_wakeup p.1 p.2 acc.1 acc.2.1 acc.2.2)
      (dm1, s.pm.processes, s.pm.ready_queue)
    match alookup procs2 pid with
    | none => none
    | some pcb =>
      let fs3 := pcb.fd_map.foldl (fun f kv => close_file f kv.2) s.fs
      match free_process_memory s.mm pid with
      | none => none
      | some mm4 =>
        some { s with
               pm := { s.pm with
                       processes := aerase procs2 pid
                       ready_queue := rq2
                       cur_pid := if pid = s.pm.cur_pid then -1 else s.pm.cur_pid }
               mm := mm4
               dev := dm2
               fs := fs3 }

/-! ## Program script parsing (src/proc/program.cpp)

A script is a list of lines, each a list of characters; an unopenable
file is the none input.  istringstream token extraction is whitespace
splitting; `>> std::setbase(0)` numeric extraction accepts 0x-hex,
0-octal and decimal, and (as since C++11) a failed extraction leaves 0. -/

def isSpaceChar (c : Char) : Bool :=
  c == ' ' || c == '\t' || c == '\r' || c == '\n'

def wordsAux : List Char → List Char → List (List Char)
  | [], cur => if cur = [] then [] else [cur.reverse]
  | c :: rest, cur =>
    if isSpaceChar c then
      if cur = [] then wordsAux rest []
      else cur.reverse :: wordsAux rest []
    else wordsAux rest (c :: cur)

/-- Whitespace tokenisation of one line. -/
def words (l : List Char) : List (List Char) := wordsAux l []

def digVal (base : Nat) (c : Char) : Option Nat :=
  let d := c.toNat
  if 48 ≤ d ∧ d < 48 + min base 10 then some (d - 48)
  else if base = 16 ∧ 97 ≤ d ∧ d ≤ 102 then some (d - 87)
  else if base = 16 ∧ 65 ≤ d ∧ d ≤ 70 then some (d - 55)
  else none

def parseDigits (base : Nat) : List Char → Nat → Option Nat
  | [], acc => some acc
  | c :: rest, acc =>
    match digVal base c with
    | none => none
    | some d => parseDigits base rest (acc * base + d)

/-- `>> std::setbase(0)` numeric extraction from one token. -/
def parseNum (tok : List Char) : Option Nat :=
  match tok with
  | [] => none
  | '0' :: 'x' :: rest => if rest = [] then none else parseDigits 16 rest 0
  | '0' :: 'X' :: rest => if rest = [] then none else parseDigits 16 rest 0
  | '0' :: rest => if rest = [] then some 0 else parseDigits 8 rest 0
  | _ => parseDigits 10 tok 0

/-- Numeric extraction as the loop uses it: a failed extraction leaves
the value 0. -/
def argNum (args : List (List Char)) (i : Nat) : Nat :=
  (parseNum ((args.get? i).getD [])).getD 0

/-- One iteration of the Program::parse_file line loop. -/
def parse_line (instrs : List Instruction) (line : List Char) : List Instruction :=
  if line = [] then instrs
  else if line.head? = some '#' then instrs
  else
    match words line with
    | [] => instrs
    | op :: args =>
      if op = str "C" ∨ op = str "COMPUTE" then
        instrs ++ [{ type := OpType.Compute }]
      else if op = str "R" ∨ op = str "MEMREAD" then
        instrs ++ [{ type := OpType.MemRead, arg1 := argNum args 0 }]
      else if op = str "W" ∨ op = str "MEMWRITE" then
        instrs ++ [{ type := OpType.MemWrite, arg1 := argNum args 0 }]
      else if op = str "FO" ∨ op = str "FILEOPEN" then
        match args with
        | [] => instrs
        | first :: restArgs =>
          match restArgs with
          | second :: _ =>
            match parseNum first with
            | none => instrs
            | some fd =>
              instrs ++ [{ type := OpType.FileOpen, arg1 := fd, str_arg := second }]
          | [] =>
            instrs ++ [{ type := OpType.FileOpen, arg1 := kAutoScriptFd, str_arg := first }]
      else if op = str "FC" ∨ op = str "FILECLOSE" then
        instrs ++ [{ type := OpType.FileClose, arg1 := argNum args 0 }]
      else if op = str "FR" ∨ op = str "FILEREAD" then
        instrs ++ [{ type := OpType.FileRead, arg1 := argNum args 0, arg2 := argNum args 1 }]
      else if op = str "FW" ∨ op = str "FILEWRITE" then
        instrs ++ [{ type := OpType.FileWrite, arg1 := argNum args 0, arg2 := argNum args 1 }]
      else if op = str "DR" ∨ op = str "DEVREQ" then
        instrs ++ [{ type := OpType.DevRequest, arg1 := argNum args 0 }]
      else if op = str "DD" ∨ op = str "DEVREL" then
        instrs ++ [{ type := OpType.DevRelease, arg1 := argNum args 0 }]
      else if op = str "S" ∨ op = str "SLEEP" then
        instrs ++ [{ type := OpType.Sleep, arg1 := argNum args 0 }]
      else instrs

/-- Program::parse_file over the lines of an opened script; the
unopenable-file path returns the empty instruction list. -/
def parsed_program (content : Option (List (List Char))) : List Instruction :=
  match content with
  | none => []
  | some lines => lines.foldl parse_line []

/-- Program::load_from_file: a program only exists if parsing produced at
least one instruction. -/
def load_from_file (content : Option (List (List Char))) :
    Option (List Instruction) :=
  if parsed_program content = [] then none else some (parsed_program content)

/-- ProcessManager::create_process_from_file. -/
def create_process_from_file (s : SysState) (content : Option (List (List Char))) :
    Int × SysState :=
  match load_from_file content with
  | none => (-1, s)
  | some prog => create_process_with_program s prog

/-- C9: when parsing a program script yields an empty instruction list
(unopenable file, or only blank / comment lines), Program::load_from_file
returns failure and create_process_from_file returns -1 leaving the
kernel state untouched: no PCB, no ready-queue push, no process memory.
Blank and comment lines are indeed skipped by the parser. -/
theorem C9_empty_parse_rejected (s : SysState) (content : Option (List (List Char)))
    (h : parsed_program content = []) :
    load_from_file content = none ∧
    create_process_from_file s content = (-1, s) ∧
    (∀ instrs line, line = [] ∨ line.head? = some '#' →
      parse_line instrs line = instrs) := by
  refine ⟨?_, ?_, ?_⟩
  · simp [load_from_file, h]
  · simp [create_process_from_file, load_from_file, h]
  · intro instrs line hl
    rcases hl with hl | hl
    · simp [parse_line, hl]
    · cases line with
      | nil => simp [parse_line]
      | cons c rest =>
        simp only [List.head?] at hl
        unfold parse_line
        rw [if_neg (by simp), if_pos]
        simpa using hl

def C9content : Option (List (List Char)) := some [str "# boot script", [], str "NOP 1"]

theorem C9_empty_parse_rejected_witness :
    load_from_file C9content = none ∧
    create_process_from_file {} C9content = (-1, {}) ∧
    (∀ instrs line, line = [] ∨ line.head? = some '#' →
      parse_line instrs line = instrs) :=
  C9_empty_parse_rejected {} C9content (by decide)

def C8boot1 : Int × SysState :=
  create_process_with_program {} (List.replicate 6 { type := OpType.Compute })

def C8boot2 : Int × SysState :=
  create_process_with_program C8boot1.2 (List.replicate 6 { type := OpType.Compute })

/-- C8: two compute-only processes of length 6 created in order get pids
1 and 2; with the default quantum 3, the executing pid per tick over the
first 7 ticks is 1,1,1,2,2,2,1 and over 12 ticks the full round-robin
trace 1,1,1,2,2,2,1,1,1,2,2,2; after 12 ticks the process table is
empty. -/
theorem C8_round_robin :
    C8boot1.1 = 1 ∧ C8boot2.1 = 2 ∧
    (runTrace 7 C8boot2.2).map Prod.fst = some [1, 1, 1, 2, 2, 2, 1] ∧
    (runTrace 12 C8boot2.2).map Prod.fst =
      some [1, 1, 1, 2, 2, 2, 1, 1, 1, 2, 2, 2] ∧
    (tickN 12 C8boot2.2).map (fun s => s.pm.processes) = some [] := by
  refine ⟨rfl, rfl, rfl, rfl, rfl⟩


/-- The per-entry transformation of check_blocked_processes. -/
def cbStep (pcb : PCB) : PCB :=
  if pcb.state = ProcessState.Blocked ∧ pcb.blocked_reason = BlockReason.Sleep ∧
     0 < pcb.blocked_time then
    if pcb.blocked_time - 1 ≤ 0 then
      { pcb with
        blocked_time := pcb.blocked_time - 1
        state := ProcessState.Ready
        blocked_reason := BlockReason.None }
    else { pcb with blocked_time := pcb.blocked_time - 1 }
  else pcb

/-- Does check_blocked_processes wake this entry this tick? -/
def cbWakes (pcb : PCB) : Bool :=
  pcb.state == ProcessState.Blocked && pcb.blocked_reason == BlockReason.Sleep &&
  pcb.blocked_time == 1

theorem check_blocked_alookup (p : Int) :
    ∀ procs rq, alookup (check_blocked_processes procs rq).1 p
      = (alookup procs p).map cbStep := by
  intro procs
  induction procs with
  | nil => intro rq; simp [check_blocked_processes, alookup]
  | cons hd rest ih =>
    intro rq
    obtain ⟨pid, pcb⟩ := hd
    by_cases hc : pcb.state = ProcessState.Blocked ∧
        pcb.blocked_reason = BlockReason.Sleep ∧ 0 < pcb.blocked_time
    · by_cases hw : pcb.blocked_time - 1 ≤ 0
      · simp only [check_blocked_processes, if_pos hc, if_pos hw]
        by_cases hp : pid = p
        · subst hp
          simp [alookup, cbStep, hc, hw]
        · simp [alookup, hp, ih]
      · simp only [check_blocked_processes, if_pos hc, if_neg hw]
        by_cases hp : pid = p
        · subst hp
          simp [alookup, cbStep, hc, hw]
        · simp [alookup, hp, ih]
    · simp only [check_blocked_processes, if_neg hc]
      by_cases hp : pid = p
      · subst hp
        simp [alookup, cbStep, hc]
      · simp [alookup, hp, ih]

theorem check_blocked_rq :
    ∀ procs rq, (check_blocked_processes procs rq).2
      = rq ++ (procs.filter (fun kv => cbWakes kv.2)).map Prod.fst := by
  intro procs
  induction procs with
  | nil => intro rq; simp [check_blocked_processes]
  | cons hd rest ih =>
    intro rq
    obtain ⟨pid, pcb⟩ := hd
    by_cases hc : pcb.state = ProcessState.Blocked ∧
        pcb.blocked_reason = BlockReason.Sleep ∧ 0 < pcb.blocked_time
    · by_cases hw : pcb.blocked_time - 1 ≤ 0
      · have hwk : cbWakes pcb = true := by
          simp only [cbWakes, Bool.and_eq_true, beq_iff_eq]
          refine ⟨⟨hc.1, hc.2.1⟩, ?_⟩
          omega
        simp only [check_blocked_processes, if_pos hc, if_pos hw, ih,
          List.filter_cons, hwk]
        simp
      · have hwk : cbWakes pcb = false := by
          simp only [cbWakes, Bool.and_eq_false_iff, beq_eq_false_iff_ne, ne_eq]
          right
          omega
        simp only [check_blocked_processes, if_pos hc, if_neg hw, ih,
          List.filter_cons, hwk]
        simp
    · have hwk : cbWakes pcb = false := by
        simp only [cbWakes, Bool.and_eq_false_iff, beq_eq_false_iff_ne, ne_eq]
        by_contra hcon
        push_neg at hcon
        obtain ⟨⟨h1, h2⟩, h3⟩ := hcon
        exact hc ⟨h1, h2, by omega⟩
      simp only [check_blocked_processes, if_neg hc, ih, List.filter_cons, hwk]
      simp

/-- wakeup_device_waiter never touches the table entry of a process that
is not blocked on a device, and never enqueues it. -/
theorem wakeup_preserve (dev : Nat) (p : Int) (pe : PCB)
    (hreason : pe.blocked_reason ≠ BlockReason.Device) :
    ∀ fuel next dm procs rq, alookup procs p = some pe →
      alookup (wakeup_device_waiter dev fuel next dm procs rq).2.1 p = some pe ∧
      (p ∈ (wakeup_device_waiter dev fuel next dm procs rq).2.2 ↔ p ∈ rq) := by
  intro fuel
  induction fuel with
  | zero =>
    intro next dm procs rq hl
    cases next with
    | none => exact ⟨hl, Iff.rfl⟩
    | some pid => exact ⟨hl, Iff.rfl⟩
  | succ fuel ih =>
    intro next dm procs rq hl
    cases next with
    | none => exact ⟨hl, Iff.rfl⟩
    | some pid =>
      simp only [wakeup_device_waiter]
      cases hpl : alookup procs pid with
      | none =>
        dsimp only
        exact ih _ _ _ _ hl
      | some pcb =>
        dsimp only
        by_cases hc : pcb.state = ProcessState.Blocked ∧
            pcb.blocked_reason = BlockReason.Device ∧ pcb.waiting_device = dev
        · rw [if_pos hc]
          have hne : pid ≠ p := by
            intro he
            subst he
            rw [hl] at hpl
            injection hpl with h
            subst h
            exact hreason hc.2.1
          refine ⟨?_, ?_⟩
          · rw [alookup_ainsert_ne _ _ _ _ (Ne.symm hne)]
            exact hl
          · simp only [List.mem_append, List.mem_singleton]
            constructor
            · rintro (h | h)
              · exact h
              · exact absurd h (Ne.symm hne)
            · exact Or.inl
        · rw [if_neg hc]
          exact ih _ _ _ _ hl

/-- schedule_go never picks or edits a process that is not Ready. -/
theorem schedule_go_preserve (p : Int) (pe : PCB)
    (hst : pe.state ≠ ProcessState.Ready) :
    ∀ queue procs, alookup procs p = some pe →
      alookup (schedule_go queue procs).2.1 p = some pe ∧
      (schedule_go queue procs).1 ≠ some p := by
  intro queue
  induction queue with
  | nil =>
    intro procs hl
    exact ⟨hl, by simp [schedule_go]⟩
  | cons pid rest ih =>
    intro procs hl
    simp only [schedule_go]
    cases hpl : alookup procs pid with
    | none => exact ih procs hl
    | some pcb =>
      dsimp only
      by_cases hr : pcb.state = ProcessState.Ready
      · rw [if_pos hr]
        have hne : pid ≠ p := by
          intro he
          subst he
          rw [hl] at hpl
          injection hpl with h
          subst h
          exact hst hr
        refine ⟨?_, by simpa using hne⟩
        rw [alookup_ainsert_ne _ _ _ _ (Ne.symm hne)]
        exact hl
      · rw [if_neg hr]
        exact ih procs hl

/-- schedule preserves the entry of a non-Ready process and never makes
it current. -/
theorem schedule_preserve (p : Int) (pe : PCB) (pm : PMState)
    (hst : pe.state ≠ ProcessState.Ready)
    (hl : alookup pm.processes p = some pe) :
    alookup (schedule pm).processes p = some pe ∧
    ((schedule pm).cur_pid = pm.cur_pid ∨ (schedule pm).cur_pid ≠ p) := by
  obtain ⟨h1, h2⟩ := schedule_go_preserve p pe hst pm.ready_queue pm.processes hl
  unfold schedule
  cases hgo : schedule_go pm.ready_queue pm.processes with
  | mk fst snd =>
    obtain ⟨procs, rest⟩ := snd
    cases fst with
    | none =>
      rw [hgo] at h1
      exact ⟨h1, Or.inl rfl⟩
    | some q =>
      rw [hgo] at h1 h2
      refine ⟨h1, Or.inr ?_⟩
      simp only at h2 ⊢
      intro he
      exact h2 (by rw [he])

/-- run_wakeup version of wakeup_preserve. -/
theorem run_wakeup_preserve (dev : Nat) (p : Int) (pe : PCB)
    (hreason : pe.blocked_reason ≠ BlockReason.Device)
    (next : Option Int) (dm : DevState) (procs : List (Int × PCB)) (rq : List Int)
    (hl : alookup procs p = some pe) :
    alookup (run_wakeup dev next dm procs rq).2.1 p = some pe ∧
    (p ∈ (run_wakeup dev next dm procs rq).2.2 ↔ p ∈ rq) := by
  unfold run_wakeup
  exact wakeup_preserve dev p pe hreason _ next dm procs rq hl

/-- execute_instruction can only edit the table entry and queue position
of processes blocked on a device, and leaves cur_pid and the counters of
PMState alone. -/
theorem exec_preserve (p : Int) (pe : PCB)
    (hreason : pe.blocked_reason ≠ BlockReason.Device)
    (s : SysState) (pcb : PCB) (inst : Instruction) (pcb' : PCB) (s2 : SysState)
    (hx : execute_instruction s pcb inst = some (pcb', s2))
    (hl : alookup s.pm.processes p = some pe) :
    alookup s2.pm.processes p = some pe ∧
    (p ∈ s2.pm.ready_queue ↔ p ∈ s.pm.ready_queue) ∧
    s2.pm.cur_pid = s.pm.cur_pid ∧
    s2.pm.next_tick = s.pm.next_tick ∧
    s2.pm.next_pid = s.pm.next_pid := by
  cases hty : inst.type with
  | Compute =>
    simp only [execute_instruction, hty] at hx
    injection hx with h
    obtain ⟨h1, h2⟩ := Prod.mk.inj h
    subst h2
    exact ⟨hl, Iff.rfl, rfl, rfl, rfl⟩
  | MemRead =>
    simp only [execute_instruction, hty] at hx
    split at hx
    · cases hx
    · injection hx with h
      obtain ⟨h1, h2⟩ := Prod.mk.inj h
      subst h2
      exact ⟨hl, Iff.rfl, rfl, rfl, rfl⟩
  | MemWrite =>
    simp only [execute_instruction, hty] at hx
    split at hx
    · cases hx
    · injection hx with h
      obtain ⟨h1, h2⟩ := Prod.mk.inj h
      subst h2
      exact ⟨hl, Iff.rfl, rfl, rfl, rfl⟩
  | FileOpen =>
    simp only [execute_instruction, hty] at hx
    repeat' (first | (split at hx) | (dsimp only at hx))
    all_goals
      first
      | exact ⟨hl, Iff.rfl, rfl, rfl, rfl⟩
      | exact Option.noConfusion hx
      | (injection hx with h
         obtain ⟨h1, h2⟩ := Prod.mk.inj h
         subst h2
         exact ⟨hl, Iff.rfl, rfl, rfl, rfl⟩)
      | (cases hx
         exact ⟨hl, Iff.rfl, rfl, rfl, rfl⟩)
  | FileClose =>
    simp only [execute_instruction, hty] at hx
    repeat' (first | (split at hx) | (dsimp only at hx))
    all_goals
      first
      | exact ⟨hl, Iff.rfl, rfl, rfl, rfl⟩
      | exact Option.noConfusion hx
      | (injection hx with h
         obtain ⟨h1, h2⟩ := Prod.mk.inj h
         subst h2
         exact ⟨hl, Iff.rfl, rfl, rfl, rfl⟩)
      | (cases hx
         exact ⟨hl, Iff.rfl, rfl, rfl, rfl⟩)
  | FileRead =>
    simp only [execute_instruction, hty] at hx
    repeat' (first | (split at hx) | (dsimp only at hx))
    all_goals
      first
      | exact ⟨hl, Iff.rfl, rfl, rfl, rfl⟩
      | exact Option.noConfusion hx
      | (injection hx with h
         obtain ⟨h1, h2⟩ := Prod.mk.inj h
         subst h2
         exact ⟨hl, Iff.rfl, rfl, rfl, rfl⟩)
      | (cases hx
         exact ⟨hl, Iff.rfl, rfl, rfl, rfl⟩)
  | FileWrite =>
    simp only [execute_instruction, hty] at hx
    repeat' (first | (split at hx) | (dsimp only at hx))
    all_goals
      first
      | exact ⟨hl, Iff.rfl, rfl, rfl, rfl⟩
      | exact Option.noConfusion hx
      | (injection hx with h
         obtain ⟨h1, h2⟩ := Prod.mk.inj h
         subst h2
         exact ⟨hl, Iff.rfl, rfl, rfl, rfl⟩)
      | (cases hx
         exact ⟨hl, Iff.rfl, rfl, rfl, rfl⟩)
  | DevRequest =>
    simp only [execute_instruction, hty] at hx
    repeat' (first | (split at hx) | (dsimp only at hx))
    all_goals
      first
      | exact ⟨hl, Iff.rfl, rfl, rfl, rfl⟩
      | exact Option.noConfusion hx
      | (injection hx with h
         obtain ⟨h1, h2⟩ := Prod.mk.inj h
         subst h2
         exact ⟨hl, Iff.rfl, rfl, rfl, rfl⟩)
      | (cases hx
         exact ⟨hl, Iff.rfl, rfl, rfl, rfl⟩)
  | DevRelease =>
    simp only [execute_instruction, hty] at hx
    obtain ⟨w1, w2⟩ := run_wakeup_preserve (inst.arg1 % 2 ^ 32) p pe hreason
      (dev_release s.dev pcb.pid (inst.arg1 % 2 ^ 32)).1
      (dev_release s.dev pcb.pid (inst.arg1 % 2 ^ 32)).2
      s.pm.processes s.pm.ready_queue hl
    injection hx with h
    obtain ⟨h1, h2⟩ := Prod.mk.inj h
    subst h2
    exact ⟨w1, w2, rfl, rfl, rfl⟩
  | Sleep =>
    simp only [execute_instruction, hty] at hx
    injection hx with h
    obtain ⟨h1, h2⟩ := Prod.mk.inj h
    subst h2
    exact ⟨hl, Iff.rfl, rfl, rfl, rfl⟩

/-- The release-and-wake fold of termination preserves entries of
processes not blocked on a device. -/
theorem fold_wakeup_preserve (p : Int) (pe : PCB)
    (hreason : pe.blocked_reason ≠ BlockReason.Device) :
    ∀ (pairs : List (Nat × Option Int)) dm procs rq, alookup procs p = some pe →
      alookup (pairs.foldl
        (fun acc q => run_wakeup q.1 q.2 acc.1 acc.2.1 acc.2.2)
        (dm, procs, rq)).2.1 p = some pe ∧
      (p ∈ (pairs.foldl
        (fun acc q => run_wakeup q.1 q.2 acc.1 acc.2.1 acc.2.2)
        (dm, procs, rq)).2.2 ↔ p ∈ rq) := by
  intro pairs
  induction pairs with
  | nil =>
    intro dm procs rq hl
    exact ⟨hl, Iff.rfl⟩
  | cons pr rest ih =>
    intro dm procs rq hl
    simp only [List.foldl_cons]
    obtain ⟨w1, w2⟩ := run_wakeup_preserve pr.1 p pe hreason pr.2 dm procs rq hl
    cases hrw : run_wakeup pr.1 pr.2 dm procs rq with
    | mk d2 pr2 =>
      obtain ⟨procs2, rq2⟩ := pr2
      rw [hrw] at w1 w2
      dsimp only at w1 w2 ⊢
      obtain ⟨i1, i2⟩ := ih d2 procs2 rq2 w1
      exact ⟨i1, i2.trans w2⟩

/-- tick_post preserves the entry of an uninvolved process that is not
device-blocked, and ends with the CPU idle or still on cur. -/
theorem tick_post_preserve (p : Int) (pe : PCB)
    (hreason : pe.blocked_reason ≠ BlockReason.Device)
    (s2 : SysState) (cur : Int) (pcb2 : PCB)
    (hl2 : alookup s2.pm.processes p = some pe)
    (hcur : cur ≠ p)
    (s3 : SysState) (hpost : tick_post s2 cur pcb2 = some s3) :
    alookup s3.pm.processes p = some pe ∧
    (s3.pm.cur_pid = -1 ∨ s3.pm.cur_pid = s2.pm.cur_pid) := by
  unfold tick_post at hpost
  dsimp only at hpost
  have hl3 : alookup (ainsert s2.pm.processes cur
      { pcb2 with
        time_slice_left := pcb2.time_slice_left - 1
        cpu_time := pcb2.cpu_time + 1 }) p = some pe := by
    rw [alookup_ainsert_ne _ _ _ _ (Ne.symm hcur)]
    exact hl2
  split at hpost
  · -- natural completion
    have hl4 : alookup (ainsert (ainsert s2.pm.processes cur
        { pcb2 with
          time_slice_left := pcb2.time_slice_left - 1
          cpu_time := pcb2.cpu_time + 1 }) cur
        { pcb2 with
          time_slice_left := pcb2.time_slice_left - 1
          cpu_time := pcb2.cpu_time + 1
          state := ProcessState.Terminated }) p = some pe := by
      rw [alookup_ainsert_ne _ _ _ _ (Ne.symm hcur)]
      exact hl3
    obtain ⟨f1, f2⟩ := fold_wakeup_preserve p pe hreason
      (dev_release_all s2.dev cur).1
      (dev_release_all s2.dev cur).2 _ s2.pm.ready_queue hl4
    split at hpost
    · cases hpost
    · injection hpost with h
      subst h
      dsimp only
      refine ⟨?_, Or.inl rfl⟩
      rw [alookup_aerase_ne _ _ _ (Ne.symm hcur)]
      exact f1
  · split at hpost
    · -- quantum expiry
      injection hpost with h
      subst h
      dsimp only
      refine ⟨?_, Or.inl rfl⟩
      rw [alookup_ainsert_ne _ _ _ _ (Ne.symm hcur)]
      exact hl3
    · split at hpost
      · -- blocked during execution
        injection hpost with h
        subst h
        exact ⟨hl3, Or.inl rfl⟩
      · -- keeps running
        injection hpost with h
        subst h
        exact ⟨hl3, Or.inr rfl⟩

/-- tick_core preserves the entry of a blocked (non-device) process that
is not current. -/
theorem tick_core_preserve (s : SysState) (pm1 : PMState) (p : Int) (pe : PCB)
    (hl1 : alookup pm1.processes p = some pe)
    (hreason : pe.blocked_reason ≠ BlockReason.Device)
    (hcurp : pm1.cur_pid ≠ p)
    (s3 : SysState) (hc : tick_core s pm1 = some s3) :
    alookup s3.pm.processes p = some pe ∧
    (s3.pm.cur_pid = -1 ∨ s3.pm.cur_pid = pm1.cur_pid) := by
  unfold tick_core at hc
  by_cases h0 : pm1.cur_pid = -1
  · rw [if_pos h0] at hc
    injection hc with h
    subst h
    exact ⟨hl1, Or.inr rfl⟩
  · rw [if_neg h0] at hc
    dsimp only at hc
    cases hr : alookup pm1.processes pm1.cur_pid with
    | none =>
      rw [hr] at hc
      cases hc
    | some pcbr =>
      rw [hr] at hc
      dsimp only at hc
      by_cases hpc : pcbr.pc < pcbr.program.length
      · rw [if_pos hpc] at hc
        cases hg : pcbr.program.get? pcbr.pc with
        | none =>
          rw [hg] at hc
          cases hc
        | some inst =>
          rw [hg] at hc
          dsimp only at hc
          cases hxe : execute_instruction { s with pm := pm1 } pcbr inst with
          | none =>
            rw [hxe] at hc
            cases hc
          | some pr =>
            obtain ⟨pcb', s2⟩ := pr
            rw [hxe] at hc
            dsimp only at hc
            obtain ⟨e1, e2, e3, e4, e5⟩ :=
              exec_preserve p pe hreason _ pcbr inst pcb' s2 hxe
                (by dsimp only; exact hl1)
            obtain ⟨q1, q2⟩ := tick_post_preserve p pe hreason s2 pm1.cur_pid
              { pcb' with pc := pcb'.pc + 1 } e1 hcurp s3 hc
            refine ⟨q1, ?_⟩
            rcases q2 with h | h
            · exact Or.inl h
            · rw [h, e3]
              exact Or.inr rfl
      · rw [if_neg hpc] at hc
        dsimp only at hc
        obtain ⟨q1, q2⟩ := tick_post_preserve p pe hreason { s with pm := pm1 }
          pm1.cur_pid pcbr (by dsimp only; exact hl1) hcurp s3 hc
        refine ⟨q1, ?_⟩
        rcases q2 with h | h
        · exact Or.inl h
        · rw [h]
          exact Or.inr rfl

/-- One tick keeps a sleeping process with an exhausted (or zero) timer
exactly as it is: check_blocked only acts on positive timers, the
scheduler only picks Ready processes, and device wakeups only touch
device-blocked ones. -/
theorem tick_preserve_sleep0 (s : SysState) (p : Int) (pe : PCB)
    (hl : alookup s.pm.processes p = some pe)
    (hst : pe.state = ProcessState.Blocked)
    (hrs : pe.blocked_reason = BlockReason.Sleep)
    (hbt : pe.blocked_time ≤ 0)
    (hcur : s.pm.cur_pid ≠ p)
    (hp : p ≠ -1)
    (s' : SysState) (htick : tick s = some s') :
    alookup s'.pm.processes p = some pe ∧ s'.pm.cur_pid ≠ p := by
  unfold tick at htick
  cases htr : tick_run s with
  | none =>
    rw [htr] at htick
    cases htick
  | some pr =>
    obtain ⟨q, s''⟩ := pr
    rw [htr] at htick
    injection htick with h
    subst h
    unfold tick_run at htr
    dsimp only at htr
    have hnr : pe.state ≠ ProcessState.Ready := by
      rw [hst]
      intro hcon
      cases hcon
    have hnd : pe.blocked_reason ≠ BlockReason.Device := by
      rw [hrs]
      intro hcon
      cases hcon
    -- facts about pm1
    have hpm1 : ∀ pm1 : PMState,
        (pm1 = if s.pm.cur_pid = -1
               then schedule { s.pm with next_tick := s.pm.next_tick + 1 }
               else { s.pm with next_tick := s.pm.next_tick + 1 }) →
        alookup pm1.processes p = some pe ∧ pm1.cur_pid ≠ p := by
      intro pm1 hdef
      by_cases h0 : s.pm.cur_pid = -1
      · rw [if_pos h0] at hdef
        subst hdef
        obtain ⟨w1, w2⟩ := schedule_preserve p pe
          { s.pm with next_tick := s.pm.next_tick + 1 } hnr (by dsimp only; exact hl)
        refine ⟨w1, ?_⟩
        rcases w2 with h | h
        · dsimp only at h
          rw [h, h0]
          exact fun he => hp he.symm
        · exact h
      · rw [if_neg h0] at hdef
        subst hdef
        exact ⟨hl, hcur⟩
    obtain ⟨m1, m2⟩ := hpm1 _ rfl
    cases hco : tick_core s (if s.pm.cur_pid = -1
        then schedule { s.pm with next_tick := s.pm.next_tick + 1 }
        else { s.pm with next_tick := s.pm.next_tick + 1 }) with
    | none =>
      rw [hco] at htr
      cases htr
    | some s3 =>
      rw [hco] at htr
      dsimp only at htr
      obtain ⟨c1, c2⟩ := tick_core_preserve s _ p pe m1 hnd m2 s3 hco
      injection htr with h
      obtain ⟨h1, h2⟩ := Prod.mk.inj h
      subst h2
      dsimp only
      constructor
      · rw [check_blocked_alookup, c1]
        have : cbStep pe = pe := by
          unfold cbStep
          rw [if_neg]
          intro hcon
          omega
        simp [this]
      · rcases c2 with h | h
        · rw [h]
          exact fun he => hp he.symm
        · rw [h]
          exact m2

/-- C10 (amended): a process whose table entry is Blocked with reason
Sleep and blocked_time = 0 while not current stays exactly in that state
for every number of ticks: the sleep sweep only acts on positive timers
and nothing else wakes it.  (The claim as stated is refuted by
C10_counterexample: a Sleep 0 as the final instruction terminates the
process at the end of that very tick rather than leaving it Blocked
forever.) -/
theorem C10_sleep_zero_stays_blocked (p : Int) (pe : PCB)
    (hst : pe.state = ProcessState.Blocked)
    (hrs : pe.blocked_reason = BlockReason.Sleep)
    (hbt : pe.blocked_time = 0)
    (hp : p ≠ -1) :
    ∀ n (s : SysState), alookup s.pm.processes p = some pe → s.pm.cur_pid ≠ p →
      ∀ s', tickN n s = some s' →
        alookup s'.pm.processes p = some pe ∧ s'.pm.cur_pid ≠ p ∧
        pe.state = ProcessState.Blocked := by
  intro n
  induction n with
  | zero =>
    intro s hl hcur s' ht
    injection ht with h
    subst h
    exact ⟨hl, hcur, hst⟩
  | succ n ih =>
    intro s hl hcur s' ht
    unfold tickN at ht
    cases h1 : tick s with
    | none =>
      rw [h1] at ht
      cases ht
    | some s1 =>
      rw [h1] at ht
      obtain ⟨p1, p2⟩ := tick_preserve_sleep0 s p pe hl hst hrs
        (le_of_eq hbt) hcur hp s1 h1
      exact ih s1 p1 p2 s' ht

def C10ce : SysState :=
  (create_process_with_program {} [{ type := OpType.Sleep, arg1 := 0 }]).2

/-- C10 counterexample: pid 1 runs the one-instruction program [Sleep 0].
It executes Sleep 0 (entering Blocked with blocked_time 0 mid-tick), but
because pc reached program.size the completion branch erases the PCB: one
tick later the process table is empty, so the process does not remain
Blocked forever. -/
theorem C10_counterexample :
    (alookup C10ce.pm.processes 1).map
        (fun pcb => (pcb.program.get? 0, pcb.pc, pcb.state))
      = some (some { type := OpType.Sleep, arg1 := 0 }, 0, ProcessState.Ready) ∧
    (tickN 1 C10ce).map (fun s => s.pm.processes) = some [] := by
  exact ⟨rfl, rfl⟩

def C10pe : PCB :=
  { pid := 1
    state := ProcessState.Blocked
    blocked_reason := BlockReason.Sleep
    blocked_time := 0
    program := [{ type := OpType.Sleep, arg1 := 0 }, { type := OpType.Compute }]
    pc := 1 }

def C10w : SysState := { pm := { processes := [(1, C10pe)], next_pid := 2 } }

theorem C10_sleep_zero_stays_blocked_witness :
    alookup ((tickN 3 C10w).getD {}).pm.processes 1 = some C10pe ∧
    ((tickN 3 C10w).getD {}).pm.cur_pid ≠ 1 ∧
    C10pe.state = ProcessState.Blocked :=
  C10_sleep_zero_stays_blocked 1 C10pe rfl rfl rfl (by decide) 3 C10w rfl
    (by decide) ((tickN 3 C10w).getD {}) rfl

/-- ainsert keeps the key list strictly sorted. -/
theorem pairwise_keys_ainsert {β : Type} (l : List (Int × β)) (k : Int) (v : β)
    (h : (l.map Prod.fst).Pairwise (· < ·)) :
    ((ainsert l k v).map Prod.fst).Pairwise (· < ·) := by
  induction l with
  | nil => simp [ainsert]
  | cons hd tl ih =>
    obtain ⟨k0, v0⟩ := hd
    simp only [List.map_cons, List.pairwise_cons] at h
    by_cases hlt : k < k0
    · simp only [ainsert, if_pos hlt, List.map_cons, List.pairwise_cons]
      refine ⟨?_, ?_, h.2⟩
      · intro b hb
        simp only [List.mem_cons] at hb
        rcases hb with hb | hb
        · omega
        · have := h.1 b hb
          omega
      · exact h.1
    · by_cases heq : k = k0
      · subst heq
        rw [show ainsert ((k, v0) :: tl) k v = (k, v) :: tl from by
          simp [ainsert, hlt]]
        simp only [List.map_cons, List.pairwise_cons]
        exact h
      · simp only [ainsert, if_neg hlt, if_neg heq, List.map_cons,
          List.pairwise_cons]
        refine ⟨?_, ih h.2⟩
        intro b hb
        simp only [List.mem_map] at hb
        obtain ⟨pr, hpr, hfst⟩ := hb
        rcases mem_ainsert tl k v pr hpr with hc | hc
        · subst hc
          simp only at hfst
          omega
        · exact h.1 b (hfst ▸ List.mem_map_of_mem Prod.fst hc)

/-- In a strictly key-sorted association list a present pair is the
binding alookup finds. -/
theorem alookup_of_mem_sorted {β : Type} (l : List (Int × β)) (k : Int) (v : β)
    (h : (l.map Prod.fst).Pairwise (· < ·)) (hm : (k, v) ∈ l) :
    alookup l k = some v := by
  induction l with
  | nil => simp at hm
  | cons hd tl ih =>
    obtain ⟨k0, v0⟩ := hd
    simp only [List.map_cons, List.pairwise_cons] at h
    simp only [List.mem_cons] at hm
    rcases hm with hm | hm
    · injection hm with h1 h2
      subst h1
      subst h2
      simp [alookup]
    · have hk : k0 ≠ k := by
        have := h.1 k (List.mem_map_of_mem Prod.fst hm)
        omega
      simp only [alookup, if_neg hk]
      exact ih h.2 hm

/-- A looked-up process that check_blocked does not wake is not appended
to the ready queue. -/
theorem not_mem_woken (procs : List (Int × PCB)) (p : Int) (pe : PCB)
    (hsorted : (procs.map Prod.fst).Pairwise (· < ·))
    (hl : alookup procs p = some pe) (hw : cbWakes pe = false) :
    p ∉ (procs.filter (fun kv => cbWakes kv.2)).map Prod.fst := by
  intro hm
  simp only [List.mem_map, List.mem_filter] at hm
  obtain ⟨⟨k, e⟩, ⟨hmem, hwk⟩, hfst⟩ := hm
  simp only at hfst
  subst hfst
  have := alookup_of_mem_sorted procs _ e hsorted hmem
  rw [hl] at this
  injection this with h
  subst h
  rw [hw] at hwk
  cases hwk

/-- C1 (amended): when the running process's instruction leaves it
Blocked and it has not completed, the quantum-expiry check is evaluated
BEFORE the blocked-during-execution check: if time_slice_left reached 0
on that tick the process is marked Ready, its quantum is reset and it is
pushed back onto the ready queue despite having just blocked; only with
quantum remaining does it stay Blocked (and then only if the same-tick
sleep sweep does not wake it, i.e. unless its sleep timer is exactly 1).
This corrects the claim's priority order, which C1_counterexample
refutes. -/
theorem C1_quantum_beats_block (s : SysState) (p : Int) (pcb pcb' : PCB)
    (s2 : SysState) (inst : Instruction)
    (hcur : s.pm.cur_pid = p) (hp : ¬ p = -1)
    (hl : alookup s.pm.processes p = some pcb)
    (hsorted : (s.pm.processes.map Prod.fst).Pairwise (· < ·))
    (hpc : pcb.pc < pcb.program.length)
    (hg : pcb.program.get? pcb.pc = some inst)
    (hx : execute_instruction
      { s with pm := { s.pm with next_tick := s.pm.next_tick + 1 } } pcb inst
      = some (pcb', s2))
    (hblocked : pcb'.state = ProcessState.Blocked)
    (hsp : s2.pm.processes = s.pm.processes)
    (hsr : s2.pm.ready_queue = s.pm.ready_queue)
    (hnc : pcb'.pc + 1 < pcb'.program.length) :
    ∃ s', tick s = some s' ∧
      (pcb'.time_slice_left - 1 ≤ 0 →
        alookup s'.pm.processes p = some { pcb' with
          pc := pcb'.pc + 1
          time_slice_left := pcb'.time_slice
          cpu_time := pcb'.cpu_time + 1
          state := ProcessState.Ready } ∧
        p ∈ s'.pm.ready_queue) ∧
      (0 < pcb'.time_slice_left - 1 →
        ¬(pcb'.blocked_reason = BlockReason.Sleep ∧ pcb'.blocked_time = 1) →
        (∃ pf, alookup s'.pm.processes p = some pf ∧
          pf.state = ProcessState.Blocked) ∧
        (p ∈ s'.pm.ready_queue ↔ p ∈ s.pm.ready_queue)) ∧
      (0 < pcb'.time_slice_left - 1 →
        pcb'.blocked_reason = BlockReason.Sleep → pcb'.blocked_time = 1 →
        ∃ pf, alookup s'.pm.processes p = some pf ∧
          pf.state = ProcessState.Ready ∧ p ∈ s'.pm.ready_queue) := by
  subst hcur
  unfold tick tick_run tick_core
  dsimp only
  simp only [if_neg hp]
  rw [hl]
  dsimp only
  rw [if_pos hpc, hg]
  dsimp only
  rw [hx]
  dsimp only
  unfold tick_post
  dsimp only
  rw [if_neg (show ¬ pcb'.program.length ≤ pcb'.pc + 1 from by omega)]
  by_cases hq : pcb'.time_slice_left - 1 ≤ 0
  · rw [if_pos hq]
    refine ⟨_, rfl, ?_, ?_, ?_⟩
    · intro _
      constructor
      · rw [check_blocked_alookup, alookup_ainsert_self]
        rfl
      · rw [check_blocked_rq]
        apply List.mem_append_left
        apply List.mem_append_right
        exact List.mem_singleton_self s.pm.cur_pid
    · intro h0
      exact absurd hq (by omega)
    · intro h0
      exact absurd hq (by omega)
  · rw [if_neg hq]
    rw [if_pos hblocked]
    refine ⟨_, rfl, ?_, ?_, ?_⟩
    · intro h0
      exact absurd h0 hq
    · intro h0 hnw
      constructor
      · refine ⟨cbStep { pcb' with
          pc := pcb'.pc + 1
          time_slice_left := pcb'.time_slice_left - 1
          cpu_time := pcb'.cpu_time + 1 }, ?_, ?_⟩
        · rw [check_blocked_alookup, alookup_ainsert_self]
          rfl
        · unfold cbStep
          split
          · rename_i hcon
            rw [if_neg]
            · exact hblocked
            · intro hbt1
              have h1 : (0 : Int) < pcb'.blocked_time := hcon.2.2
              have h2 : pcb'.blocked_time - 1 ≤ 0 := hbt1
              exact hnw ⟨hcon.2.1, by omega⟩
          · exact hblocked
      · rw [check_blocked_rq, hsr]
        have hwk : cbWakes { pcb' with
            pc := pcb'.pc + 1
            time_slice_left := pcb'.time_slice_left - 1
            cpu_time := pcb'.cpu_time + 1 } = false := by
          simp only [cbWakes, Bool.and_eq_false_iff, beq_eq_false_iff_ne, ne_eq]
          by_cases hv1 : pcb'.blocked_reason = BlockReason.Sleep
          · right
            intro hbt1
            exact hnw ⟨hv1, hbt1⟩
          · left
            right
            exact hv1
        have hnm := not_mem_woken _ s.pm.cur_pid _
          (pairwise_keys_ainsert _ s.pm.cur_pid _ (hsp ▸ hsorted))
          (alookup_ainsert_self (s2.pm.processes) s.pm.cur_pid _) hwk
        constructor
        · intro hm
          rcases List.mem_append.mp hm with hm | hm
          · exact hm
          · exact absurd hm hnm
        · intro hm
          exact List.mem_append_left _ hm
    · intro h0 hrsl hbt1
      refine ⟨cbStep { pcb' with
        pc := pcb'.pc + 1
        time_slice_left := pcb'.time_slice_left - 1
        cpu_time := pcb'.cpu_time + 1 }, ?_, ?_, ?_⟩
      · rw [check_blocked_alookup, alookup_ainsert_self]
        rfl
      · unfold cbStep
        have h1 : (0 : Int) < pcb'.blocked_time := by omega
        rw [if_pos (show _ ∧ _ ∧ _ from ⟨hblocked, hrsl, h1⟩),
          if_pos (show pcb'.blocked_time - 1 ≤ 0 from by omega)]
      · rw [check_blocked_rq]
        apply List.mem_append_right
        have hwk : cbWakes { pcb' with
            pc := pcb'.pc + 1
            time_slice_left := pcb'.time_slice_left - 1
            cpu_time := pcb'.cpu_time + 1 } = true := by
          simp only [cbWakes, Bool.and_eq_true, beq_iff_eq]
          exact ⟨⟨hblocked, hrsl⟩, hbt1⟩
        have hmem := alookup_mem _ _ _
          (alookup_ainsert_self (s2.pm.processes) s.pm.cur_pid ({ pcb' with
            pc := pcb'.pc + 1
            time_slice_left := pcb'.time_slice_left - 1
            cpu_time := pcb'.cpu_time + 1 }))
        simp only [List.mem_map, List.mem_filter]
        refine ⟨(s.pm.cur_pid, _), ⟨hmem, hwk⟩, rfl⟩

def C1prog : List Instruction :=
  [{ type := OpType.Compute }, { type := OpType.Compute },
   { type := OpType.Sleep, arg1 := 5 }, { type := OpType.Compute }]

def C1ce : SysState := (create_process_with_program {} C1prog).2

/-- C1 counterexample: pid 1 runs [Compute, Compute, Sleep 5, Compute].
After two ticks it is Running with pc = 2 and one slice tick left; tick 3
executes Sleep 5 (so the process blocked during execution and has not
completed), yet it ends the tick Ready with a reset quantum and sits on
the ready queue — not Blocked as the claim requires. -/
theorem C1_counterexample :
    (tickN 2 C1ce).map (fun s =>
      (s.pm.cur_pid,
       (alookup s.pm.processes 1).map (fun pcb =>
         (pcb.pc, pcb.time_slice_left, pcb.state,
          pcb.program.get? 2, pcb.program.length))))
      = some (1, some (2, 1, ProcessState.Running,
          some { type := OpType.Sleep, arg1 := 5 }, 4)) ∧
    (tickN 3 C1ce).map (fun s =>
      (s.pm.ready_queue,
       (alookup s.pm.processes 1).map (fun pcb =>
         (pcb.state, pcb.blocked_reason, pcb.blocked_time,
          pcb.time_slice_left))))
      = some ([1], some (ProcessState.Ready, BlockReason.Sleep, 5, 3)) :=
  ⟨rfl, rfl⟩

def C1w : SysState := (tickN 2 C1ce).getD {}

def C1wpcb : PCB :=
  { pid := 1
    state := ProcessState.Running
    time_slice_left := 1
    cpu_time := 2
    total_time := 4
    program := C1prog
    pc := 2
    virtual_pages := 256 }

def C1wpcb' : PCB :=
  { C1wpcb with
    state := ProcessState.Blocked
    blocked_time := 5
    blocked_reason := BlockReason.Sleep
    waiting_device := UINT32_MAX }

set_option maxRecDepth 4000 in
theorem C1_quantum_beats_block_witness :
    ∃ s', tick C1w = some s' ∧
      (C1wpcb'.time_slice_left - 1 ≤ 0 →
        alookup s'.pm.processes 1 = some { C1wpcb' with
          pc := C1wpcb'.pc + 1
          time_slice_left := C1wpcb'.time_slice
          cpu_time := C1wpcb'.cpu_time + 1
          state := ProcessState.Ready } ∧
        (1 : Int) ∈ s'.pm.ready_queue) ∧
      (0 < C1wpcb'.time_slice_left - 1 →
        ¬(C1wpcb'.blocked_reason = BlockReason.Sleep ∧ C1wpcb'.blocked_time = 1) →
        (∃ pf, alookup s'.pm.processes 1 = some pf ∧
          pf.state = ProcessState.Blocked) ∧
        ((1 : Int) ∈ s'.pm.ready_queue ↔ (1 : Int) ∈ C1w.pm.ready_queue)) ∧
      (0 < C1wpcb'.time_slice_left - 1 →
        C1wpcb'.blocked_reason = BlockReason.Sleep → C1wpcb'.blocked_time = 1 →
        ∃ pf, alookup s'.pm.processes 1 = some pf ∧
          pf.state = ProcessState.Ready ∧ (1 : Int) ∈ s'.pm.ready_queue) :=
  C1_quantum_beats_block C1w 1 C1wpcb C1wpcb'
    { C1w with pm := { C1w.pm with next_tick := C1w.pm.next_tick + 1 } }
    { type := OpType.Sleep, arg1 := 5 }
    (by decide) (by decide) (by decide) (by decide) (by decide) (by decide)
    (by decide) (by decide) (by decide) (by decide) (by decide)

theorem aerase_keys_sublist {κ β : Type} [DecidableEq κ] (l : List (κ × β)) (k : κ) :
    ((aerase l k).map Prod.fst).Sublist (l.map Prod.fst) := by
  induction l with
  | nil => simp [aerase]
  | cons hd tl ih =>
    obtain ⟨k0, v0⟩ := hd
    by_cases h : k0 = k
    · simp only [aerase, if_pos h, List.map_cons]
      exact (List.sublist_cons_self _ _)
    · simp only [aerase, if_neg h, List.map_cons]
      exact ih.cons₂ _

theorem alookup_isSome_of_mem_keys {κ β : Type} [DecidableEq κ]
    (l : List (κ × β)) (k : κ) (h : k ∈ l.map Prod.fst) :
    (alookup l k).isSome := by
  induction l with
  | nil => simp at h
  | cons hd tl ih =>
    obtain ⟨k0, v0⟩ := hd
    simp only [List.map_cons, List.mem_cons] at h
    by_cases h0 : k0 = k
    · simp [alookup, h0]
    · rcases h with h | h
      · exact absurd h.symm h0
      · simp [alookup, h0, ih h]

theorem alookup_none_aerase {κ β : Type} [DecidableEq κ] (l : List (κ × β))
    (k v : κ) (h : alookup l v = none) : alookup (aerase l k) v = none := by
  by_contra hc
  have h1 : (alookup (aerase l k) v).isSome := by
    cases hx : alookup (aerase l k) v with
    | none => exact absurd hx hc
    | some _ => simp
  have h2 : v ∈ (aerase l k).map Prod.fst := by
    by_contra hm
    rw [alookup_eq_none_of_not_mem _ _ hm] at h1
    cases h1
  have h3 : v ∈ l.map Prod.fst := (aerase_keys_sublist l k).mem h2
  have h4 := alookup_isSome_of_mem_keys l v h3
  rw [h] at h4
  cases h4

/-- An absent open-file binding stays absent through the close loop. -/
theorem fold_close_none (v : Int) :
    ∀ (fdm : List (Int × Int)) (fs : FSState),
      alookup fs.open_files v = none →
      alookup (fdm.foldl (fun f kv => close_file f kv.2) fs).open_files v = none := by
  intro fdm
  induction fdm with
  | nil => intro fs h; exact h
  | cons hd rest ih =>
    intro fs h
    simp only [List.foldl_cons]
    exact ih _ (alookup_none_aerase _ _ _ h)

/-- Closing every fd of an fd_map removes each bound global fd from the
open-file table. -/
theorem close_fold_absent :
    ∀ (fdm : List (Int × Int)) (fs : FSState),
      (fs.open_files.map Prod.fst).Nodup →
      ∀ gfd, gfd ∈ fdm.map Prod.snd →
        alookup (fdm.foldl (fun f kv => close_file f kv.2) fs).open_files gfd
          = none := by
  intro fdm
  induction fdm with
  | nil =>
    intro fs hnd gfd hm
    simp at hm
  | cons hd rest ih =>
    intro fs hnd gfd hm
    simp only [List.map_cons, List.mem_cons] at hm
    simp only [List.foldl_cons]
    have hnd1 : (((close_file fs hd.2).open_files).map Prod.fst).Nodup :=
      hnd.sublist (aerase_keys_sublist _ _)
    rcases hm with hm | hm
    · subst hm
      apply fold_close_none
      exact alookup_aerase_self _ _ hnd
    · exact ih _ hnd1 gfd hm

/-- After the free-frame loop of free_process_memory no frame keeps the
terminated owner, provided every owned frame is covered by a present
page-table entry. -/
theorem free_fold_no_owner (p : Int) :
    ∀ (pt : List PageTableEntry) (frames : List FrameInfo),
      (∀ i fi, frames.get? i = some fi → fi.allocated = true →
        fi.owner_pid = p → ∃ e, e ∈ pt ∧ e.present = true ∧ e.frame_number = i) →
      ∀ i fi,
        (pt.foldl
          (fun fs e => if e.present then free_frame fs e.frame_number else fs)
          frames).get? i = some fi →
        fi.allocated = true → fi.owner_pid ≠ p := by
  intro pt
  induction pt with
  | nil =>
    intro frames h i fi hg ha ho
    obtain ⟨e, he, _, _⟩ := h i fi hg ha ho
    simp at he
  | cons e rest ih =>
    intro frames h i fi hg ha ho
    simp only [List.foldl_cons] at hg
    by_cases hp : e.present = true
    · rw [if_pos hp] at hg
      refine ih (free_frame frames e.frame_number) ?_ i fi hg ha ho
      intro j fj hgj haj hoj
      by_cases hj : j = e.frame_number
      · subst hj
        unfold free_frame at hgj
        rcases Nat.lt_or_ge e.frame_number frames.length with hlt | hge
        · rw [List.get?_eq_getElem?, List.getElem?_set_eq_of_lt _ hlt] at hgj
          injection hgj with hfj
          subst hfj
          cases haj
        · rw [List.get?_eq_getElem?,
            List.getElem?_eq_none (by simpa [List.length_set] using hge)] at hgj
          cases hgj
      · unfold free_frame at hgj
        rw [List.get?_eq_getElem?, List.getElem?_set_ne (Ne.symm hj)] at hgj
        rw [← List.get?_eq_getElem?] at hgj
        obtain ⟨e', he', hpe', hfe'⟩ := h j fj hgj haj hoj
        rcases List.mem_cons.mp he' with he1 | he1
        · subst he1
          exact absurd hfe'.symm hj
        · exact ⟨e', he1, hpe', hfe'⟩
    · rw [if_neg hp] at hg
      refine ih frames ?_ i fi hg ha ho
      intro j fj hgj haj hoj
      obtain ⟨e', he', hpe', hfe'⟩ := h j fj hgj haj hoj
      rcases List.mem_cons.mp he' with he1 | he1
      · subst he1
        exact absurd hpe' (by simpa using hp)
      · exact ⟨e', he1, hpe', hfe'⟩

/-- pid p holds no device and waits in no queue. -/
def devCleanFor (p : Int) (dm : DevState) : Prop :=
  ∀ dev d, alookup dm dev = some d → d.holder ≠ some p ∧ p ∉ d.waiters

/-- dev_release by anyone keeps a pid that is already fully out of the
device state out of it. -/
theorem devClean_release (p q : Int) (dev : Nat) (dm : DevState)
    (h : devCleanFor p dm) : devCleanFor p (dev_release dm q dev).2 := by
  intro dev2 d2 h2
  unfold dev_release at h2
  dsimp only at h2
  have hd : ((alookup dm dev).getD {}).holder ≠ some p ∧
      p ∉ ((alookup dm dev).getD {}).waiters := by
    cases hx : alookup dm dev with
    | none => simp
    | some d0 => simpa using h dev d0 hx
  by_cases he : dev2 = dev
  · subst he
    split at h2
    · rename_i hq
      split at h2
      · rw [alookup_ainsert_self] at h2
        injection h2 with h2
        subst h2
        simp
      · rename_i w rest hw
        rw [alookup_ainsert_self] at h2
        injection h2 with h2
        subst h2
        rw [hw] at hd
        constructor
        · intro hcon
          injection hcon with hcon
          apply hd.2
          rw [← hcon]
          exact List.mem_cons_self w rest
        · intro hcon
          exact hd.2 (List.mem_cons_of_mem w hcon)
    · rw [alookup_ainsert_self] at h2
      injection h2 with h2
      subst h2
      refine ⟨hd.1, ?_⟩
      intro hcon
      exact hd.2 (List.mem_of_mem_filter hcon)
  · split at h2
    · split at h2
      all_goals {
        rw [alookup_ainsert_ne _ _ _ _ he] at h2
        exact h dev2 d2 h2 }
    · rw [alookup_ainsert_ne _ _ _ _ he] at h2
      exact h dev2 d2 h2

/-- The wakeup chain keeps p's table entry, queue membership and
cleanliness intact as long as p is not the proposed next owner and is in
no waiter queue. -/
theorem wakeup_keep (dev : Nat) (p : Int) :
    ∀ fuel next dm procs rq,
      devCleanFor p dm → next ≠ some p →
      devCleanFor p (wakeup_device_waiter dev fuel next dm procs rq).1 ∧
      alookup (wakeup_device_waiter dev fuel next dm procs rq).2.1 p
        = alookup procs p ∧
      (p ∈ (wakeup_device_waiter dev fuel next dm procs rq).2.2 ↔ p ∈ rq) ∧
      ((procs.map Prod.fst).Pairwise (· < ·) →
        ((wakeup_device_waiter dev fuel next dm procs rq).2.1.map
          Prod.fst).Pairwise (· < ·)) := by
  intro fuel
  induction fuel with
  | zero =>
    intro next dm procs rq hcl hne
    cases next with
    | none => exact ⟨hcl, rfl, Iff.rfl, fun h => h⟩
    | some pid => exact ⟨hcl, rfl, Iff.rfl, fun h => h⟩
  | succ fuel ih =>
    intro next dm procs rq hcl hne
    cases next with
    | none => exact ⟨hcl, rfl, Iff.rfl, fun h => h⟩
    | some pid =>
      have hpp : pid ≠ p := by
        intro he
        exact hne (by rw [he])
      have hrel : ∀ dv, (dev_release dm pid dv).1 ≠ some p := by
        intro dv
        unfold dev_release
        dsimp only
        have hd : p ∉ ((alookup dm dv).getD {}).waiters := by
          cases hx : alookup dm dv with
          | none => simp
          | some d0 => simpa using (hcl dv d0 hx).2
        split
        · split
          · simp
          · rename_i w rest hw
            dsimp only
            intro hcon
            injection hcon with hcon
            apply hd
            rw [hw, ← hcon]
            exact List.mem_cons_self w rest
        · simp
      simp only [wakeup_device_waiter]
      cases hpl : alookup procs pid with
      | none =>
        dsimp only
        exact ih _ _ _ _ (devClean_release p pid dev dm hcl) (hrel dev)
      | some pcb =>
        dsimp only
        by_cases hc : pcb.state = ProcessState.Blocked ∧
            pcb.blocked_reason = BlockReason.Device ∧ pcb.waiting_device = dev
        · rw [if_pos hc]
          refine ⟨hcl, ?_, ?_, ?_⟩
          · rw [alookup_ainsert_ne _ _ _ _ (Ne.symm hpp)]
          · constructor
            · intro hm
              rcases List.mem_append.mp hm with hm | hm
              · exact hm
              · rw [List.mem_singleton] at hm
                exact absurd hm.symm hpp
            · exact fun hm => List.mem_append_left _ hm
          · intro hs
            exact pairwise_keys_ainsert _ _ _ hs
        · rw [if_neg hc]
          exact ih _ _ _ _ (devClean_release p pid dev dm hcl) (hrel dev)

/-- run_wakeup version of wakeup_keep. -/
theorem run_wakeup_keep (dev : Nat) (p : Int) (next : Option Int)
    (dm : DevState) (procs : List (Int × PCB)) (rq : List Int)
    (hcl : devCleanFor p dm) (hne : next ≠ some p) :
    devCleanFor p (run_wakeup dev next dm procs rq).1 ∧
    alookup (run_wakeup dev next dm procs rq).2.1 p = alookup procs p ∧
    (p ∈ (run_wakeup dev next dm procs rq).2.2 ↔ p ∈ rq) ∧
    ((procs.map Prod.fst).Pairwise (· < ·) →
      ((run_wakeup dev next dm procs rq).2.1.map Prod.fst).Pairwise (· < ·)) := by
  unfold run_wakeup
  exact wakeup_keep dev p _ next dm procs rq hcl hne

/-- The termination wakeup fold keeps p out of everything. -/
theorem fold_wakeup_keep (p : Int) :
    ∀ (pairs : List (Nat × Option Int)) dm procs rq,
      devCleanFor p dm →
      (∀ pr, pr ∈ pairs → pr.2 ≠ some p) →
      devCleanFor p (pairs.foldl
        (fun acc q => run_wakeup q.1 q.2 acc.1 acc.2.1 acc.2.2)
        (dm, procs, rq)).1 ∧
      alookup (pairs.foldl
        (fun acc q => run_wakeup q.1 q.2 acc.1 acc.2.1 acc.2.2)
        (dm, procs, rq)).2.1 p = alookup procs p ∧
      (p ∈ (pairs.foldl
        (fun acc q => run_wakeup q.1 q.2 acc.1 acc.2.1 acc.2.2)
        (dm, procs, rq)).2.2 ↔ p ∈ rq) ∧
      ((procs.map Prod.fst).Pairwise (· < ·) →
        ((pairs.foldl
          (fun acc q => run_wakeup q.1 q.2 acc.1 acc.2.1 acc.2.2)
          (dm, procs, rq)).2.1.map Prod.fst).Pairwise (· < ·)) := by
  intro pairs
  induction pairs with
  | nil =>
    intro dm procs rq hcl hpr
    exact ⟨hcl, rfl, Iff.rfl, fun h => h⟩
  | cons pr rest ih =>
    intro dm procs rq hcl hpr
    simp only [List.foldl_cons]
    obtain ⟨w1, w2, w3, w4⟩ := run_wakeup_keep pr.1 p pr.2 dm procs rq hcl
      (hpr pr (List.mem_cons_self pr rest))
    cases hrw : run_wakeup pr.1 pr.2 dm procs rq with
    | mk d2 pr2 =>
      obtain ⟨procs2, rq2⟩ := pr2
      rw [hrw] at w1 w2 w3 w4
      dsimp only at w1 w2 w3 w4 ⊢
      obtain ⟨i1, i2, i3, i4⟩ := ih d2 procs2 rq2 w1
        (fun q hq => hpr q (List.mem_cons_of_mem pr hq))
      refine ⟨i1, ?_, i3.trans w3, fun hs => i4 (w4 hs)⟩
      rw [i2, w2]

/-- One release step of release_all: a device entry released by p ends
clean of p, entries of other devices are untouched. -/
theorem release_step_clean (p : Int) (dv : Nat) (dm : DevState)
    (hold : ∀ d, alookup dm dv = some d → d.holder = some p → p ∉ d.waiters) :
    (∀ d2, alookup (dev_release dm p dv).2 dv = some d2 →
      d2.holder ≠ some p ∧ p ∉ d2.waiters) ∧
    (∀ dev2, dev2 ≠ dv →
      alookup (dev_release dm p dv).2 dev2 = alookup dm dev2) ∧
    ((dev_release dm p dv).1 ≠ some p) := by
  unfold dev_release
  dsimp only
  refine ⟨?_, ?_, ?_⟩
  · intro d2 h2
    split at h2
    · rename_i hq
      split at h2
      · rw [alookup_ainsert_self] at h2
        injection h2 with h2
        subst h2
        simp
      · rename_i w rest hw
        rw [alookup_ainsert_self] at h2
        injection h2 with h2
        subst h2
        have hnw : p ∉ ((alookup dm dv).getD {}).waiters := by
          cases hx : alookup dm dv with
          | none => simp
          | some d0 =>
            apply hold d0 hx
            simpa [hx] using hq
        rw [hw] at hnw
        constructor
        · intro hcon
          injection hcon with hcon
          apply hnw
          rw [← hcon]
          exact List.mem_cons_self w rest
        · intro hcon
          exact hnw (List.mem_cons_of_mem w hcon)
    · rw [alookup_ainsert_self] at h2
      injection h2 with h2
      subst h2
      refine ⟨?_, ?_⟩
      · rename_i hq
        dsimp only
        intro hcon
        rw [hcon] at hq
        exact hq rfl
      · intro hcon
        have := List.mem_of_mem_filter hcon
        have hb := List.of_mem_filter hcon
        simp at hb
  · intro dev2 hne
    split
    · split
      all_goals rw [alookup_ainsert_ne _ _ _ _ hne]
    · rw [alookup_ainsert_ne _ _ _ _ hne]
  · split
    · rename_i hq
      split
      · simp
      · rename_i w rest hw
        dsimp only
        intro hcon
        injection hcon with hcon
        have hnw : p ∉ ((alookup dm dv).getD {}).waiters := by
          cases hx : alookup dm dv with
          | none => simp
          | some d0 =>
            apply hold d0 hx
            simpa [hx] using hq
        apply hnw
        rw [hw, ← hcon]
        exact List.mem_cons_self w rest
    · simp

/-- The release_all fold clears p from every device and never proposes p
as a next owner. -/
theorem release_all_fold_clean (p : Int) :
    ∀ (devs : List Nat) (acc : List (Nat × Option Int)) (dm : DevState),
      devs.Nodup →
      (∀ dev d, alookup dm dev = some d → dev ∉ devs →
        d.holder ≠ some p ∧ p ∉ d.waiters) →
      (∀ dev d, alookup dm dev = some d → dev ∈ devs → d.holder = some p →
        p ∉ d.waiters) →
      devCleanFor p (devs.foldl
        (fun acc dv =>
          (acc.1 ++ [(dv, (dev_release acc.2 p dv).1)],
           (dev_release acc.2 p dv).2)) (acc, dm)).2 ∧
      (∀ pr, pr ∈ (devs.foldl
        (fun acc dv =>
          (acc.1 ++ [(dv, (dev_release acc.2 p dv).1)],
           (dev_release acc.2 p dv).2)) (acc, dm)).1 →
        pr ∈ acc ∨ pr.2 ≠ some p) := by
  intro devs
  induction devs with
  | nil =>
    intro acc dm hnd h1 h2
    refine ⟨?_, ?_⟩
    · intro dev d hd
      exact h1 dev d hd (by simp)
    · intro pr hpr
      exact Or.inl hpr
  | cons dv rest ih =>
    intro acc dm hnd h1 h2
    simp only [List.foldl_cons]
    have hnd' := List.nodup_cons.mp hnd
    obtain ⟨r1, r2, r3⟩ := release_step_clean p dv dm
      (fun d hd hh => h2 dv d hd (List.mem_cons_self dv rest) hh)
    have hh1 : ∀ dev d, alookup (dev_release dm p dv).2 dev = some d →
        dev ∉ rest → d.holder ≠ some p ∧ p ∉ d.waiters := by
      intro dev d hd hcn
      by_cases he : dev = dv
      · subst he
        exact r1 d hd
      · rw [r2 dev he] at hd
        refine h1 dev d hd ?_
        intro hcon
        rcases List.mem_cons.mp hcon with hc | hc
        · exact he hc
        · exact hcn hc
    have hh2 : ∀ dev d, alookup (dev_release dm p dv).2 dev = some d →
        dev ∈ rest → d.holder = some p → p ∉ d.waiters := by
      intro dev d hd hm hh
      have he : dev ≠ dv := by
        intro hcon
        subst hcon
        exact hnd'.1 hm
      rw [r2 dev he] at hd
      exact h2 dev d hd (List.mem_cons_of_mem dv hm) hh
    obtain ⟨i1, i2⟩ := ih (acc ++ [(dv, (dev_release dm p dv).1)])
      (dev_release dm p dv).2 hnd'.2 hh1 hh2
    constructor
    · exact i1
    · intro pr hpr
      rcases i2 pr hpr with hm | hm
      · rcases List.mem_append.mp hm with hm1 | hm1
        · exact Or.inl hm1
        · rw [List.mem_singleton] at hm1
          subst hm1
          exact Or.inr r3
      · exact Or.inr hm

/-- DeviceManager::release_all leaves p clear of every holder slot and
waiter queue, and never proposes p as a successor. -/
theorem release_all_clean (p : Int) (dm : DevState)
    (hsorted : (dm.map Prod.fst).Pairwise (· < ·))
    (hold : ∀ dev d, alookup dm dev = some d → d.holder = some p →
      p ∉ d.waiters) :
    devCleanFor p (dev_release_all dm p).2 ∧
    (∀ pr, pr ∈ (dev_release_all dm p).1 → pr.2 ≠ some p) := by
  unfold dev_release_all
  dsimp only
  have hnd : (((dm.filter (fun kv =>
      kv.2.holder == some p || kv.2.waiters.contains p)).map Prod.fst)).Nodup := by
    have hsub := (List.filter_sublist
      (p := fun kv => kv.2.holder == some p || kv.2.waiters.contains p) dm).map
      Prod.fst
    exact ((hsorted.sublist hsub).imp ne_of_lt)
  have h1 : ∀ dev d, alookup dm dev = some d →
      dev ∉ (dm.filter (fun kv =>
        kv.2.holder == some p || kv.2.waiters.contains p)).map Prod.fst →
      d.holder ≠ some p ∧ p ∉ d.waiters := by
    intro dev d hd hcn
    have hmem := alookup_mem dm dev d hd
    constructor
    · intro hcon
      apply hcn
      refine List.mem_map_of_mem Prod.fst (List.mem_filter.mpr ⟨hmem, ?_⟩)
      simp [hcon]
    · intro hcon
      apply hcn
      refine List.mem_map_of_mem Prod.fst (List.mem_filter.mpr ⟨hmem, ?_⟩)
      have := List.elem_eq_true_of_mem hcon
      simp only [List.contains]
      rw [this]
      simp
  have h2 : ∀ dev d, alookup dm dev = some d →
      dev ∈ (dm.filter (fun kv =>
        kv.2.holder == some p || kv.2.waiters.contains p)).map Prod.fst →
      d.holder = some p → p ∉ d.waiters := by
    intro dev d hd _ hh
    exact hold dev d hd hh
  obtain ⟨c1, c2⟩ := release_all_fold_clean p _ [] dm hnd h1 h2
  refine ⟨c1, ?_⟩
  intro pr hpr
  rcases c2 pr hpr with hm | hm
  · simp at hm
  · exact hm

theorem alookup_of_mem_sorted_nat {β : Type} (l : List (Nat × β)) (k : Nat)
    (v : β) (h : (l.map Prod.fst).Pairwise (· < ·)) (hm : (k, v) ∈ l) :
    alookup l k = some v := by
  induction l with
  | nil => simp at hm
  | cons hd tl ih =>
    obtain ⟨k0, v0⟩ := hd
    simp only [List.map_cons, List.pairwise_cons] at h
    simp only [List.mem_cons] at hm
    rcases hm with hm | hm
    · injection hm with h1 h2
      subst h1
      subst h2
      simp [alookup]
    · have hk : k0 ≠ k := by
        have := h.1 k (List.mem_map_of_mem Prod.fst hm)
        omega
      simp only [alookup, if_neg hk]
      exact ih h.2 hm

/-- Is q a waiter wakeup_device_waiter would accept for dev? -/
def devWaiterValid (procs : List (Int × PCB)) (dev : Nat) (q : Int) : Bool :=
  match alookup procs q with
  | none => false
  | some pcb =>
    pcb.state == ProcessState.Blocked &&
    pcb.blocked_reason == BlockReason.Device &&
    pcb.waiting_device == dev

/-- The device entry dev_release leaves behind when pid releases it. -/
def releasedEntry (pid : Int) (d : Device) : Device :=
  if d.holder = some pid then
    match d.waiters with
    | [] => { holder := none, waiters := [] }
    | w0 :: T => { holder := some w0, waiters := T }
  else { d with waiters := d.waiters.filter (fun q => ! (q == pid)) }

/-- What dev_release returns as next owner. -/
def releasedNext (pid : Int) (d : Device) : Option Int :=
  if d.holder = some pid then d.waiters.head? else none

theorem dev_release_spec (pid : Int) (dv : Nat) (dm : DevState) (d : Device)
    (hd : alookup dm dv = some d) :
    dev_release dm pid dv
      = (releasedNext pid d, ainsert dm dv (releasedEntry pid d)) := by
  unfold dev_release releasedNext releasedEntry
  rw [hd]
  simp only [Option.getD_some]
  by_cases hh : d.holder = some pid
  · rw [if_pos hh, if_pos hh, if_pos hh]
    cases hw : d.waiters with
    | nil => simp
    | cons w0 T => simp
  · rw [if_neg hh, if_neg hh, if_neg hh]

theorem release_fold_spec (p : Int) :
    ∀ (devs : List Nat) (acc : List (Nat × Option Int)) (dm : DevState),
      devs.Nodup →
      (devs.foldl
        (fun acc dv =>
          (acc.1 ++ [(dv, (dev_release acc.2 p dv).1)],
           (dev_release acc.2 p dv).2)) (acc, dm)).1
        = acc ++ devs.map
            (fun dv => (dv, releasedNext p ((alookup dm dv).getD {}))) ∧
      (∀ dev, dev ∉ devs →
        alookup (devs.foldl
          (fun acc dv =>
            (acc.1 ++ [(dv, (dev_release acc.2 p dv).1)],
             (dev_release acc.2 p dv).2)) (acc, dm)).2 dev
          = alookup dm dev) ∧
      (∀ dev, dev ∈ devs →
        alookup (devs.foldl
          (fun acc dv =>
            (acc.1 ++ [(dv, (dev_release acc.2 p dv).1)],
             (dev_release acc.2 p dv).2)) (acc, dm)).2 dev
          = some (releasedEntry p ((alookup dm dev).getD {}))) := by
  intro devs
  induction devs with
  | nil =>
    intro acc dm hnd
    refine ⟨by simp, fun dev _ => rfl, fun dev hdev => absurd hdev (by simp)⟩
  | cons dv rest ih =>
    intro acc dm hnd
    have hnd' := List.nodup_cons.mp hnd
    simp only [List.foldl_cons]
    have hrel : dev_release dm p dv
        = (releasedNext p ((alookup dm dv).getD {}),
           ainsert dm dv (releasedEntry p ((alookup dm dv).getD {}))) := by
      cases hd : alookup dm dv with
      | none =>
        unfold dev_release releasedNext releasedEntry
        rw [hd]
        simp only [Option.getD_none]
        norm_num
      | some d => simpa [hd] using dev_release_spec p dv dm d hd
    rw [hrel]
    obtain ⟨i1, i2, i3⟩ := ih (acc ++ [(dv, releasedNext p ((alookup dm dv).getD {}))])
      (ainsert dm dv (releasedEntry p ((alookup dm dv).getD {}))) hnd'.2
    refine ⟨?_, ?_, ?_⟩
    · rw [i1]
      simp only [List.map_cons, List.append_assoc, List.singleton_append,
        List.cons_append]
      congr 1
      congr 1
      apply List.map_congr_left
      intro dv2 hdv2
      have hne : dv ≠ dv2 := by
        intro hcon
        subst hcon
        exact hnd'.1 hdv2
      rw [alookup_ainsert_ne _ _ _ _ (Ne.symm hne)]
    · intro dev hdev
      have hdev1 : dev ∉ rest := fun hc => hdev (List.mem_cons_of_mem _ hc)
      have hdev2 : dev ≠ dv := fun hc => hdev (hc ▸ List.mem_cons_self _ _)
      rw [i2 dev hdev1, alookup_ainsert_ne _ _ _ _ hdev2]
    · intro dev hdev
      rcases List.mem_cons.mp hdev with hc | hc
      · subst hc
        by_cases hr : dev ∈ rest
        · exact absurd hr hnd'.1
        · rw [i2 dev hr, alookup_ainsert_self]
      · rw [i3 dev hc, alookup_ainsert_ne _ _ _ _
          (show dev ≠ dv from fun hcon => hnd'.1 (hcon ▸ hc))]


theorem releasedEntry_waiters (p : Int) (d : Device) (q : Int)
    (h : q ∈ (releasedEntry p d).waiters) : q ∈ d.waiters := by
  unfold releasedEntry at h
  split at h
  · split at h
    · simp at h
    · rename_i w0 T hw
      rw [hw]
      exact List.mem_cons_of_mem _ h
  · exact List.mem_of_mem_filter h

theorem releasedNext_mem (p : Int) (d : Device) (q : Int)
    (h : releasedNext p d = some q) : q ∈ d.waiters := by
  unfold releasedNext at h
  split at h
  · exact List.mem_of_mem_head? h
  · exact Option.noConfusion h

theorem find_congr {α : Type} (f g : α → Bool) :
    ∀ (l : List α), (∀ a, a ∈ l → f a = g a) → l.find? f = l.find? g := by
  intro l
  induction l with
  | nil => intro _; rfl
  | cons a tl ih =>
    intro h
    have ha := h a (List.mem_cons_self a tl)
    cases hf : f a with
    | true =>
      rw [List.find?_cons_of_pos _ hf, List.find?_cons_of_pos _ (ha ▸ hf)]
    | false =>
      rw [List.find?_cons_of_neg, List.find?_cons_of_neg]
      · exact ih (fun b hb => h b (List.mem_cons_of_mem a hb))
      · rw [← ha, hf]
        exact Bool.false_ne_true
      · rw [hf]
        exact Bool.false_ne_true

/-- A release at dv leaves every other device entry untouched. -/
theorem dev_release_other (pid : Int) (dv : Nat) (dm : DevState) (dev2 : Nat)
    (hne : dev2 ≠ dv) :
    alookup (dev_release dm pid dv).2 dev2 = alookup dm dev2 := by
  unfold dev_release
  dsimp only
  split
  · split
    all_goals rw [alookup_ainsert_ne _ _ _ _ hne]
  · rw [alookup_ainsert_ne _ _ _ _ hne]

/-- A release at dev by anyone neither proposes q nor adds q to dev's
queue, as long as q was not in dev's queue. -/
theorem dev_release_keep (q pid : Int) (dev : Nat) (dm : DevState)
    (hq : ∀ d, alookup dm dev = some d → q ∉ d.waiters) :
    (dev_release dm pid dev).1 ≠ some q ∧
    (∀ d, alookup (dev_release dm pid dev).2 dev = some d →
      q ∉ d.waiters) := by
  have hq' : q ∉ ((alookup dm dev).getD {}).waiters := by
    cases hx : alookup dm dev with
    | none => simp
    | some d0 => simpa using hq d0 hx
  unfold dev_release
  dsimp only
  split
  · rename_i hh
    cases hw : ((alookup dm dev).getD {}).waiters with
    | nil =>
      refine ⟨by simp, ?_⟩
      intro d hd
      rw [alookup_ainsert_self] at hd
      injection hd with hd
      subst hd
      simp
    | cons w0 T =>
      rw [hw] at hq'
      refine ⟨?_, ?_⟩
      · dsimp only
        intro hcon
        injection hcon with hcon
        exact hq' (hcon ▸ List.mem_cons_self w0 T)
      · intro d hd
        rw [alookup_ainsert_self] at hd
        injection hd with hd
        subst hd
        exact fun hcon => hq' (List.mem_cons_of_mem w0 hcon)
  · refine ⟨by simp, ?_⟩
    intro d hd
    rw [alookup_ainsert_self] at hd
    injection hd with hd
    subst hd
    exact fun hcon => hq' (List.mem_of_mem_filter hcon)

/-- The wakeup chain of dev leaves every other device entry untouched. -/
theorem wakeup_dev_other (dev : Nat) :
    ∀ (fuel : Nat) (next : Option Int) (dm : DevState)
      (procs : List (Int × PCB)) (rq : List Int) (dev2 : Nat), dev2 ≠ dev →
      alookup (wakeup_device_waiter dev fuel next dm procs rq).1 dev2
        = alookup dm dev2 := by
  intro fuel
  induction fuel with
  | zero =>
    intro next dm procs rq dev2 hne
    cases next with
    | none => rfl
    | some pid => rfl
  | succ fuel ih =>
    intro next dm procs rq dev2 hne
    cases next with
    | none => rfl
    | some pid =>
      simp only [wakeup_device_waiter]
      cases hpl : alookup procs pid with
      | none =>
        dsimp only
        rw [ih _ _ _ _ dev2 hne, dev_release_other pid dev dm dev2 hne]
      | some pcb =>
        dsimp only
        by_cases hc : pcb.state = ProcessState.Blocked ∧
            pcb.blocked_reason = BlockReason.Device ∧ pcb.waiting_device = dev
        · rw [if_pos hc]
        · rw [if_neg hc]
          rw [ih _ _ _ _ dev2 hne, dev_release_other pid dev dm dev2 hne]

/-- The wakeup chain of dev never touches the table entry of a pid that
is neither proposed nor in dev's queue, and only appends to the ready
queue. -/
theorem wakeup_pid_keep (dev : Nat) (q : Int) :
    ∀ (fuel : Nat) (next : Option Int) (dm : DevState)
      (procs : List (Int × PCB)) (rq : List Int),
      next ≠ some q →
      (∀ d, alookup dm dev = some d → q ∉ d.waiters) →
      alookup (wakeup_device_waiter dev fuel next dm procs rq).2.1 q
        = alookup procs q ∧
      (q ∈ rq → q ∈ (wakeup_device_waiter dev fuel next dm procs rq).2.2) := by
  intro fuel
  induction fuel with
  | zero =>
    intro next dm procs rq hne hq
    cases next with
    | none => exact ⟨rfl, fun h => h⟩
    | some pid => exact ⟨rfl, fun h => h⟩
  | succ fuel ih =>
    intro next dm procs rq hne hq
    cases next with
    | none => exact ⟨rfl, fun h => h⟩
    | some pid =>
      have hpq : pid ≠ q := fun he => hne (by rw [he])
      obtain ⟨k1, k2⟩ := dev_release_keep q pid dev dm hq
      simp only [wakeup_device_waiter]
      cases hpl : alookup procs pid with
      | none =>
        dsimp only
        exact ih _ _ _ _ k1 k2
      | some pcb =>
        dsimp only
        by_cases hc : pcb.state = ProcessState.Blocked ∧
            pcb.blocked_reason = BlockReason.Device ∧ pcb.waiting_device = dev
        · rw [if_pos hc]
          refine ⟨?_, ?_⟩
          · exact alookup_ainsert_ne _ _ _ _ (Ne.symm hpq)
          · exact fun h => List.mem_append_left _ h
        · rw [if_neg hc]
          exact ih _ _ _ _ k1 k2


theorem run_wakeup_dev_other (dev : Nat) (next : Option Int) (dm : DevState)
    (procs : List (Int × PCB)) (rq : List Int) (dev2 : Nat) (hne : dev2 ≠ dev) :
    alookup (run_wakeup dev next dm procs rq).1 dev2 = alookup dm dev2 := by
  unfold run_wakeup
  exact wakeup_dev_other dev _ next dm procs rq dev2 hne

theorem run_wakeup_pid_keep (dev : Nat) (q : Int) (next : Option Int)
    (dm : DevState) (procs : List (Int × PCB)) (rq : List Int)
    (hne : next ≠ some q)
    (hq : ∀ d, alookup dm dev = some d → q ∉ d.waiters) :
    alookup (run_wakeup dev next dm procs rq).2.1 q = alookup procs q ∧
    (q ∈ rq → q ∈ (run_wakeup dev next dm procs rq).2.2) := by
  unfold run_wakeup
  exact wakeup_pid_keep dev q _ next dm procs rq hne hq

/-- A fold of wakeup chains over devices other than devT leaves devT's
entry untouched. -/
theorem fold_dev_other (devT : Nat) :
    ∀ (prs : List (Nat × Option Int)) (dm : DevState)
      (procs : List (Int × PCB)) (rq : List Int),
      (∀ pr, pr ∈ prs → pr.1 ≠ devT) →
      alookup (prs.foldl
        (fun acc q => run_wakeup q.1 q.2 acc.1 acc.2.1 acc.2.2)
        (dm, procs, rq)).1 devT = alookup dm devT := by
  intro prs
  induction prs with
  | nil => intro dm procs rq _; rfl
  | cons pr rest ih =>
    intro dm procs rq hpr
    simp only [List.foldl_cons]
    cases hrw : run_wakeup pr.1 pr.2 dm procs rq with
    | mk d2 pr2 =>
      obtain ⟨procs2, rq2⟩ := pr2
      rw [ih d2 procs2 rq2 (fun q hq => hpr q (List.mem_cons_of_mem pr hq))]
      have := run_wakeup_dev_other pr.1 pr.2 dm procs rq devT
        (Ne.symm (hpr pr (List.mem_cons_self pr rest)))
      rw [hrw] at this
      exact this

/-- A fold of wakeup chains over distinct devices, none of which proposes
q or has q queued, leaves q's table entry alone and only appends to the
ready queue. -/
theorem fold_pid_keep (q : Int) :
    ∀ (prs : List (Nat × Option Int)) (dm : DevState)
      (procs : List (Int × PCB)) (rq : List Int),
      (prs.map Prod.fst).Nodup →
      (∀ pr, pr ∈ prs → pr.2 ≠ some q) →
      (∀ pr, pr ∈ prs → ∀ d, alookup dm pr.1 = some d → q ∉ d.waiters) →
      alookup (prs.foldl
        (fun acc pr => run_wakeup pr.1 pr.2 acc.1 acc.2.1 acc.2.2)
        (dm, procs, rq)).2.1 q = alookup procs q ∧
      (q ∈ rq → q ∈ (prs.foldl
        (fun acc pr => run_wakeup pr.1 pr.2 acc.1 acc.2.1 acc.2.2)
        (dm, procs, rq)).2.2) := by
  intro prs
  induction prs with
  | nil => intro dm procs rq _ _ _; exact ⟨rfl, fun h => h⟩
  | cons pr rest ih =>
    intro dm procs rq hnd hnx hqw
    simp only [List.map_cons, List.nodup_cons] at hnd
    simp only [List.foldl_cons]
    obtain ⟨k1, k2⟩ := run_wakeup_pid_keep pr.1 q pr.2 dm procs rq
      (hnx pr (List.mem_cons_self pr rest))
      (hqw pr (List.mem_cons_self pr rest))
    cases hrw : run_wakeup pr.1 pr.2 dm procs rq with
    | mk d2 pr2 =>
      obtain ⟨procs2, rq2⟩ := pr2
      rw [hrw] at k1 k2
      dsimp only at k1 k2 ⊢
      have hqw2 : ∀ pr2, pr2 ∈ rest → ∀ d, alookup d2 pr2.1 = some d →
          q ∉ d.waiters := by
        intro pr2 hm d hd
        have hne : pr2.1 ≠ pr.1 := by
          intro hcon
          exact hnd.1 (hcon ▸ List.mem_map_of_mem Prod.fst hm)
        have hother := run_wakeup_dev_other pr.1 pr.2 dm procs rq pr2.1 hne
        rw [hrw] at hother
        rw [hother] at hd
        exact hqw pr2 (List.mem_cons_of_mem pr hm) d hd
      obtain ⟨i1, i2⟩ := ih d2 procs2 rq2 hnd.2
        (fun pr2 hm => hnx pr2 (List.mem_cons_of_mem pr hm)) hqw2
      exact ⟨i1.trans k1, fun h => i2 (k2 h)⟩


theorem devWaiterValid_true (procs : List (Int × PCB)) (dev : Nat) (q : Int)
    (pcb : PCB) (hpl : alookup procs q = some pcb)
    (hc : pcb.state = ProcessState.Blocked ∧
      pcb.blocked_reason = BlockReason.Device ∧ pcb.waiting_device = dev) :
    devWaiterValid procs dev q = true := by
  unfold devWaiterValid
  rw [hpl]
  simp [hc.1, hc.2.1, hc.2.2]

theorem devWaiterValid_false_none (procs : List (Int × PCB)) (dev : Nat)
    (q : Int) (hpl : alookup procs q = none) :
    devWaiterValid procs dev q = false := by
  unfold devWaiterValid
  rw [hpl]

theorem devWaiterValid_false_cond (procs : List (Int × PCB)) (dev : Nat)
    (q : Int) (pcb : PCB) (hpl : alookup procs q = some pcb)
    (hc : ¬ (pcb.state = ProcessState.Blocked ∧
      pcb.blocked_reason = BlockReason.Device ∧ pcb.waiting_device = dev)) :
    devWaiterValid procs dev q = false := by
  unfold devWaiterValid
  rw [hpl]
  dsimp only
  cases hb : (pcb.state == ProcessState.Blocked &&
      pcb.blocked_reason == BlockReason.Device &&
      pcb.waiting_device == dev) with
  | false => rfl
  | true =>
    exact absurd (by simpa [and_assoc] using hb) hc

/-- The wakeup chain on a device whose entry proposes w0 with queue T:
it wakes and enqueues exactly the first waiter of w0 :: T that is a
process blocked on this device, making it the holder; if there is none,
the table and ready queue are untouched. -/
theorem wakeup_chain (dev : Nat) (procs : List (Int × PCB)) :
    ∀ (T : List Int) (w0 : Int) (fuel : Nat) (dm : DevState) (rq : List Int),
      alookup dm dev = some { holder := some w0, waiters := T } →
      T.length + 1 ≤ fuel →
      (∀ w, (w0 :: T).find? (devWaiterValid procs dev) = some w →
        (∃ rest, alookup
            (wakeup_device_waiter dev fuel (some w0) dm procs rq).1 dev
          = some { holder := some w, waiters := rest }) ∧
        (∃ wpcb, alookup procs w = some wpcb ∧
          (wakeup_device_waiter dev fuel (some w0) dm procs rq).2.1
            = ainsert procs w { wpcb with
                state := ProcessState.Ready
                blocked_time := 0
                blocked_reason := BlockReason.None
                waiting_device := UINT32_MAX }) ∧
        (wakeup_device_waiter dev fuel (some w0) dm procs rq).2.2
          = rq ++ [w]) ∧
      ((w0 :: T).find? (devWaiterValid procs dev) = none →
        (wakeup_device_waiter dev fuel (some w0) dm procs rq).2.1 = procs ∧
        (wakeup_device_waiter dev fuel (some w0) dm procs rq).2.2 = rq) := by
  intro T
  induction T with
  | nil =>
    intro w0 fuel dm rq hdm hfuel
    cases fuel with
    | zero => omega
    | succ f =>
      simp only [wakeup_device_waiter]
      have hrel : dev_release dm w0 dev
          = (none, ainsert dm dev { holder := none, waiters := [] }) := by
        unfold dev_release
        rw [hdm]
        simp
      cases hpl : alookup procs w0 with
      | none =>
        dsimp only
        rw [hrel]
        have hval := devWaiterValid_false_none procs dev w0 hpl
        rw [List.find?_cons_of_neg _ (by rw [hval]; exact Bool.false_ne_true)]
        refine ⟨?_, ?_⟩
        · intro w hw
          exact Option.noConfusion hw
        · intro _
          cases f with
          | zero => exact ⟨rfl, rfl⟩
          | succ f' => exact ⟨rfl, rfl⟩
      | some pcb =>
        dsimp only
        by_cases hc : pcb.state = ProcessState.Blocked ∧
            pcb.blocked_reason = BlockReason.Device ∧ pcb.waiting_device = dev
        · rw [if_pos hc]
          have hval := devWaiterValid_true procs dev w0 pcb hpl hc
          rw [List.find?_cons_of_pos _ hval]
          refine ⟨?_, ?_⟩
          · intro w hw
            injection hw with hw
            subst hw
            exact ⟨⟨[], by rw [hdm]⟩, ⟨pcb, hpl, rfl⟩, rfl⟩
          · intro hcon
            exact Option.noConfusion hcon
        · rw [if_neg hc]
          rw [hrel]
          have hval := devWaiterValid_false_cond procs dev w0 pcb hpl hc
          rw [List.find?_cons_of_neg _ (by rw [hval]; exact Bool.false_ne_true)]
          refine ⟨?_, ?_⟩
          · intro w hw
            exact Option.noConfusion hw
          · intro _
            cases f with
            | zero => exact ⟨rfl, rfl⟩
            | succ f' => exact ⟨rfl, rfl⟩
  | cons w1 T' ih =>
    intro w0 fuel dm rq hdm hfuel
    cases fuel with
    | zero => omega
    | succ f =>
      simp only [wakeup_device_waiter]
      have hrel : dev_release dm w0 dev
          = (some w1,
             ainsert dm dev { holder := some w1, waiters := T' }) := by
        unfold dev_release
        rw [hdm]
        simp
      have hih := ih w1 f (ainsert dm dev { holder := some w1, waiters := T' })
        rq (alookup_ainsert_self _ _ _) (by simp at hfuel; omega)
      cases hpl : alookup procs w0 with
      | none =>
        dsimp only
        rw [hrel]
        have hval := devWaiterValid_false_none procs dev w0 hpl
        rw [List.find?_cons_of_neg _ (by rw [hval]; exact Bool.false_ne_true)]
        exact hih
      | some pcb =>
        dsimp only
        by_cases hc : pcb.state = ProcessState.Blocked ∧
            pcb.blocked_reason = BlockReason.Device ∧ pcb.waiting_device = dev
        · rw [if_pos hc]
          have hval := devWaiterValid_true procs dev w0 pcb hpl hc
          rw [List.find?_cons_of_pos _ hval]
          refine ⟨?_, ?_⟩
          · intro w hw
            injection hw with hw
            subst hw
            exact ⟨⟨w1 :: T', by rw [hdm]⟩, ⟨pcb, hpl, rfl⟩, rfl⟩
          · intro hcon
            exact Option.noConfusion hcon
        · rw [if_neg hc]
          rw [hrel]
          have hval := devWaiterValid_false_cond procs dev w0 pcb hpl hc
          rw [List.find?_cons_of_neg _ (by rw [hval]; exact Bool.false_ne_true)]
          exact hih

/-- run_wakeup form of wakeup_chain, in the found case. -/
theorem run_wakeup_found (dev : Nat) (procs : List (Int × PCB))
    (dm : DevState) (rq : List Int) (w0 : Int) (T : List Int) (w : Int)
    (hdm : alookup dm dev = some { holder := some w0, waiters := T })
    (hfind : (w0 :: T).find? (devWaiterValid procs dev) = some w) :
    (∃ rest, alookup (run_wakeup dev (some w0) dm procs rq).1 dev
      = some { holder := some w, waiters := rest }) ∧
    (∃ wpcb, alookup procs w = some wpcb ∧
      (run_wakeup dev (some w0) dm procs rq).2.1
        = ainsert procs w { wpcb with
            state := ProcessState.Ready
            blocked_time := 0
            blocked_reason := BlockReason.None
            waiting_device := UINT32_MAX }) ∧
    (run_wakeup dev (some w0) dm procs rq).2.2 = rq ++ [w] := by
  unfold run_wakeup
  rw [hdm]
  exact (wakeup_chain dev procs T w0
    ((({ holder := some w0, waiters := T } : Device)).waiters.length + 1)
    dm rq hdm (by simp)).1 w hfind


/-- The (device, proposed next owner) pair release_all emits for dv. -/
def relPair (p : Int) (dm : DevState) (dv : Nat) : Nat × Option Int :=
  (dv, releasedNext p ((alookup dm dv).getD {}))

theorem map_relPair_fst (p : Int) (dm : DevState) :
    ∀ (L : List Nat), (L.map (relPair p dm)).map Prod.fst = L := by
  intro L
  induction L with
  | nil => rfl
  | cons a tl ih => simp only [List.map_cons, ih]; rfl

/-- release_all emits exactly one pair per involved device, in key order,
each proposing that device's released-to pid, and leaves every involved
device's entry in its released form. -/
theorem release_all_spec (p : Int) (dm : DevState)
    (hsortd : (dm.map Prod.fst).Pairwise (· < ·)) :
    (dev_release_all dm p).1
      = ((dm.filter (fun kv =>
          kv.2.holder == some p || kv.2.waiters.contains p)).map Prod.fst).map
          (relPair p dm) ∧
    (∀ dv, dv ∈ (dm.filter (fun kv =>
        kv.2.holder == some p || kv.2.waiters.contains p)).map Prod.fst →
      alookup (dev_release_all dm p).2 dv
        = some (releasedEntry p ((alookup dm dv).getD {}))) := by
  have hnd : (((dm.filter (fun kv =>
      kv.2.holder == some p || kv.2.waiters.contains p)).map Prod.fst)).Nodup := by
    have hsub := (List.filter_sublist
      (p := fun kv => kv.2.holder == some p || kv.2.waiters.contains p) dm).map
      Prod.fst
    exact ((hsortd.sublist hsub).imp ne_of_lt)
  unfold dev_release_all
  dsimp only
  obtain ⟨i1, i2, i3⟩ := release_fold_spec p ((dm.filter (fun kv =>
    kv.2.holder == some p || kv.2.waiters.contains p)).map Prod.fst) [] dm hnd
  exact ⟨by simpa using i1, i3⟩

/-- Each key in the filtered map has a real binding in a sorted map. -/
theorem mem_filter_keys_entry (dm : DevState) (cond : Nat × Device → Bool)
    (hsortd : (dm.map Prod.fst).Pairwise (· < ·)) (dv : Nat)
    (hm : dv ∈ (dm.filter cond).map Prod.fst) :
    ∃ d, alookup dm dv = some d := by
  obtain ⟨kv, hkv, hfst⟩ := List.mem_map.mp hm
  obtain ⟨k, dd⟩ := kv
  dsimp only at hfst
  subst hfst
  exact ⟨dd, alookup_of_mem_sorted_nat dm _ dd hsortd
    (List.mem_of_mem_filter hkv)⟩


/-- Full hand-off: for any device p holds whose waiter queue has a first
valid waiter w (skipping any number of stale entries), the release_all +
wakeup sequence of process termination makes w the device's holder,
rewrites w's table entry to a woken (Ready) one, and enqueues w — under
the real system invariants that device keys are sorted and no pid sits
in two waiter queues at once. -/
theorem handoff_engine (p : Int) (dm : DevState) (procs : List (Int × PCB))
    (rq : List Int)
    (hsortd : (dm.map Prod.fst).Pairwise (· < ·))
    (hdisj : ∀ dev1 dev2 d1 d2, dev1 ≠ dev2 → alookup dm dev1 = some d1 →
      alookup dm dev2 = some d2 → ∀ q, q ∈ d1.waiters → q ∉ d2.waiters)
    (dev : Nat) (d : Device) (w : Int)
    (hdev : alookup dm dev = some d) (hh : d.holder = some p)
    (hfind : d.waiters.find? (devWaiterValid procs dev) = some w) :
    (∃ rest, alookup ((dev_release_all dm p).1.foldl
        (fun acc q => run_wakeup q.1 q.2 acc.1 acc.2.1 acc.2.2)
        ((dev_release_all dm p).2, procs, rq)).1 dev
      = some { holder := some w, waiters := rest }) ∧
    (∃ wpcb, alookup procs w = some wpcb ∧
      alookup ((dev_release_all dm p).1.foldl
        (fun acc q => run_wakeup q.1 q.2 acc.1 acc.2.1 acc.2.2)
        ((dev_release_all dm p).2, procs, rq)).2.1 w
        = some { wpcb with
            state := ProcessState.Ready
            blocked_time := 0
            blocked_reason := BlockReason.None
            waiting_device := UINT32_MAX }) ∧
    w ∈ ((dev_release_all dm p).1.foldl
        (fun acc q => run_wakeup q.1 q.2 acc.1 acc.2.1 acc.2.2)
        ((dev_release_all dm p).2, procs, rq)).2.2 := by
  obtain ⟨hpairs, hentries⟩ := release_all_spec p dm hsortd
  have hw_mem : w ∈ d.waiters := List.mem_of_find?_eq_some hfind
  have hmemdev : dev ∈ (dm.filter (fun kv =>
      kv.2.holder == some p || kv.2.waiters.contains p)).map Prod.fst := by
    refine List.mem_map_of_mem Prod.fst
      (List.mem_filter.mpr ⟨alookup_mem dm dev d hdev, ?_⟩)
    simp [hh]
  have hndL : ((dm.filter (fun kv =>
      kv.2.holder == some p || kv.2.waiters.contains p)).map Prod.fst).Nodup := by
    have hsub := (List.filter_sublist
      (p := fun kv => kv.2.holder == some p || kv.2.waiters.contains p) dm).map
      Prod.fst
    exact ((hsortd.sublist hsub).imp ne_of_lt)
  obtain ⟨preD, postD, hsplit⟩ := List.append_of_mem hmemdev
  rw [hsplit] at hndL
  have hndparts := List.nodup_append.mp hndL
  have hnd_pre : preD.Nodup := hndparts.1
  have hnd_devpost := List.nodup_cons.mp hndparts.2.1
  have hdev_notin_post : dev ∉ postD := hnd_devpost.1
  have hnd_post : postD.Nodup := hnd_devpost.2
  have hdev_notin_pre : dev ∉ preD := by
    intro hcon
    exact hndparts.2.2 hcon (List.mem_cons_self dev postD)
  have hpre_post_dis : ∀ a, a ∈ preD → a ∉ postD := by
    intro a ha hcon
    exact hndparts.2.2 ha (List.mem_cons_of_mem dev hcon)
  have hmem_all : ∀ dv, dv ∈ preD ∨ dv = dev ∨ dv ∈ postD →
      dv ∈ (dm.filter (fun kv =>
        kv.2.holder == some p || kv.2.waiters.contains p)).map Prod.fst := by
    intro dv hdv
    rw [hsplit]
    rcases hdv with h | h | h
    · exact List.mem_append_left _ h
    · exact List.mem_append_right _ (h ▸ List.mem_cons_self dev postD)
    · exact List.mem_append_right _ (List.mem_cons_of_mem dev h)
  have hentry_of : ∀ dv, dv ∈ preD ∨ dv ∈ postD →
      ∃ ddv, alookup dm dv = some ddv ∧
        alookup (dev_release_all dm p).2 dv
          = some (releasedEntry p ddv) ∧
        relPair p dm dv = (dv, releasedNext p ddv) := by
    intro dv hdv
    have hdv' : dv ∈ (dm.filter (fun kv =>
        kv.2.holder == some p || kv.2.waiters.contains p)).map Prod.fst :=
      hmem_all dv (by tauto)
    obtain ⟨ddv, hddv⟩ := mem_filter_keys_entry dm _ hsortd dv hdv'
    refine ⟨ddv, hddv, ?_, ?_⟩
    · rw [hentries dv hdv', hddv]
      simp only [Option.getD_some]
    · unfold relPair
      rw [hddv]
      simp only [Option.getD_some]
  have hne_of_pre : ∀ dv, dv ∈ preD → dv ≠ dev := by
    intro dv hdv hcon
    exact hdev_notin_pre (hcon ▸ hdv)
  have hne_of_post : ∀ dv, dv ∈ postD → dv ≠ dev := by
    intro dv hdv hcon
    exact hdev_notin_post (hcon ▸ hdv)
  -- q in dev's queue is in no other involved device's queue
  have hq_only : ∀ q dv ddv, q ∈ d.waiters → dv ≠ dev →
      alookup dm dv = some ddv → q ∉ ddv.waiters := by
    intro q dv ddv hq hne hddv hcon
    exact hdisj dv dev ddv d hne hddv hdev q hcon hq
  -- decompose the fold
  have hfold_eq : (dev_release_all dm p).1.foldl
      (fun acc q => run_wakeup q.1 q.2 acc.1 acc.2.1 acc.2.2)
      ((dev_release_all dm p).2, procs, rq)
      = (postD.map (relPair p dm)).foldl
          (fun acc q => run_wakeup q.1 q.2 acc.1 acc.2.1 acc.2.2)
          ((fun acc q => run_wakeup q.1 q.2 acc.1 acc.2.1 acc.2.2)
            ((preD.map (relPair p dm)).foldl
              (fun acc q => run_wakeup q.1 q.2 acc.1 acc.2.1 acc.2.2)
              ((dev_release_all dm p).2, procs, rq))
            (dev, d.waiters.head?)) := by
    rw [hpairs, hsplit, List.map_append, List.map_cons, List.foldl_append,
      List.foldl_cons]
    have hmid : relPair p dm dev = (dev, d.waiters.head?) := by
      unfold relPair releasedNext
      rw [hdev]
      simp only [Option.getD_some]
      rw [if_pos hh]
    rw [hmid]
  rw [hfold_eq]
  -- phase 1
  cases hP : (preD.map (relPair p dm)).foldl
      (fun acc q => run_wakeup q.1 q.2 acc.1 acc.2.1 acc.2.2)
      ((dev_release_all dm p).2, procs, rq) with
  | mk dmP P2 =>
  obtain ⟨procsP, rqP⟩ := P2
  have hpre_fst : ∀ pr, pr ∈ preD.map (relPair p dm) → pr.1 ≠ dev := by
    intro pr hpr
    obtain ⟨dv, hdv, hpr'⟩ := List.mem_map.mp hpr
    rw [← hpr']
    exact hne_of_pre dv hdv
  have hdmP_dev : alookup dmP dev = some (releasedEntry p d) := by
    have hfr := fold_dev_other dev (preD.map (relPair p dm))
      (dev_release_all dm p).2 procs rq hpre_fst
    rw [hP] at hfr
    rw [hfr, hentries dev hmemdev, hdev]
    simp only [Option.getD_some]
  have hprocsP : ∀ q, q ∈ d.waiters → alookup procsP q = alookup procs q := by
    intro q hq
    have hk := fold_pid_keep q (preD.map (relPair p dm))
      (dev_release_all dm p).2 procs rq
      (by rw [map_relPair_fst]; exact hnd_pre)
      (by
        intro pr hpr hcon
        obtain ⟨dv, hdv, hpr'⟩ := List.mem_map.mp hpr
        obtain ⟨ddv, hddv, _, hrp⟩ := hentry_of dv (Or.inl hdv)
        rw [← hpr', hrp] at hcon
        dsimp only at hcon
        exact hq_only q dv ddv hq (hne_of_pre dv hdv) hddv
          (releasedNext_mem p ddv q hcon))
      (by
        intro pr hpr d' hd' hcon
        obtain ⟨dv, hdv, hpr'⟩ := List.mem_map.mp hpr
        obtain ⟨ddv, hddv, hrel, hrp⟩ := hentry_of dv (Or.inl hdv)
        rw [← hpr', hrp] at hd'
        dsimp only at hd'
        rw [hrel] at hd'
        injection hd' with hd'
        subst hd'
        exact hq_only q dv ddv hq (hne_of_pre dv hdv) hddv
          (releasedEntry_waiters p ddv q hcon))
    rw [hP] at hk
    exact hk.1
  have hfindP : d.waiters.find? (devWaiterValid procsP dev) = some w := by
    rw [find_congr (devWaiterValid procsP dev) (devWaiterValid procs dev)
      d.waiters ?_]
    · exact hfind
    · intro q hq
      unfold devWaiterValid
      rw [hprocsP q hq]
  -- phase 2
  cases hwL : d.waiters with
  | nil =>
    rw [hwL] at hfind
    simp at hfind
  | cons w0 T =>
  have hrelE : releasedEntry p d
      = { holder := some w0, waiters := T } := by
    unfold releasedEntry
    rw [if_pos hh, hwL]
  rw [hrelE] at hdmP_dev
  rw [hwL] at hfindP
  obtain ⟨hQ1, hQ2, hQ3⟩ := run_wakeup_found dev procsP dmP rqP w0 T w
    hdmP_dev hfindP
  dsimp only [List.head?]
  cases hQ : run_wakeup dev (some w0) dmP procsP rqP with
  | mk dmQ Q2 =>
  obtain ⟨procsQ, rqQ⟩ := Q2
  rw [hQ] at hQ1 hQ2 hQ3
  dsimp only at hQ1 hQ2 hQ3 ⊢
  -- phase 3
  have hpost_fst : ∀ pr, pr ∈ postD.map (relPair p dm) → pr.1 ≠ dev := by
    intro pr hpr
    obtain ⟨dv, hdv, hpr'⟩ := List.mem_map.mp hpr
    rw [← hpr']
    exact hne_of_post dv hdv
  have hdmQ_post : ∀ dv, dv ∈ postD → ∀ d', alookup dmQ dv = some d' →
      w ∉ d'.waiters := by
    intro dv hdv d' hd' hcon
    obtain ⟨ddv, hddv, hrel, _⟩ := hentry_of dv (Or.inr hdv)
    have h1 := run_wakeup_dev_other dev (some w0) dmP procsP rqP dv
      (hne_of_post dv hdv)
    rw [hQ] at h1
    have h2 := fold_dev_other dv (preD.map (relPair p dm))
      (dev_release_all dm p).2 procs rq
      (by
        intro pr hpr hcon2
        obtain ⟨dv2, hdv2, hpr'⟩ := List.mem_map.mp hpr
        rw [← hpr'] at hcon2
        unfold relPair at hcon2
        dsimp only at hcon2
        exact hpre_post_dis dv2 hdv2 (hcon2 ▸ hdv))
    rw [hP] at h2
    rw [h1, h2, hrel] at hd'
    injection hd' with hd'
    subst hd'
    exact hq_only w dv ddv hw_mem (hne_of_post dv hdv) hddv
      (releasedEntry_waiters p ddv w hcon)
  obtain ⟨wpcbP, hwlk, hprocsQ⟩ := hQ2
  have hkw := fold_pid_keep w (postD.map (relPair p dm)) dmQ procsQ rqQ
    (by rw [map_relPair_fst]; exact hnd_post)
    (by
      intro pr hpr hcon
      obtain ⟨dv, hdv, hpr'⟩ := List.mem_map.mp hpr
      obtain ⟨ddv, hddv, _, hrp⟩ := hentry_of dv (Or.inr hdv)
      rw [← hpr', hrp] at hcon
      dsimp only at hcon
      exact hq_only w dv ddv hw_mem (hne_of_post dv hdv) hddv
        (releasedNext_mem p ddv w hcon))
    (by
      intro pr hpr d' hd' hcon
      obtain ⟨dv, hdv, hpr'⟩ := List.mem_map.mp hpr
      have hfst : pr.1 = dv := by rw [← hpr']; rfl
      rw [hfst] at hd'
      exact hdmQ_post dv hdv d' hd' hcon)
  have hdevfr := fold_dev_other dev (postD.map (relPair p dm)) dmQ procsQ rqQ
    hpost_fst
  refine ⟨?_, ?_, ?_⟩
  · obtain ⟨rest, hrest⟩ := hQ1
    exact ⟨rest, by rw [hdevfr, hrest]⟩
  · refine ⟨wpcbP, (hprocsP w hw_mem).symm.trans hwlk, ?_⟩
    rw [hkw.1, hprocsQ, alookup_ainsert_self]
  · refine hkw.2 ?_
    rw [hQ3]
    exact List.mem_append_right _ (List.mem_singleton_self w)


theorem C3_terminate (s : SysState) (p : Int) (pcb : PCB)
    (pt : List PageTableEntry)
    (hproc : alookup s.pm.processes p = some pcb)
    (hsortp : (s.pm.processes.map Prod.fst).Pairwise (· < ·))
    (hsortd : (s.dev.map Prod.fst).Pairwise (· < ·))
    (hfsnd : (s.fs.open_files.map Prod.fst).Nodup)
    (hpt : alookup s.mm.page_tables p = some pt)
    (hframes : ∀ i fi, s.mm.frames.get? i = some fi → fi.allocated = true →
      fi.owner_pid = p → ∃ e, e ∈ pt ∧ e.present = true ∧ e.frame_number = i)
    (hold : ∀ dev d, alookup s.dev dev = some d → d.holder = some p →
      p ∉ d.waiters)
    (hdisj : ∀ dev1 dev2 d1 d2, dev1 ≠ dev2 → alookup s.dev dev1 = some d1 →
      alookup s.dev dev2 = some d2 → ∀ q, q ∈ d1.waiters → q ∉ d2.waiters) :
    ∃ s', terminate_process s p = some s' ∧
      alookup s'.pm.processes p = none ∧
      (∀ i fi, s'.mm.frames.get? i = some fi → fi.allocated = true →
        fi.owner_pid ≠ p) ∧
      devCleanFor p s'.dev ∧
      (∀ g, g ∈ pcb.fd_map.map Prod.snd →
        alookup s'.fs.open_files g = none) ∧
      (∀ dev d w,
        alookup s.dev dev = some d → d.holder = some p →
        d.waiters.find? (devWaiterValid s.pm.processes dev) = some w →
        (∃ d', alookup s'.dev dev = some d' ∧ d'.holder = some w) ∧
        (∃ wpcb', alookup s'.pm.processes w = some wpcb' ∧
          wpcb'.state = ProcessState.Ready ∧
          wpcb'.blocked_reason = BlockReason.None) ∧
        w ∈ s'.pm.ready_queue) := by
  obtain ⟨cl1, nps⟩ := release_all_clean p s.dev hsortd hold
  obtain ⟨f1, f2, f3, f4⟩ := fold_wakeup_keep p (dev_release_all s.dev p).1
    (dev_release_all s.dev p).2 s.pm.processes s.pm.ready_queue cl1 nps
  unfold terminate_process
  rw [hproc]
  dsimp only
  rw [show alookup ((dev_release_all s.dev p).1.foldl
      (fun acc q => run_wakeup q.1 q.2 acc.1 acc.2.1 acc.2.2)
      ((dev_release_all s.dev p).2, s.pm.processes, s.pm.ready_queue)).2.1 p
    = some pcb from f2.trans hproc]
  dsimp only
  unfold free_process_memory
  rw [hpt]
  dsimp only
  refine ⟨_, rfl, ?_, ?_, ?_, ?_, ?_⟩
  · dsimp only
    apply alookup_aerase_self
    exact (f4 hsortp).imp ne_of_lt
  · dsimp only
    exact free_fold_no_owner p pt s.mm.frames hframes
  · exact f1
  · intro g hg
    dsimp only
    exact close_fold_absent pcb.fd_map s.fs hfsnd g hg
  · intro dev d w hdev hh hfind
    have hw_mem : w ∈ d.waiters := List.mem_of_find?_eq_some hfind
    have hwp : w ≠ p := fun hcon => (hold dev d hdev hh) (hcon ▸ hw_mem)
    obtain ⟨e1, e2, e3⟩ := handoff_engine p s.dev s.pm.processes
      s.pm.ready_queue hsortd hdisj dev d w hdev hh hfind
    obtain ⟨rest, hrest⟩ := e1
    obtain ⟨wpcb, hwlk, hwres⟩ := e2
    refine ⟨⟨_, hrest, rfl⟩, ?_, ?_⟩
    · refine ⟨{ wpcb with
          state := ProcessState.Ready
          blocked_time := 0
          blocked_reason := BlockReason.None
          waiting_device := UINT32_MAX }, ?_, rfl, rfl⟩
      dsimp only
      rw [alookup_aerase_ne _ _ _ hwp]
      exact hwres
    · exact e3


theorem tick_complete_release (s : SysState) (p : Int) (pcb pcb' : PCB)
    (s2 : SysState) (pt : List PageTableEntry) (cinst : Instruction)
    (hproc : alookup s.pm.processes p = some pcb)
    (hcur : s.pm.cur_pid = p) (hp : ¬ p = -1)
    (hpc : pcb.pc < pcb.program.length)
    (hget : pcb.program.get? pcb.pc = some cinst)
    (hx : execute_instruction
      { s with pm := { s.pm with next_tick := s.pm.next_tick + 1 } } pcb cinst
      = some (pcb', s2))
    (hlast : pcb'.program.length ≤ pcb'.pc + 1)
    (hsortp2 : (s2.pm.processes.map Prod.fst).Pairwise (· < ·))
    (hsortd2 : (s2.dev.map Prod.fst).Pairwise (· < ·))
    (hfsnd2 : (s2.fs.open_files.map Prod.fst).Nodup)
    (hpt2 : alookup s2.mm.page_tables p = some pt)
    (hframes2 : ∀ i fi, s2.mm.frames.get? i = some fi → fi.allocated = true →
      fi.owner_pid = p → ∃ e, e ∈ pt ∧ e.present = true ∧ e.frame_number = i)
    (hold2 : ∀ dev d, alookup s2.dev dev = some d → d.holder = some p →
      p ∉ d.waiters)
    (hdisj2 : ∀ dev1 dev2 d1 d2, dev1 ≠ dev2 →
      alookup s2.dev dev1 = some d1 → alookup s2.dev dev2 = some d2 →
      ∀ q, q ∈ d1.waiters → q ∉ d2.waiters) :
    ∃ s', tick s = some s' ∧
      alookup s'.pm.processes p = none ∧
      (∀ i fi, s'.mm.frames.get? i = some fi → fi.allocated = true →
        fi.owner_pid ≠ p) ∧
      devCleanFor p s'.dev ∧
      (∀ g, g ∈ pcb'.fd_map.map Prod.snd →
        alookup s'.fs.open_files g = none) ∧
      (∀ dev d w,
        alookup s2.dev dev = some d → d.holder = some p →
        d.waiters.find? (devWaiterValid s2.pm.processes dev) = some w →
        (∃ d', alookup s'.dev dev = some d' ∧ d'.holder = some w) ∧
        (∃ wpcb', alookup s'.pm.processes w = some wpcb' ∧
          wpcb'.state = ProcessState.Ready ∧
          wpcb'.blocked_reason = BlockReason.None) ∧
        w ∈ s'.pm.ready_queue) := by
  subst hcur
  obtain ⟨cl1, nps⟩ := release_all_clean s.pm.cur_pid s2.dev hsortd2 hold2
  unfold tick tick_run tick_core
  dsimp only
  simp only [if_neg hp]
  rw [hproc]
  dsimp only
  rw [if_pos hpc, hget]
  dsimp only
  rw [hx]
  dsimp only
  unfold tick_post
  dsimp only
  rw [if_pos hlast]
  unfold free_process_memory
  dsimp only
  rw [hpt2]
  dsimp only
  obtain ⟨f1, f2, f3, f4⟩ := fold_wakeup_keep s.pm.cur_pid
    (dev_release_all s2.dev s.pm.cur_pid).1
    (dev_release_all s2.dev s.pm.cur_pid).2
    (ainsert (ainsert s2.pm.processes s.pm.cur_pid
      { pcb' with
        pc := pcb'.pc + 1
        time_slice_left := pcb'.time_slice_left - 1
        cpu_time := pcb'.cpu_time + 1 }) s.pm.cur_pid
      { pcb' with
        pc := pcb'.pc + 1
        time_slice_left := pcb'.time_slice_left - 1
        cpu_time := pcb'.cpu_time + 1
        state := ProcessState.Terminated })
    s2.pm.ready_queue cl1 nps
  refine ⟨_, rfl, ?_, ?_, ?_, ?_, ?_⟩
  · dsimp only
    rw [check_blocked_alookup]
    rw [alookup_aerase_self]
    · rfl
    · refine ((f4 ?_).imp ne_of_lt)
      exact pairwise_keys_ainsert _ _ _ (pairwise_keys_ainsert _ _ _ hsortp2)
  · dsimp only
    exact free_fold_no_owner s.pm.cur_pid pt s2.mm.frames hframes2
  · exact f1
  · intro g hg
    dsimp only
    exact close_fold_absent pcb'.fd_map s2.fs hfsnd2 g hg
  · intro dev d w hdev hh hfind
    have hw_mem : w ∈ d.waiters := List.mem_of_find?_eq_some hfind
    have hwp : w ≠ s.pm.cur_pid :=
      fun hcon => (hold2 dev d hdev hh) (hcon ▸ hw_mem)
    have hqne : ∀ q, q ∈ d.waiters → q ≠ s.pm.cur_pid :=
      fun q hq hcon => (hold2 dev d hdev hh) (hcon ▸ hq)
    have hconv : d.waiters.find? (devWaiterValid
        (ainsert (ainsert s2.pm.processes s.pm.cur_pid
          { pcb' with
            pc := pcb'.pc + 1
            time_slice_left := pcb'.time_slice_left - 1
            cpu_time := pcb'.cpu_time + 1 }) s.pm.cur_pid
          { pcb' with
            pc := pcb'.pc + 1
            time_slice_left := pcb'.time_slice_left - 1
            cpu_time := pcb'.cpu_time + 1
            state := ProcessState.Terminated }) dev) = some w := by
      rw [find_congr _ (devWaiterValid s2.pm.processes dev) d.waiters ?_]
      · exact hfind
      · intro q hq
        unfold devWaiterValid
        rw [alookup_ainsert_ne _ _ _ _ (hqne q hq),
          alookup_ainsert_ne _ _ _ _ (hqne q hq)]
    obtain ⟨e1, e2, e3⟩ := handoff_engine s.pm.cur_pid s2.dev
      (ainsert (ainsert s2.pm.processes s.pm.cur_pid
        { pcb' with
          pc := pcb'.pc + 1
          time_slice_left := pcb'.time_slice_left - 1
          cpu_time := pcb'.cpu_time + 1 }) s.pm.cur_pid
        { pcb' with
          pc := pcb'.pc + 1
          time_slice_left := pcb'.time_slice_left - 1
          cpu_time := pcb'.cpu_time + 1
          state := ProcessState.Terminated })
      s2.pm.ready_queue hsortd2 hdisj2 dev d w hdev hh hconv
    obtain ⟨rest, hrest⟩ := e1
    obtain ⟨wpcb, hwlk, hwres⟩ := e2
    refine ⟨⟨_, hrest, rfl⟩, ?_, ?_⟩
    · refine ⟨{ wpcb with
          state := ProcessState.Ready
          blocked_time := 0
          blocked_reason := BlockReason.None
          waiting_device := UINT32_MAX }, ?_, rfl, rfl⟩
      dsimp only
      rw [check_blocked_alookup]
      rw [alookup_aerase_ne _ _ _ hwp]
      rw [hwres]
      rfl
    · dsimp only
      rw [check_blocked_rq]
      exact List.mem_append_left _ e3


/-- C3: after terminate_process(p), and likewise after p completes
naturally during a tick (its pc reaches program.size after its final
instruction, whatever that instruction's opcode), p is absent from the
process table, no allocated physical frame is labelled with owner p, p
neither holds nor waits on any device, and no file descriptor bound
through p's fd_map remains in the file system's open-file table; every
device p held whose waiter queue contains a valid waiter (a process
blocked on that device) is handed to the first such waiter, skipping any
stale queue entries before it, and that waiter is woken (Ready, reason
cleared) and enqueued on the ready queue. -/
theorem C3_process_cleanup (s : SysState) (p : Int) (pcb : PCB)
    (pt : List PageTableEntry)
    (hproc : alookup s.pm.processes p = some pcb)
    (hsortp : (s.pm.processes.map Prod.fst).Pairwise (· < ·))
    (hsortd : (s.dev.map Prod.fst).Pairwise (· < ·))
    (hfsnd : (s.fs.open_files.map Prod.fst).Nodup)
    (hpt : alookup s.mm.page_tables p = some pt)
    (hframes : ∀ i fi, s.mm.frames.get? i = some fi → fi.allocated = true →
      fi.owner_pid = p → ∃ e, e ∈ pt ∧ e.present = true ∧ e.frame_number = i)
    (hold : ∀ dev d, alookup s.dev dev = some d → d.holder = some p →
      p ∉ d.waiters)
    (hdisj : ∀ dev1 dev2 d1 d2, dev1 ≠ dev2 → alookup s.dev dev1 = some d1 →
      alookup s.dev dev2 = some d2 → ∀ q, q ∈ d1.waiters → q ∉ d2.waiters) :
    (∃ s', terminate_process s p = some s' ∧
      alookup s'.pm.processes p = none ∧
      (∀ i fi, s'.mm.frames.get? i = some fi → fi.allocated = true →
        fi.owner_pid ≠ p) ∧
      devCleanFor p s'.dev ∧
      (∀ g, g ∈ pcb.fd_map.map Prod.snd →
        alookup s'.fs.open_files g = none) ∧
      (∀ dev d w,
        alookup s.dev dev = some d → d.holder = some p →
        d.waiters.find? (devWaiterValid s.pm.processes dev) = some w →
        (∃ d', alookup s'.dev dev = some d' ∧ d'.holder = some w) ∧
        (∃ wpcb', alookup s'.pm.processes w = some wpcb' ∧
          wpcb'.state = ProcessState.Ready ∧
          wpcb'.blocked_reason = BlockReason.None) ∧
        w ∈ s'.pm.ready_queue)) ∧
    (∀ cinst pcb' s2 pt2, s.pm.cur_pid = p → ¬ p = -1 →
      pcb.pc < pcb.program.length →
      pcb.program.get? pcb.pc = some cinst →
      execute_instruction
        { s with pm := { s.pm with next_tick := s.pm.next_tick + 1 } }
        pcb cinst = some (pcb', s2) →
      pcb'.program.length ≤ pcb'.pc + 1 →
      (s2.pm.processes.map Prod.fst).Pairwise (· < ·) →
      (s2.dev.map Prod.fst).Pairwise (· < ·) →
      (s2.fs.open_files.map Prod.fst).Nodup →
      alookup s2.mm.page_tables p = some pt2 →
      (∀ i fi, s2.mm.frames.get? i = some fi → fi.allocated = true →
        fi.owner_pid = p →
        ∃ e, e ∈ pt2 ∧ e.present = true ∧ e.frame_number = i) →
      (∀ dev d, alookup s2.dev dev = some d → d.holder = some p →
        p ∉ d.waiters) →
      (∀ dev1 dev2 d1 d2, dev1 ≠ dev2 → alookup s2.dev dev1 = some d1 →
        alookup s2.dev dev2 = some d2 →
        ∀ q, q ∈ d1.waiters → q ∉ d2.waiters) →
      ∃ s', tick s = some s' ∧
        alookup s'.pm.processes p = none ∧
        (∀ i fi, s'.mm.frames.get? i = some fi → fi.allocated = true →
          fi.owner_pid ≠ p) ∧
        devCleanFor p s'.dev ∧
        (∀ g, g ∈ pcb'.fd_map.map Prod.snd →
          alookup s'.fs.open_files g = none) ∧
        (∀ dev d w,
          alookup s2.dev dev = some d → d.holder = some p →
          d.waiters.find? (devWaiterValid s2.pm.processes dev) = some w →
          (∃ d', alookup s'.dev dev = some d' ∧ d'.holder = some w) ∧
          (∃ wpcb', alookup s'.pm.processes w = some wpcb' ∧
            wpcb'.state = ProcessState.Ready ∧
            wpcb'.blocked_reason = BlockReason.None) ∧
          w ∈ s'.pm.ready_queue)) :=
  ⟨C3_terminate s p pcb pt hproc hsortp hsortd hfsnd hpt hframes hold hdisj,
   fun cinst pcb' s2 pt2 hc hp hpc hget hx hlast hsortp2 hsortd2 hfsnd2 hpt2
       hframes2 hold2 hdisj2 =>
     tick_complete_release s p pcb pcb' s2 pt2 cinst hproc hc hp hpc hget hx
       hlast hsortp2 hsortd2 hfsnd2 hpt2 hframes2 hold2 hdisj2⟩


def C3pcb : PCB :=
  { pid := 1
    state := ProcessState.Running
    program := [{ type := OpType.Compute }]
    pc := 0
    fd_map := [((3 : Int), (5 : Int))] }

def C3wpcb : PCB :=
  { pid := 2
    state := ProcessState.Blocked
    blocked_reason := BlockReason.Device
    waiting_device := 7 }

def C3pte : PageTableEntry :=
  { present := true, frame_number := 0, referenced := true }

def C3s : SysState :=
  { pm := { processes := [(1, C3pcb), (2, C3wpcb)]
            ready_queue := []
            next_pid := 3
            cur_pid := 1 }
    mm := { page_tables := [(1, [C3pte])]
            process_stats := [(1, {})]
            frames := [{ allocated := true, owner_pid := 1, page_number := 0 }, {}] }
    dev := [(7, { holder := some 1, waiters := [2] })]
    fs := { open_files := [((5 : Int), { inode_num := 1 })], next_fd := 6 } }

theorem C3_process_cleanup_witness :
    (∃ s', terminate_process C3s 1 = some s' ∧
      alookup s'.pm.processes 1 = none ∧
      (∀ i fi, s'.mm.frames.get? i = some fi → fi.allocated = true →
        fi.owner_pid ≠ 1) ∧
      devCleanFor 1 s'.dev ∧
      (∀ g, g ∈ C3pcb.fd_map.map Prod.snd →
        alookup s'.fs.open_files g = none) ∧
      (∀ dev d w,
        alookup C3s.dev dev = some d → d.holder = some 1 →
        d.waiters.find? (devWaiterValid C3s.pm.processes dev) = some w →
        (∃ d', alookup s'.dev dev = some d' ∧ d'.holder = some w) ∧
        (∃ wpcb', alookup s'.pm.processes w = some wpcb' ∧
          wpcb'.state = ProcessState.Ready ∧
          wpcb'.blocked_reason = BlockReason.None) ∧
        w ∈ s'.pm.ready_queue)) ∧
    (∀ cinst pcb' s2 pt2, C3s.pm.cur_pid = 1 → ¬ (1 : Int) = -1 →
      C3pcb.pc < C3pcb.program.length →
      C3pcb.program.get? C3pcb.pc = some cinst →
      execute_instruction
        { C3s with pm := { C3s.pm with next_tick := C3s.pm.next_tick + 1 } }
        C3pcb cinst = some (pcb', s2) →
      pcb'.program.length ≤ pcb'.pc + 1 →
      (s2.pm.processes.map Prod.fst).Pairwise (· < ·) →
      (s2.dev.map Prod.fst).Pairwise (· < ·) →
      (s2.fs.open_files.map Prod.fst).Nodup →
      alookup s2.mm.page_tables 1 = some pt2 →
      (∀ i fi, s2.mm.frames.get? i = some fi → fi.allocated = true →
        fi.owner_pid = 1 →
        ∃ e, e ∈ pt2 ∧ e.present = true ∧ e.frame_number = i) →
      (∀ dev d, alookup s2.dev dev = some d → d.holder = some 1 →
        (1 : Int) ∉ d.waiters) →
      (∀ dev1 dev2 d1 d2, dev1 ≠ dev2 → alookup s2.dev dev1 = some d1 →
        alookup s2.dev dev2 = some d2 →
        ∀ q, q ∈ d1.waiters → q ∉ d2.waiters) →
      ∃ s', tick C3s = some s' ∧
        alookup s'.pm.processes 1 = none ∧
        (∀ i fi, s'.mm.frames.get? i = some fi → fi.allocated = true →
          fi.owner_pid ≠ 1) ∧
        devCleanFor 1 s'.dev ∧
        (∀ g, g ∈ pcb'.fd_map.map Prod.snd →
          alookup s'.fs.open_files g = none) ∧
        (∀ dev d w,
          alookup s2.dev dev = some d → d.holder = some 1 →
          d.waiters.find? (devWaiterValid s2.pm.processes dev) = some w →
          (∃ d', alookup s'.dev dev = some d' ∧ d'.holder = some w) ∧
          (∃ wpcb', alookup s'.pm.processes w = some wpcb' ∧
            wpcb'.state = ProcessState.Ready ∧
            wpcb'.blocked_reason = BlockReason.None) ∧
          w ∈ s'.pm.ready_queue)) :=
  C3_process_cleanup C3s 1 C3pcb [C3pte] (by decide) (by decide) (by decide)
    (by decide) (by decide)
    (by
      intro i fi hg
      match i with
      | 0 =>
        cases hg
        intro _ _
        exact ⟨C3pte, by decide, by decide, by decide⟩
      | 1 =>
        cases hg
        intro ha _
        exact absurd ha (by decide)
      | (n + 2) =>
        cases hg)
    (by
      intro dev d hd hh
      have hm := alookup_mem _ _ _ hd
      simp only [C3s, List.mem_cons] at hm
      rcases hm with hm | hm
      · injection hm with h1 h2
        subst h2
        simp at hh
        simp [hh]
      · simp at hm)
    (by
      intro dev1 dev2 d1 d2 hne h1 h2 q hq
      have m1 := alookup_mem _ _ _ h1
      have m2 := alookup_mem _ _ _ h2
      simp only [C3s, List.mem_cons, List.not_mem_nil, or_false] at m1 m2
      injection m1 with a1 b1
      injection m2 with a2 b2
      exact absurd (a1.trans a2.symm) hne)

end Tinix
